import Mathlib

/-!
vdpusb-proxy: a verification development

A shallow embedding of `apps/vdpusb-proxy/main.c` (the USB proxy that mirrors a real
device, reached through libusb, as a virtual device) and theorems about it.

Conventions of the embedding

* C `int` values are `Int`; arithmetic that the C code performs on an `int` is wrapped
  to 32 bits by `wrap_int`, and the conversion of an `int` to `size_t` (which happens
  in a comparison against `sizeof`) is `to_size_t`.
* A C pointer into a byte buffer is the memory it points into, `Nat → Nat`, read at an
  offset; a byte read is reduced modulo 256.
* A loop that the C code does not bound is given fuel; `none` means that the loop has
  not left within the fuel.
* Calls into libusb and into the vdp gadget library are recorded in an event log, and
  their results come from an explicit environment.
-/

namespace Vdp

/-! ## Machine integers -/

/-- A C `int` (32 bits, two's complement): the value an arithmetic result wraps to. -/
def wrap_int (x : Int) : Int := (x + 2 ^ 31) % 2 ^ 32 - 2 ^ 31

/-- Conversion of a C `int` to `size_t` (64 bits), as the usual arithmetic conversions
do when an `int` is compared with a `sizeof` expression. -/
def to_size_t (x : Int) : Nat := (x % 2 ^ 64).toNat

/-! ## extra_to_descriptors (main.c, lines 52-83) -/

/-- Modelled from the spec: `sizeof(struct vdp_usb_descriptor_header)`. The struct is
declared in `vdp/usb.h`, which is not part of the sources at hand; the header is the two
one-byte fields `bLength` and `bDescriptorType`, the 2-byte header size. -/
def sizeof_header : Nat := 2

/-- The field `bLength` of the descriptor header at offset `off` of the memory `extra`
points into: the first byte of the record. -/
def bLength (extra : Nat → Nat) (off : Nat) : Nat := extra off % 256

/-- The variables of the counting loop of `extra_to_descriptors`: the remaining length,
the record counter and the header pointer `h` (as an offset from `extra`), together with
the offsets at which the loop has read a header so far. -/
structure CountState where
  extra_length : Int
  cnt : Int
  h : Nat
  reads : List Nat
  deriving DecidableEq, Repr

/-- The test of `while (extra_length >= sizeof(*h))`: `extra_length` is an `int` and
`sizeof` is a `size_t`, so the comparison is made in `size_t`. -/
def count_cond (s : CountState) : Bool := decide (sizeof_header ≤ to_size_t s.extra_length)

/-- One run of the body of the counting loop:
`extra_length -= (int)h->bLength; ++cnt; h = (const void*)h + (int)h->bLength;`. -/
def count_step (extra : Nat → Nat) (s : CountState) : CountState :=
  { extra_length := wrap_int (s.extra_length - (bLength extra s.h : Int))
    cnt := wrap_int (s.cnt + 1)
    h := s.h + bLength extra s.h
    reads := s.reads ++ [s.h] }

/-- The counting loop, with fuel: `some s` is the state in which the loop was left,
`none` says that it has not been left within `fuel` tests of the condition. -/
def count_loop (extra : Nat → Nat) : Nat → CountState → Option CountState
  | 0, _ => none
  | fuel + 1, s =>
    if count_cond s then count_loop extra fuel (count_step extra s) else some s

/-- The loop `for (i = 0; i < cnt; ++i) { headers[i] = (void*)extra; extra +=
headers[i]->bLength; }` followed by `headers[i] = NULL`: the array of `n + 1` header
pointers, as offsets from the start of the buffer, `none` being `NULL`. -/
def fill_headers (extra : Nat → Nat) : Nat → Nat → List (Option Nat)
  | 0, _ => [none]
  | n + 1, p => some p :: fill_headers extra n (p + bLength extra p)

/-- The function `extra_to_descriptors(extra, extra_length)`. The outer `Option` is the
fuel of the counting loop (`none`: the loop was not left), the inner one is the returned
pointer (`none`: `NULL`). `malloc_ok` says whether `malloc` of the array succeeds. -/
def extra_to_descriptors (malloc_ok : Bool) (extra : Nat → Nat) (extra_length : Int)
    (fuel : Nat) : Option (Option (List (Option Nat))) :=
  match count_loop extra fuel ⟨extra_length, 0, 0, []⟩ with
  | none => none
  | some s =>
    if s.extra_length ≠ 0 ∨ s.cnt = 0 then some none
    else if !malloc_ok then some none
    else some (some (fill_headers extra s.cnt.toNat 0))

/-- The memory that holds exactly the bytes of `buf` at the offsets below its length and
the byte `beyond` after them. -/
def mem_of (buf : List Nat) (beyond : Nat) : Nat → Nat := fun i => buf.getD i beyond

/-- The offsets at which the records of a partition start: the i-th is the sum of the
lengths of the i records before it. -/
def record_offsets (records : List (List Nat)) : List Nat :=
  (List.range records.length).map (fun i => ((records.take i).map List.length).sum)

/-- The offsets at which the records `rs` start when the first of them starts at `off`. -/
def record_starts : Nat → List (List Nat) → List Nat
  | _, [] => []
  | off, r :: rs => off :: record_starts (off + r.length) rs

/-- The memory `extra` holds, from offset `off` on, records of the lengths of `rs`: the
first byte of each is its length, and each is at least as long as a header. -/
def Layout (extra : Nat → Nat) : Nat → List (List Nat) → Prop
  | _, [] => True
  | off, r :: rs =>
    bLength extra off = r.length ∧ sizeof_header ≤ r.length ∧ Layout extra (off + r.length) rs

/-- The sum of the lengths of the records. -/
def total_length (rs : List (List Nat)) : Nat := (rs.map List.length).sum

/-! ## The descriptor translator (main.c, lines 625-736) -/

/-- The transfer type of an endpoint, `vdp_usb_gadget_ep_type`. The four values are the
ones `VDP_USB_ENDPOINT_TYPE` can give; the `default: assert(0)` branches of the switches
over the type are not reachable for a value of this type. -/
inductive EpType where
  | control
  | iso
  | bulk
  | int
  deriving DecidableEq, Repr

/-- Modelled from the spec: the macros of `vdp/usb.h` (not part of the sources at hand)
that take an endpoint address or attribute byte apart. They are masks and shifts of one
byte, so a result stored in a `uint8_t` is stored unchanged. The code is embedded over
any such macros. -/
structure UsbMacros where
  /-- `VDP_USB_URB_ENDPOINT_NUMBER`: the address without the direction bit. -/
  ENDPOINT_NUMBER : Nat → Nat
  /-- `VDP_USB_URB_ENDPOINT_IN`: the direction bit is set. -/
  ENDPOINT_IN : Nat → Bool
  /-- `VDP_USB_ENDPOINT_TYPE` of the attribute byte. -/
  ENDPOINT_TYPE : Nat → EpType
  /-- `VDP_USB_ENDPOINT_SYNC` of the attribute byte. -/
  ENDPOINT_SYNC : Nat → Nat
  /-- `VDP_USB_ENDPOINT_USAGE` of the attribute byte. -/
  ENDPOINT_USAGE : Nat → Nat

/-- Modelled from the spec: the macros, for use in examples. In the words of the spec the
endpoint number is the address with the direction bit (bit 7) removed, and an endpoint is
IN when that bit is set; type, synchronisation and usage are taken as the bit fields 0-1,
2-3 and 4-5 of the attribute byte, the layout of a USB endpoint descriptor. -/
def spec_macros : UsbMacros where
  ENDPOINT_NUMBER := fun a => a % 128
  ENDPOINT_IN := fun a => decide (128 ≤ a % 256)
  ENDPOINT_TYPE := fun a =>
    match a % 4 with
    | 0 => EpType.control
    | 1 => EpType.iso
    | 2 => EpType.bulk
    | _ => EpType.int
  ENDPOINT_SYNC := fun a => (a / 4) % 4
  ENDPOINT_USAGE := fun a => (a / 16) % 4

/-- Modelled from the spec: `vdp_usb_gadget_ep_in` of the enum `vdp_usb_gadget_ep_dir`
(declared in the absent `vdp/usb_gadget.h`), a bit of the direction set. -/
def vdp_usb_gadget_ep_in : Nat := 1

/-- Modelled from the spec: `vdp_usb_gadget_ep_out`, the other bit of the direction set. -/
def vdp_usb_gadget_ep_out : Nat := 2

/-- Modelled from the spec: `vdp_usb_gadget_ep_inout`, both directions. -/
def vdp_usb_gadget_ep_inout : Nat := 3

/-- The struct `libusb_endpoint_descriptor`, as far as the proxy reads it. `extra` is the
memory the pointer of that name points into. -/
structure EndpointDescriptor where
  bEndpointAddress : Nat
  bmAttributes : Nat
  wMaxPacketSize : Nat
  bInterval : Nat
  extra : Nat → Nat
  extra_length : Int

/-- The struct `libusb_interface_descriptor`; `bNumEndpoints` is the length of
`endpoint`. It is a `uint8_t`, so the list has at most 255 entries and the `uint8_t`
counters of the loops over it do not wrap. -/
structure InterfaceDescriptor where
  bInterfaceNumber : Nat
  bAlternateSetting : Nat
  bInterfaceClass : Nat
  bInterfaceSubClass : Nat
  bInterfaceProtocol : Nat
  iInterface : Nat
  endpoint : List EndpointDescriptor
  extra : Nat → Nat
  extra_length : Int

/-- The struct `vdp_usb_gadget_ep_caps` that `create_proxy_gadget_ep` fills in. -/
structure EpCaps where
  address : Nat
  dir : Nat
  type : EpType
  sync : Nat
  usage : Nat
  max_packet_size : Nat
  interval : Nat
  descriptors : Option (List (Option Nat))
  deriving DecidableEq, Repr

/-- An endpoint object of the gadget library: its identity and the capabilities it was
created with. -/
structure Ep where
  id : Nat
  caps : EpCaps
  deriving DecidableEq, Repr

/-- The struct `vdp_usb_gadget_interface_caps` that `create_proxy_gadget_interface`
fills in; `endpoints` is the array of endpoint pointers (its `NULL` terminator is
implicit). -/
structure InterfaceCaps where
  number : Nat
  alt_setting : Nat
  klass : Nat
  subklass : Nat
  protocol : Nat
  description : Nat
  descriptors : Option (List (Option Nat))
  endpoints : List Ep
  deriving DecidableEq, Repr

/-- An interface object of the gadget library. -/
structure Interface where
  id : Nat
  caps : InterfaceCaps
  deriving DecidableEq, Repr

/-- The calls into the gadget library that build and release objects. -/
inductive GadgetEvent where
  | ep_create (caps : EpCaps) (result : Option Nat)
  | ep_destroy (ep : Nat)
  | interface_create (caps : InterfaceCaps) (result : Option Nat)
  | interface_destroy (interface : Nat)
  deriving DecidableEq, Repr

/-- The state the translator runs in: how many allocations (calls of `malloc` and of the
constructors of the gadget library) were attempted so far, and the calls made. -/
structure World where
  allocs : Nat
  log : List GadgetEvent
  deriving DecidableEq, Repr

/-- What the translator cannot see in the code: the macros, which of the allocations
succeed (by the number of the attempt), and the fuel given to each run of the counting
loop of `extra_to_descriptors`. -/
structure TranslatorEnv where
  macros : UsbMacros
  alloc_ok : Nat → Bool
  fuel : Nat

/-- Modelled from the spec: `vdp_usb_gadget_ep_create` of the gadget library (not part of
the sources at hand), the constructor that takes the capabilities; it gives an object that
holds them, or `NULL` when its allocation fails. -/
def vdp_usb_gadget_ep_create (env : TranslatorEnv) (caps : EpCaps) (w : World) :
    Option Ep × World :=
  if env.alloc_ok w.allocs then
    (some ⟨w.allocs, caps⟩,
      { allocs := w.allocs + 1, log := w.log ++ [GadgetEvent.ep_create caps (some w.allocs)] })
  else
    (none, { allocs := w.allocs + 1, log := w.log ++ [GadgetEvent.ep_create caps none] })

/-- Modelled from the spec: `vdp_usb_gadget_ep_destroy` of the gadget library, the
destroy call of the endpoint level. -/
def vdp_usb_gadget_ep_destroy (ep : Ep) (w : World) : World :=
  { w with log := w.log ++ [GadgetEvent.ep_destroy ep.id] }

/-- Modelled from the spec: `vdp_usb_gadget_interface_create` of the gadget library. -/
def vdp_usb_gadget_interface_create (env : TranslatorEnv) (caps : InterfaceCaps) (w : World) :
    Option Interface × World :=
  if env.alloc_ok w.allocs then
    (some ⟨w.allocs, caps⟩,
      { allocs := w.allocs + 1,
        log := w.log ++ [GadgetEvent.interface_create caps (some w.allocs)] })
  else
    (none, { allocs := w.allocs + 1, log := w.log ++ [GadgetEvent.interface_create caps none] })

/-- The function `create_proxy_gadget_ep(handle, desc, dir)`. `none` says that the
parsing of the extra bytes did not return. The `malloc` inside `extra_to_descriptors` is
one allocation attempt, counted whether or not it is reached. -/
def create_proxy_gadget_ep (env : TranslatorEnv) (desc : EndpointDescriptor) (dir : Nat)
    (w : World) : Option (Option Ep × World) :=
  match extra_to_descriptors (env.alloc_ok w.allocs) desc.extra desc.extra_length env.fuel with
  | none => none
  | some descriptors =>
    let caps : EpCaps :=
      { address := env.macros.ENDPOINT_NUMBER desc.bEndpointAddress
        dir := dir
        type := env.macros.ENDPOINT_TYPE desc.bmAttributes
        sync := env.macros.ENDPOINT_SYNC desc.bmAttributes
        usage := env.macros.ENDPOINT_USAGE desc.bmAttributes
        max_packet_size := desc.wMaxPacketSize
        interval := desc.bInterval
        descriptors := descriptors }
    some (vdp_usb_gadget_ep_create env caps { w with allocs := w.allocs + 1 })

/-- The direction an endpoint address stands for:
`VDP_USB_URB_ENDPOINT_IN(a) ? vdp_usb_gadget_ep_in : vdp_usb_gadget_ep_out`. -/
def address_dir (m : UsbMacros) (a : Nat) : Nat :=
  if m.ENDPOINT_IN a then vdp_usb_gadget_ep_in else vdp_usb_gadget_ep_out

/-- The search `for (j = 0; j < num_endpoints; ++j)` for an endpoint already built with
the address `number`. -/
def endpoint_found (built : List Ep) (number : Nat) : Bool :=
  built.any (fun e => e.caps.address == number)

/-- The loop `for (j = i + 1; j < desc->bNumEndpoints; ++j)` over the descriptors after
the i-th, which ORs into `dir` the direction of each one with the same number. -/
def merge_dir (m : UsbMacros) (number : Nat) (dir : Nat) (later : List EndpointDescriptor) :
    Nat :=
  later.foldl (fun d e =>
    if m.ENDPOINT_NUMBER e.bEndpointAddress = number
    then d ||| address_dir m e.bEndpointAddress else d) dir

/-- The loop `for (i = 0; i < desc->bNumEndpoints; ++i)` of
`create_proxy_gadget_interface`, from the descriptor at the head of `todo` on, with the
endpoints `built` so far (`caps.endpoints[0 .. num_endpoints-1]`). The result says whether
the loop ran to its end (`true`) or left through `goto out3`, and gives the endpoints
built. -/
def build_endpoints (env : TranslatorEnv) :
    List EndpointDescriptor → List Ep → World → Option (Bool × List Ep × World)
  | [], built, w => some (true, built, w)
  | d :: later, built, w =>
    let number := env.macros.ENDPOINT_NUMBER d.bEndpointAddress
    if endpoint_found built number then build_endpoints env later built w
    else
      let dir := merge_dir env.macros number (address_dir env.macros d.bEndpointAddress) later
      match create_proxy_gadget_ep env d dir w with
      | none => none
      | some (none, w1) => some (false, built, w1)
      | some (some ep, w1) => build_endpoints env later (built ++ [ep]) w1

/-- The loop at `out3` of `create_proxy_gadget_interface`:
`for (i = 0; i < num_endpoints; ++i) vdp_usb_gadget_ep_destroy(caps.endpoints[i]);`. -/
def destroy_endpoints (built : List Ep) (w : World) : World :=
  built.foldl (fun w e => vdp_usb_gadget_ep_destroy e w) w

/-- The function `create_proxy_gadget_interface(handle, desc)`. `none` says that a parse
of extra bytes did not return; otherwise the result is the interface or `NULL`. The
releases of the temporary arrays (`free`) are not recorded. -/
def create_proxy_gadget_interface (env : TranslatorEnv) (desc : InterfaceDescriptor)
    (w : World) : Option (Option Interface × World) :=
  match extra_to_descriptors (env.alloc_ok w.allocs) desc.extra desc.extra_length env.fuel with
  | none => none
  | some descriptors =>
    let w1 : World := { w with allocs := w.allocs + 1 }
    if !env.alloc_ok w1.allocs then some (none, { w1 with allocs := w1.allocs + 1 })
    else
      match build_endpoints env desc.endpoint [] { w1 with allocs := w1.allocs + 1 } with
      | none => none
      | some (false, built, w2) => some (none, destroy_endpoints built w2)
      | some (true, built, w2) =>
        let caps : InterfaceCaps :=
          { number := desc.bInterfaceNumber
            alt_setting := desc.bAlternateSetting
            klass := desc.bInterfaceClass
            subklass := desc.bInterfaceSubClass
            protocol := desc.bInterfaceProtocol
            description := desc.iInterface
            descriptors := descriptors
            endpoints := built }
        match vdp_usb_gadget_interface_create env caps w2 with
        | (some interface, w3) => some (some interface, w3)
        | (none, w3) => some (none, destroy_endpoints built w3)

/-- The members of a list without repetition, each at the place of its first
occurrence. -/
def first_occurrences : List Nat → List Nat
  | [] => []
  | x :: xs => x :: (first_occurrences xs).filter (fun y => y ≠ x)

/-- The OR of the directions of all entries of `E` with the endpoint number `n`. -/
def or_of_directions (m : UsbMacros) (E : List EndpointDescriptor) (n : Nat) : Nat :=
  ((E.filter (fun d => m.ENDPOINT_NUMBER d.bEndpointAddress = n)).map
    (fun d => address_dir m d.bEndpointAddress)).foldl (fun a b => a ||| b) 0

/-- The reference of the deduplication, in the words of the specification: the distinct
endpoint numbers occurring in `E`, in the order of first occurrence, each with the OR of
the directions of all entries of `E` with that number. -/
def reference_endpoints (m : UsbMacros) (E : List EndpointDescriptor) : List (Nat × Nat) :=
  (first_occurrences (E.map (fun d => m.ENDPOINT_NUMBER d.bEndpointAddress))).map
    (fun n => (n, or_of_directions m E n))

/-- The reference of the direction set of the endpoint number `n`, in the words of the
specification: the set holds IN when some entry of `E` with that number has the direction
bit of its address set, and OUT when some entry of `E` with that number has it clear. -/
def spec_direction_set (m : UsbMacros) (E : List EndpointDescriptor) (n : Nat) : Nat :=
  (if E.any (fun d => decide (m.ENDPOINT_NUMBER d.bEndpointAddress = n) &&
      m.ENDPOINT_IN d.bEndpointAddress)
    then vdp_usb_gadget_ep_in else 0) |||
  (if E.any (fun d => decide (m.ENDPOINT_NUMBER d.bEndpointAddress = n) &&
      !m.ENDPOINT_IN d.bEndpointAddress)
    then vdp_usb_gadget_ep_out else 0)

/-- The reference of the endpoint list, in the words of the specification and without any
part of the code: the distinct endpoint numbers occurring in `E`, in the order of first
occurrence, each once, with the direction set of that number. -/
def spec_endpoints (m : UsbMacros) (E : List EndpointDescriptor) : List (Nat × Nat) :=
  (first_occurrences (E.map (fun d => m.ENDPOINT_NUMBER d.bEndpointAddress))).map
    (fun n => (n, spec_direction_set m E n))

/-- The address and the direction set of an endpoint. -/
def Ep.key (e : Ep) : Nat × Nat := (e.caps.address, e.caps.dir)

/-- An endpoint descriptor with the given address, no extra bytes and the attributes of
an interrupt endpoint. -/
def plain_endpoint (address : Nat) : EndpointDescriptor :=
  { bEndpointAddress := address, bmAttributes := 3, wMaxPacketSize := 8, bInterval := 10,
    extra := fun _ => 0, extra_length := 0 }

/-- An interface descriptor with the given endpoints and no extra bytes. -/
def plain_interface (E : List EndpointDescriptor) : InterfaceDescriptor :=
  { bInterfaceNumber := 0, bAlternateSetting := 0, bInterfaceClass := 3,
    bInterfaceSubClass := 0, bInterfaceProtocol := 0, iInterface := 0,
    endpoint := E, extra := fun _ => 0, extra_length := 0 }

/-- An environment in which every allocation succeeds. -/
def plain_env : TranslatorEnv := { macros := spec_macros, alloc_ok := fun _ => true, fuel := 1 }

/-! ## create_string_tables (main.c, lines 85-185) -/

/-- The error code `LIBUSB_ERROR_TIMEOUT` of libusb. -/
def LIBUSB_ERROR_TIMEOUT : Int := -7

/-- A `struct vdp_usb_string`: a string index and the UTF-8 text. -/
structure VdpUsbString where
  index : Nat
  str : List Nat
  deriving DecidableEq, Repr

/-- A `struct vdp_usb_string_table`. `strings` is the array of 256 entries behind the
pointer of that name, given by the entries stored at its start (all the following slots
are zero); `none` is the `NULL` pointer of the terminating table. -/
structure StringTable where
  language_id : Nat
  strings : Option (List VdpUsbString)
  deriving DecidableEq, Repr

/-- What `create_string_tables` gets from outside: the answers of the device to the calls
of `libusb_get_string_descriptor` (the returned `int` and the memory of the buffer after
the call), the outcome of each `malloc`, and the conversion function of the vdp library.
The answer to the query for string index `j` made while the table number `i` is scanned is
`get_string i j`. -/
structure StringEnv where
  langs : Int × (Nat → Nat)
  get_string : Nat → Nat → Int × (Nat → Nat)
  tables_alloc_ok : Bool
  strings_alloc_ok : Nat → Bool
  str_alloc_ok : Nat → Nat → Bool
  /-- `vdp_usb_utf16le_to_utf8`, applied to the bytes of the UTF-16 text. -/
  utf16le_to_utf8 : List Nat → List Nat

/-- The bytes `buf2[2 .. 2 + 2 * num_chars - 1]` that are converted. -/
def string_payload (buf2 : Nat → Nat) (num_chars : Int) : List Nat :=
  (List.range (2 * num_chars.toNat)).map (fun k => buf2 (2 + k) % 256)

/-- The loop `for (j = 1; j <= 255; ++j)` of `create_string_tables` for the table number
`i`, from index `j` on with `n` indices left, `strings` being the entries stored so far
(`idx` is their number). `none` is the jump to `fail`. -/
def scan_strings (env : StringEnv) (i : Nat) :
    Nat → Nat → List VdpUsbString → Option (List VdpUsbString)
  | 0, _, strings => some strings
  | n + 1, j, strings =>
    let res := (env.get_string i j).1
    if res < 0 then
      if res = LIBUSB_ERROR_TIMEOUT then some strings
      else scan_strings env i n (j + 1) strings
    else if res < 2 then scan_strings env i n (j + 1) strings
    else if (res - 2) % 2 ≠ 0 then scan_strings env i n (j + 1) strings
    else
      let num_chars := (res - 2) / 2
      if !env.str_alloc_ok i j then none
      else
        scan_strings env i n (j + 1)
          (strings ++ [⟨j, env.utf16le_to_utf8 (string_payload (env.get_string i j).2 num_chars)⟩])

/-- The language id of table `i`: `buf1[(i + 1) * 2] | (buf1[1 + ((i + 1) * 2)] << 8)`. -/
def language_id_at (buf1 : Nat → Nat) (i : Nat) : Nat :=
  (buf1 ((i + 1) * 2) % 256) ||| ((buf1 (1 + (i + 1) * 2) % 256) <<< 8)

/-- The loop `for (i = 0; i < num_langs; ++i)` of `create_string_tables`, from table `i`
on with `n` tables left; the result is the tables filled in, `none` is the jump to
`fail`. -/
def fill_tables (env : StringEnv) (buf1 : Nat → Nat) : Nat → Nat → Option (List StringTable)
  | 0, _ => some []
  | n + 1, i =>
    if !env.strings_alloc_ok i then none
    else
      match scan_strings env i 255 1 [] with
      | none => none
      | some strings =>
        match fill_tables env buf1 n (i + 1) with
        | none => none
        | some rest => some (⟨language_id_at buf1 i, some strings⟩ :: rest)

/-- The function `create_string_tables(handle)`: `none` is `NULL`, otherwise the array of
`num_langs + 1` tables, the last of which is the zero terminator. -/
def create_string_tables (env : StringEnv) : Option (List StringTable) :=
  let res := env.langs.1
  if res < 0 then none
  else if res < 4 then none
  else if (res - 2) % 2 ≠ 0 then none
  else
    let num_langs := (res - 2) / 2
    if !env.tables_alloc_ok then none
    else
      match fill_tables env env.langs.2 num_langs.toNat 0 with
      | none => none
      | some tables => some (tables ++ [⟨0, none⟩])

/-- The answer to a string query is one that gets stored: a success whose length is at
least 2 and even. -/
def stored_response (res : Int) : Bool := decide (0 ≤ res ∧ 2 ≤ res ∧ res % 2 = 0)

/-- The reference of the scan of table `i`, in the words of the specification: the
indices 1..255 before the first one whose query timed out, of which those with a stored
kind of answer are kept, in increasing order. -/
def reference_indices (env : StringEnv) (i : Nat) : List Nat :=
  ((List.range' 1 255).takeWhile
    (fun j => decide ((env.get_string i j).1 ≠ LIBUSB_ERROR_TIMEOUT))).filter
    (fun j => stored_response (env.get_string i j).1)

/-- A device with two languages whose answers are: index 1 a string of 1 character, index 2
an odd length, index 3 a pipe error, index 4 a one-byte answer, index 5 an empty string,
index 6 and later a timeout. -/
def sample_string_env : StringEnv where
  langs := (6, fun k => [6, 3, 9, 4, 7, 4].getD k 0)
  get_string := fun _ j =>
    match j with
    | 1 => (4, fun k => [4, 3, 65, 0].getD k 0)
    | 2 => (5, fun _ => 0)
    | 3 => (-9, fun _ => 0)
    | 4 => (1, fun _ => 0)
    | 5 => (2, fun _ => 0)
    | _ => (LIBUSB_ERROR_TIMEOUT, fun _ => 0)
  tables_alloc_ok := true
  strings_alloc_ok := fun _ => true
  str_alloc_ok := fun _ _ => true
  utf16le_to_utf8 := fun bytes => bytes.filter (fun b => b ≠ 0)

/-! ## proxy_gadget_config_enable (main.c, lines 510-588) -/

/-- The error code `LIBUSB_ERROR_NOT_FOUND` of libusb. -/
def LIBUSB_ERROR_NOT_FOUND : Int := -5

/-- The calls `proxy_gadget_config_enable` makes into libusb. -/
inductive HostCall where
  | get_active_config_descriptor
  | free_config_descriptor
  | detach_kernel_driver (interface : Nat)
  | claim_interface (interface : Nat)
  | release_interface (interface : Nat)
  | set_configuration (configuration : Int)
  deriving DecidableEq, Repr

/-- What `proxy_gadget_config_enable` does that can be seen from outside: a call into
libusb with its result (0 for a call without one), or an error message printed about a
call and its result. -/
inductive HostEvent where
  | call (c : HostCall) (res : Int)
  | printed (c : HostCall) (res : Int)
  deriving DecidableEq, Repr

/-- The answers of libusb during one run of `proxy_gadget_config_enable`. A read of the
active configuration descriptor gives a result and the interface numbers
`desc->interface[i].altsetting[0].bInterfaceNumber` for `i < desc->bNumInterfaces`;
`active_before` is the read made first, `active_after` the one made after the
configuration was selected. The result of a call made in a loop is given by the loop
index `i` (a `uint8_t` below `bNumInterfaces`, which does not wrap). -/
structure HostStack where
  active_before : Int × List Nat
  detach_before : Nat → Int
  set_configuration : Int
  active_after : Int × List Nat
  detach_after : Nat → Int
  claim : Nat → Int
  release : Nat → Int

/-- The first loop of the activation: `libusb_detach_kernel_driver` on each interface,
an error being printed when the result is neither 0 nor `LIBUSB_ERROR_NOT_FOUND`. -/
def detach_interfaces (res : Nat → Int) : Nat → List Nat → List HostEvent
  | _, [] => []
  | i, n :: rest =>
    [HostEvent.call (HostCall.detach_kernel_driver n) (res i)] ++
    (if res i ≠ 0 ∧ res i ≠ LIBUSB_ERROR_NOT_FOUND
      then [HostEvent.printed (HostCall.detach_kernel_driver n) (res i)] else []) ++
    detach_interfaces res (i + 1) rest

/-- The second loop of the activation: on each interface `libusb_detach_kernel_driver`
and then `libusb_claim_interface`, each with its error message. -/
def claim_interfaces (host : HostStack) : Nat → List Nat → List HostEvent
  | _, [] => []
  | i, n :: rest =>
    [HostEvent.call (HostCall.detach_kernel_driver n) (host.detach_after i)] ++
    (if host.detach_after i ≠ 0 ∧ host.detach_after i ≠ LIBUSB_ERROR_NOT_FOUND
      then [HostEvent.printed (HostCall.detach_kernel_driver n) (host.detach_after i)]
      else []) ++
    [HostEvent.call (HostCall.claim_interface n) (host.claim i)] ++
    (if host.claim i ≠ 0
      then [HostEvent.printed (HostCall.claim_interface n) (host.claim i)] else []) ++
    claim_interfaces host (i + 1) rest

/-- The loop of the deactivation: `libusb_release_interface` on each interface. -/
def release_interfaces (host : HostStack) : Nat → List Nat → List HostEvent
  | _, [] => []
  | i, n :: rest =>
    [HostEvent.call (HostCall.release_interface n) (host.release i)] ++
    (if host.release i ≠ 0
      then [HostEvent.printed (HostCall.release_interface n) (host.release i)] else []) ++
    release_interfaces host (i + 1) rest

/-- The function `proxy_gadget_config_enable(config, value)`, `number` being
`config->caps.number`: the calls it makes and the errors it prints, in order. -/
def proxy_gadget_config_enable (host : HostStack) (number : Nat) (value : Int) :
    List HostEvent :=
  if value ≠ 0 then
    [HostEvent.call HostCall.get_active_config_descriptor host.active_before.1] ++
    (if host.active_before.1 = 0 then
      detach_interfaces host.detach_before 0 host.active_before.2 ++
        [HostEvent.call HostCall.free_config_descriptor 0]
    else [HostEvent.printed HostCall.get_active_config_descriptor host.active_before.1]) ++
    [HostEvent.call (HostCall.set_configuration number) host.set_configuration] ++
    (if host.set_configuration ≠ 0 then
      [HostEvent.printed (HostCall.set_configuration number) host.set_configuration]
    else
      [HostEvent.call HostCall.get_active_config_descriptor host.active_after.1] ++
      (if host.active_after.1 = 0 then
        claim_interfaces host 0 host.active_after.2 ++
          [HostEvent.call HostCall.free_config_descriptor 0]
      else [HostEvent.printed HostCall.get_active_config_descriptor host.active_after.1]))
  else
    [HostEvent.call HostCall.get_active_config_descriptor host.active_before.1] ++
    (if host.active_before.1 = 0 then
      release_interfaces host 0 host.active_before.2 ++
        [HostEvent.call HostCall.free_config_descriptor 0]
    else [HostEvent.printed HostCall.get_active_config_descriptor host.active_before.1]) ++
    [HostEvent.call (HostCall.set_configuration (-1)) host.set_configuration] ++
    (if host.set_configuration ≠ 0 then
      [HostEvent.printed (HostCall.set_configuration (-1)) host.set_configuration]
    else [])

/-- The calls among the events, in order, without their results. -/
def calls_of (events : List HostEvent) : List HostCall :=
  events.filterMap (fun e =>
    match e with
    | HostEvent.call c _ => some c
    | HostEvent.printed _ _ => none)

/-- The detach results about which an error was printed, in order. -/
def detach_errors (events : List HostEvent) : List Int :=
  events.filterMap (fun e =>
    match e with
    | HostEvent.printed (HostCall.detach_kernel_driver _) r => some r
    | _ => none)

/-- The calls made before the first `libusb_set_configuration`. -/
def calls_before_select (events : List HostEvent) : List HostCall :=
  (calls_of events).takeWhile (fun c =>
    match c with
    | HostCall.set_configuration _ => false
    | _ => true)

/-- A device with the interfaces 0 and 1 on which the release of interface 0 fails. -/
def release_failing_host : HostStack where
  active_before := (0, [0, 1])
  detach_before := fun _ => 0
  set_configuration := 0
  active_after := (0, [0, 1])
  detach_after := fun _ => 0
  claim := fun _ => 0
  release := fun i => if i = 0 then -1 else 0

/-- A device whose active configuration has the interface 0 alone, while the
configuration that is selected has the interfaces 0 and 1; no kernel driver is bound
(every detach answers `LIBUSB_ERROR_NOT_FOUND`), and the claim of interface 0 fails. -/
def two_config_host : HostStack where
  active_before := (0, [0])
  detach_before := fun _ => LIBUSB_ERROR_NOT_FOUND
  set_configuration := 0
  active_after := (0, [0, 1])
  detach_after := fun i => if i = 0 then LIBUSB_ERROR_NOT_FOUND else -3
  claim := fun i => if i = 0 then -6 else 0
  release := fun _ => 0

/-! ## The slot tables and the device lifecycle (main.c, lines 40-50 and 949-1012, 1206-1253) -/

/-- The number of slots, `sizeof(proxy_devs)/sizeof(proxy_devs[0])`. -/
def NUM_SLOTS : Nat := 5

/-- A physical device as the hot-plug callbacks see it: `libusb_get_bus_number(dev)` and
`libusb_get_port_number(dev)`. -/
structure Device where
  bus : Nat
  port : Nat
  deriving DecidableEq, Repr

/-- A `libusb_device_handle`: its identity (the number of the open call that made it) and
the device `libusb_get_device` gives for it. -/
structure Handle where
  id : Nat
  dev : Device
  deriving DecidableEq, Repr

/-- The struct `proxy_device`. -/
structure ProxyDevice where
  handle : Handle
  gadget : Nat
  deriving DecidableEq, Repr

/-- The speed the virtual side is told, `vdp_usb_speed`. -/
inductive VdpSpeed where
  | low
  | full
  | high
  deriving DecidableEq, Repr

/-- The calls of the lifecycle code that open, close, build, tear down and notify. -/
inductive SlotEvent where
  | libusb_open (dev : Device) (result : Option Nat)
  | libusb_close (handle : Nat)
  | proxy_device_create (handle : Nat) (result : Option Nat)
  | vdp_usb_gadget_destroy (gadget : Nat)
  | vdp_usb_device_attach (slot : Nat) (speed : VdpSpeed) (ok : Bool)
  | vdp_usb_device_detach (slot : Nat)
  deriving DecidableEq, Repr

/-- The global state of the lifecycle code: the arrays `libusb_devs` and `proxy_devs`
(by index; `none` is `NULL`), `vdp_busnum`, the number of objects made so far (from which
a new handle or gadget takes its identity) and the calls made. -/
structure SlotTable where
  libusb_devs : Nat → Option Handle
  proxy_devs : Nat → Option ProxyDevice
  vdp_busnum : Int
  fresh : Nat
  log : List SlotEvent

/-- The state at the start of the event loop: every slot Empty. -/
def empty_slots (vdp_busnum : Int) : SlotTable :=
  { libusb_devs := fun _ => none, proxy_devs := fun _ => none, vdp_busnum := vdp_busnum,
    fresh := 0, log := [] }

/-- The assignment `a[i] = v` to an array given by index. -/
def set_at {α : Type} (a : Nat → α) (i : Nat) (v : α) : Nat → α :=
  fun j => if j = i then v else a j

/-- The function `proxy_device_destroy(proxy)`: the gadget is destroyed, then the handle
the proxy device holds is closed. -/
def proxy_device_destroy (proxy : ProxyDevice) : List SlotEvent :=
  [SlotEvent.vdp_usb_gadget_destroy proxy.gadget, SlotEvent.libusb_close proxy.handle.id]

/-- The loop of `hotplug_callback_attach` from slot `i` on, with `n` slots left: the
device is opened into the first slot in which both entries are `NULL`. -/
def attach_loop (dev : Device) (open_ok : Bool) : Nat → Nat → SlotTable → SlotTable
  | 0, _, s => s
  | n + 1, i, s =>
    if (s.libusb_devs i).isNone ∧ (s.proxy_devs i).isNone then
      if open_ok then
        { s with
          libusb_devs := set_at s.libusb_devs i (some ⟨s.fresh, dev⟩)
          fresh := s.fresh + 1
          log := s.log ++ [SlotEvent.libusb_open dev (some s.fresh)] }
      else
        { s with
          libusb_devs := set_at s.libusb_devs i none
          log := s.log ++ [SlotEvent.libusb_open dev none] }
    else attach_loop dev open_ok n (i + 1) s

/-- The function `hotplug_callback_attach` for the device `dev`; `open_ok` says whether
`libusb_open` succeeds. -/
def hotplug_callback_attach (dev : Device) (open_ok : Bool) (s : SlotTable) : SlotTable :=
  if (dev.bus : Int) = s.vdp_busnum then s
  else attach_loop dev open_ok NUM_SLOTS 0 s

/-- The loop of `hotplug_callback_detach` from slot `i` on, with `n` slots left. -/
def detach_loop (dev : Device) : Nat → Nat → SlotTable → SlotTable
  | 0, _, s => s
  | n + 1, i, s =>
    match s.libusb_devs i with
    | some h =>
      if dev.bus = h.dev.bus ∧ dev.port = h.dev.port then
        { s with
          libusb_devs := set_at s.libusb_devs i none
          log := s.log ++
            (if (s.proxy_devs i).isNone then [SlotEvent.libusb_close h.id] else []) }
      else detach_loop dev n (i + 1) s
    | none => detach_loop dev n (i + 1) s

/-- The function `hotplug_callback_detach` for the device `dev`. -/
def hotplug_callback_detach (dev : Device) (s : SlotTable) : SlotTable :=
  if (dev.bus : Int) = s.vdp_busnum then s
  else detach_loop dev NUM_SLOTS 0 s

/-- What one reconciliation pass gets from outside, by slot: whether
`proxy_device_create` succeeds (the reads of the descriptors and the construction of the
capability tree), the value of `libusb_get_device_speed`, and whether
`vdp_usb_device_attach` succeeds. -/
structure ReconcileEnv where
  create_ok : Nat → Bool
  speed : Nat → Nat
  attach_ok : Nat → Bool

/-- The `switch` over `libusb_get_device_speed`: `LIBUSB_SPEED_LOW` is 1,
`LIBUSB_SPEED_FULL` is 2, `LIBUSB_SPEED_HIGH` is 3, and every other value gives high. -/
def translate_speed (speed : Nat) : VdpSpeed :=
  match speed with
  | 1 => VdpSpeed.low
  | 2 => VdpSpeed.full
  | 3 => VdpSpeed.high
  | _ => VdpSpeed.high

/-- The function `proxy_device_create(handle)`, as far as the lifecycle code depends on
it: it gives a proxy device that holds the handle and a new gadget, or `NULL`; on no path
does it close the handle. -/
def proxy_device_create (ok : Bool) (gadget : Nat) (handle : Handle) : Option ProxyDevice :=
  if ok then some ⟨handle, gadget⟩ else none

/-- The body of the reconciliation loop of `main` for slot `i` (lines 1207-1243). -/
def reconcile_slot (env : ReconcileEnv) (i : Nat) (s : SlotTable) : SlotTable :=
  match s.libusb_devs i, s.proxy_devs i with
  | some h, none =>
    match proxy_device_create (env.create_ok i) s.fresh h with
    | none =>
      { s with
        libusb_devs := set_at s.libusb_devs i none
        log := s.log ++
          [SlotEvent.proxy_device_create h.id none, SlotEvent.libusb_close h.id] }
    | some proxy =>
      if env.attach_ok i then
        { s with
          proxy_devs := set_at s.proxy_devs i (some proxy)
          fresh := s.fresh + 1
          log := s.log ++
            [SlotEvent.proxy_device_create h.id (some proxy.gadget),
              SlotEvent.vdp_usb_device_attach i (translate_speed (env.speed i)) true] }
      else
        { s with
          proxy_devs := set_at (set_at s.proxy_devs i (some proxy)) i none
          libusb_devs := set_at s.libusb_devs i none
          fresh := s.fresh + 1
          log := s.log ++
            [SlotEvent.proxy_device_create h.id (some proxy.gadget),
              SlotEvent.vdp_usb_device_attach i (translate_speed (env.speed i)) false] ++
            proxy_device_destroy proxy }
  | none, some proxy =>
    { s with
      proxy_devs := set_at s.proxy_devs i none
      log := s.log ++ proxy_device_destroy proxy ++ [SlotEvent.vdp_usb_device_detach i] }
  | _, _ => s

/-- The reconciliation loop `for (i = 0; i < 5; ++i)` over the slots `i, i+1, ..`, with
`n` slots left. -/
def reconcile_loop (env : ReconcileEnv) : Nat → Nat → SlotTable → SlotTable
  | 0, _, s => s
  | n + 1, i, s => reconcile_loop env n (i + 1) (reconcile_slot env i s)

/-- One reconciliation pass of the main loop. -/
def reconcile (env : ReconcileEnv) (s : SlotTable) : SlotTable :=
  reconcile_loop env NUM_SLOTS 0 s

/-- A step of the device lifecycle: a hot-plug arrival, a hot-plug departure, or one
reconciliation pass of the main loop. -/
inductive LifecycleStep where
  | arrival (dev : Device) (open_ok : Bool)
  | departure (dev : Device)
  | pass (env : ReconcileEnv)

/-- The effect of a lifecycle step. -/
def lifecycle_step (s : SlotTable) : LifecycleStep → SlotTable
  | LifecycleStep.arrival dev open_ok => hotplug_callback_attach dev open_ok s
  | LifecycleStep.departure dev => hotplug_callback_detach dev s
  | LifecycleStep.pass env => reconcile env s

/-- The state after a sequence of lifecycle steps. -/
def lifecycle_run (s : SlotTable) (steps : List LifecycleStep) : SlotTable :=
  steps.foldl lifecycle_step s

/-- A slot is Empty: no real handle and no bridge. -/
def slot_empty (s : SlotTable) (i : Nat) : Prop :=
  s.libusb_devs i = none ∧ s.proxy_devs i = none

/-- The slot-table invariant at slot `i`: a bridge only with a real handle. -/
def bridge_has_handle (s : SlotTable) (i : Nat) : Prop :=
  (s.proxy_devs i).isSome = true → (s.libusb_devs i).isSome = true

/-- The events of a state that were added since the state `s0`. -/
def events_since (s0 s : SlotTable) : List SlotEvent := s.log.drop s0.log.length

/-- The handle ids a slot refers to: the one in `libusb_devs` and the one the proxy
device holds. -/
def slot_handle_ids (s : SlotTable) (j : Nat) : List Nat :=
  (s.libusb_devs j).toList.map (fun h => h.id) ++
    (s.proxy_devs j).toList.map (fun p => p.handle.id)

/-- An environment of a pass in which everything succeeds. -/
def all_ok_env : ReconcileEnv where
  create_ok := fun _ => true
  speed := fun _ => 3
  attach_ok := fun _ => true

/-- An environment of a pass in which the attach notification fails. -/
def attach_fails_env : ReconcileEnv where
  create_ok := fun _ => true
  speed := fun _ => 2
  attach_ok := fun _ => false

/-- An environment of a pass in which the tree construction fails. -/
def create_fails_env : ReconcileEnv where
  create_ok := fun _ => false
  speed := fun _ => 2
  attach_ok := fun _ => true

/-- The device on bus 1, port 2. -/
def sample_device : Device := ⟨1, 2⟩

/-- The handle ids closed by the events, in order. -/
def closed_ids (events : List SlotEvent) : List Nat :=
  events.filterMap (fun e =>
    match e with
    | SlotEvent.libusb_close h => some h
    | _ => none)

/-- The slots for which the virtual side was notified of an attach, in order. -/
def attached_slots (events : List SlotEvent) : List Nat :=
  events.filterMap (fun e =>
    match e with
    | SlotEvent.vdp_usb_device_attach i _ true => some i
    | _ => none)

/-- The handle ids that the body of the reconciliation loop closes at slot `j`. -/
def closes_of_slot (env : ReconcileEnv) (s : SlotTable) (j : Nat) : List Nat :=
  match s.libusb_devs j, s.proxy_devs j with
  | some h, none => if env.create_ok j = true ∧ env.attach_ok j = true then [] else [h.id]
  | none, some proxy => [proxy.handle.id]
  | _, _ => []

/-- The successful attach notifications of the body of the reconciliation loop at slot
`j`. -/
def attaches_of_slot (env : ReconcileEnv) (s : SlotTable) (j : Nat) : List Nat :=
  match s.libusb_devs j, s.proxy_devs j with
  | some _, none => if env.create_ok j = true ∧ env.attach_ok j = true then [j] else []
  | _, _ => []

/-- How the entries `l`, `p` of slot `j` before a reconciliation pass relate to the
entries `l1`, `p1` after it. -/
def slot_after (env : ReconcileEnv) (j : Nat) (l : Option Handle) (p : Option ProxyDevice)
    (l1 : Option Handle) (p1 : Option ProxyDevice) : Prop :=
  match l, p with
  | some h, none =>
    if env.create_ok j = true ∧ env.attach_ok j = true
    then l1 = some h ∧ ∃ g, p1 = some ⟨h, g⟩
    else l1 = none ∧ p1 = none
  | none, some _ => l1 = none ∧ p1 = none
  | _, _ => l1 = l ∧ p1 = p

/-! ## The transfer bridge (main.c, lines 187-486) -/

/-- The status of a request, `vdp_usb_urb_status`. -/
inductive UrbStatus where
  | completed
  | error
  | unlinked
  | stall
  | overflow
  deriving DecidableEq, Repr

/-- The values of `enum libusb_transfer_status` that libusb reports. -/
inductive TransferStatus where
  | completed
  | error
  | timed_out
  | cancelled
  | stall
  | no_device
  | overflow
  deriving DecidableEq, Repr

/-- The integer value of a member of `enum libusb_transfer_status`. -/
def TransferStatus.code : TransferStatus → Int
  | TransferStatus.completed => 0
  | TransferStatus.error => 1
  | TransferStatus.timed_out => 2
  | TransferStatus.cancelled => 3
  | TransferStatus.stall => 4
  | TransferStatus.no_device => 5
  | TransferStatus.overflow => 6

/-- The function `translate_transfer_status(status)` over the integer value of the
status. In the `default` branch `assert(0)` ends the program (`none`) unless assertions
are compiled out (`ndebug`), in which case the result is the error status. -/
def translate_transfer_status (ndebug : Bool) (status : Int) : Option UrbStatus :=
  if status = 0 then some UrbStatus.completed
  else if status = 1 then some UrbStatus.error
  else if status = 2 then some UrbStatus.error
  else if status = 3 then some UrbStatus.unlinked
  else if status = 4 then some UrbStatus.stall
  else if status = 5 then some UrbStatus.error
  else if status = 6 then some UrbStatus.overflow
  else if ndebug then some UrbStatus.error
  else none

/-- The type of a hardware transfer, `enum libusb_transfer_type`, as the fill functions
of libusb set it. -/
inductive TransferType where
  | control
  | isochronous
  | bulk
  | interrupt
  deriving DecidableEq, Repr

/-- An entry of `request->iso_packets`. -/
structure IsoPacket where
  length : Nat
  actual_length : Nat
  status : UrbStatus
  deriving DecidableEq, Repr

/-- An entry of `transfer->iso_packet_desc`. -/
structure IsoPacketDesc where
  length : Nat
  actual_length : Nat
  status : Int
  deriving DecidableEq, Repr

/-- A `struct vdp_usb_gadget_request`, as far as the bridge uses it. The field `is_in` is
the field `in` of the struct; `priv` is the hardware transfer of the request (`none` is
`NULL`). -/
structure Request where
  id : Nat
  is_in : Bool
  raw_setup_packet : List Nat
  transfer_buffer : List Nat
  transfer_length : Nat
  number_of_packets : Nat
  iso_packets : List IsoPacket
  status : UrbStatus
  actual_length : Nat
  priv : Option Nat
  deriving DecidableEq, Repr

/-- The memory `transfer->buffer` points to: the buffer the bridge allocated for a control
transfer (with its bytes), or the transfer buffer of a request. -/
inductive TransferBuffer where
  | bridge (bytes : List Nat)
  | of_request (request : Nat)
  deriving DecidableEq, Repr

/-- A `struct libusb_transfer`; `user_data` is the back-reference to the request (`none`
is `NULL`). -/
structure Transfer where
  user_data : Option Nat
  type : TransferType
  endpoint : Nat
  buffer : TransferBuffer
  length : Nat
  status : Int
  actual_length : Nat
  num_iso_packets : Nat
  iso_packet_desc : List IsoPacketDesc
  deriving DecidableEq, Repr

/-- What the bridge does that can be seen from outside: the callbacks of a request (with
the request as it is at the call), the calls into libusb on a transfer (a submitted
transfer as it is at the call), and the releases of a transfer, of the buffer of a
control transfer, and of a control buffer for which no transfer could be allocated. -/
inductive BridgeEvent where
  | complete (request : Nat) (snapshot : Request)
  | destroy (request : Nat)
  | submit (transfer : Nat) (snapshot : Transfer) (res : Int)
  | cancel (transfer : Nat) (res : Int)
  | free_transfer (transfer : Nat)
  | free_buffer (transfer : Nat)
  | free_unused_buffer (request : Nat)
  deriving DecidableEq, Repr

/-- The state of the bridge of one endpoint: the capabilities of the endpoint, the request
objects and the transfer objects by identity (a transfer that is not allocated or was
released is `none`), the list `ep->requests`, whether the endpoint still exists, the
transfers that libusb has accepted and not yet completed, the numbers of requests and
transfers made so far, and the events. -/
structure Bridge where
  caps : EpCaps
  requests : Nat → Request
  transfers : Nat → Option Transfer
  ep_requests : List Nat
  ep_alive : Bool
  in_flight : List Nat
  num_requests : Nat
  num_transfers : Nat
  log : List BridgeEvent

/-- What the bridge code depends on and does not define: whether assertions are compiled
out, and the macros `VDP_USB_ENDPOINT_IN_ADDRESS` and `VDP_USB_ENDPOINT_OUT_ADDRESS` of
the absent `vdp/usb.h`. -/
structure BridgeEnv where
  ndebug : Bool
  IN_ADDRESS : Nat → Nat
  OUT_ADDRESS : Nat → Nat

/-- The outcome of the allocations and of the submission during one enqueue, and the
content of freshly allocated memory. -/
structure EnqueueEnv where
  malloc_ok : Bool
  alloc_transfer_ok : Bool
  submit_res : Int
  uninitialised : Nat → Nat

/-- Modelled from the spec: the callback `request->complete` of the gadget library (not
part of the sources at hand); the virtual side observes the completion of the request. -/
def request_complete (s : Bridge) (r : Nat) : Bridge :=
  { s with log := s.log ++ [BridgeEvent.complete r (s.requests r)] }

/-- Modelled from the spec: the callback `request->destroy` of the gadget library; the
request leaves the set of in-flight requests of its endpoint and is released. -/
def request_destroy (s : Bridge) (r : Nat) : Bridge :=
  { s with
    ep_requests := s.ep_requests.filter (fun x => x ≠ r)
    log := s.log ++ [BridgeEvent.destroy r] }

/-- The three statements `request->status = vdp_usb_urb_status_error;
request->complete(request); request->destroy(request);` of every failure path of
`proxy_gadget_ep_enqueue`. -/
def fail_request (s : Bridge) (r : Nat) : Bridge :=
  let s1 : Bridge :=
    { s with requests := set_at s.requests r { s.requests r with status := UrbStatus.error } }
  request_destroy (request_complete s1 r) r

/-- The endpoint address of the transfer of a request:
`request->in ? VDP_USB_ENDPOINT_IN_ADDRESS(a) : VDP_USB_ENDPOINT_OUT_ADDRESS(a)`. -/
def transfer_address (env : BridgeEnv) (s : Bridge) (request : Request) : Nat :=
  if request.is_in then env.IN_ADDRESS s.caps.address else env.OUT_ADDRESS s.caps.address

/-- The buffer `buf` of a control transfer after the two `memcpy`: the 8 bytes of the
setup packet, then `transfer_length` bytes that are the start of the transfer buffer of
the request when the request is not IN, and are left as allocated when it is. -/
def control_buffer (e : EnqueueEnv) (request : Request) : List Nat :=
  request.raw_setup_packet.take 8 ++
    (if request.is_in then (List.range request.transfer_length).map e.uninitialised
     else request.transfer_buffer.take request.transfer_length)

/-- The transfer after `libusb_fill_control_transfer(transfer, handle, buf, cb, request,
0)` and the assignment of the endpoint. libusb takes the length from the setup packet:
8 plus the little-endian `wLength` in bytes 6 and 7. -/
def control_transfer (env : BridgeEnv) (e : EnqueueEnv) (s : Bridge) (r : Nat) : Transfer :=
  let buf := control_buffer e (s.requests r)
  { user_data := some r
    type := TransferType.control
    endpoint := transfer_address env s (s.requests r)
    buffer := TransferBuffer.bridge buf
    length := 8 + (buf.getD 6 0 + 256 * buf.getD 7 0)
    status := 0
    actual_length := 0
    num_iso_packets := 0
    iso_packet_desc := [] }

/-- The transfer after `libusb_fill_iso_transfer` and the loop that copies the packet
lengths of the request. -/
def iso_transfer (env : BridgeEnv) (s : Bridge) (r : Nat) : Transfer :=
  let request := s.requests r
  { user_data := some r
    type := TransferType.isochronous
    endpoint := transfer_address env s request
    buffer := TransferBuffer.of_request r
    length := request.transfer_length
    status := 0
    actual_length := 0
    num_iso_packets := request.number_of_packets
    iso_packet_desc := (List.range request.number_of_packets).map (fun i =>
      { length := (request.iso_packets.getD i ⟨0, 0, UrbStatus.completed⟩).length
        actual_length := 0
        status := 0 }) }

/-- The transfer after `libusb_fill_bulk_transfer` or `libusb_fill_interrupt_transfer`. -/
def bulk_transfer (env : BridgeEnv) (s : Bridge) (r : Nat) (type : TransferType) : Transfer :=
  let request := s.requests r
  { user_data := some r
    type := type
    endpoint := transfer_address env s request
    buffer := TransferBuffer.of_request r
    length := request.transfer_length
    status := 0
    actual_length := 0
    num_iso_packets := 0
    iso_packet_desc := [] }

/-- The common end of the three cases of `proxy_gadget_ep_enqueue`, after the transfer
`t` was allocated and filled in and `request->priv = transfer` was done:
`libusb_submit_transfer`, and on failure the release of the transfer (and of the buffer
of a control transfer) and the failure of the request. -/
def submit_transfer (e : EnqueueEnv) (s : Bridge) (r : Nat) (transfer : Transfer) : Bridge :=
  let t := s.num_transfers
  let s1 : Bridge :=
    { s with
      requests := set_at s.requests r { s.requests r with priv := some t }
      transfers := set_at s.transfers t (some transfer)
      num_transfers := t + 1
      log := s.log ++ [BridgeEvent.submit t transfer e.submit_res] }
  if e.submit_res ≠ 0 then
    fail_request
      { s1 with
        transfers := set_at s1.transfers t none
        log := s1.log ++ [BridgeEvent.free_transfer t] ++
          (if transfer.type = TransferType.control then [BridgeEvent.free_buffer t] else []) }
      r
  else { s1 with in_flight := s1.in_flight ++ [t] }

/-- The function `proxy_gadget_ep_enqueue(ep, request)` for the request `r`. -/
def proxy_gadget_ep_enqueue (env : BridgeEnv) (e : EnqueueEnv) (s : Bridge) (r : Nat) :
    Bridge :=
  match s.caps.type with
  | EpType.control =>
    if !e.malloc_ok then fail_request s r
    else if !e.alloc_transfer_ok then
      fail_request { s with log := s.log ++ [BridgeEvent.free_unused_buffer r] } r
    else submit_transfer e s r (control_transfer env e s r)
  | EpType.iso =>
    if !e.alloc_transfer_ok then fail_request s r
    else submit_transfer e s r (iso_transfer env s r)
  | EpType.bulk =>
    if !e.alloc_transfer_ok then fail_request s r
    else submit_transfer e s r (bulk_transfer env s r TransferType.bulk)
  | EpType.int =>
    if !e.alloc_transfer_ok then fail_request s r
    else submit_transfer e s r (bulk_transfer env s r TransferType.interrupt)

/-- The loop of the isochronous case of `proxy_gadget_transfer_cb` from packet `i` on,
with `n` packets left: status and actual length of each packet are copied back. -/
def copy_iso_packets (ndebug : Bool) (descs : List IsoPacketDesc) :
    Nat → Nat → List IsoPacket → Option (List IsoPacket)
  | 0, _, packets => some packets
  | n + 1, i, packets =>
    let desc := descs.getD i ⟨0, 0, 0⟩
    match translate_transfer_status ndebug desc.status with
    | none => none
    | some status =>
      copy_iso_packets ndebug descs n (i + 1)
        (packets.set i
          { packets.getD i ⟨0, 0, UrbStatus.completed⟩ with
            status := status, actual_length := desc.actual_length })

/-- The `switch (transfer->type)` of `proxy_gadget_transfer_cb`: the request after it, or
`none` when an assertion ends the program. -/
def complete_request (ndebug : Bool) (transfer : Transfer) (request : Request) :
    Option Request :=
  match transfer.type with
  | TransferType.control =>
    match translate_transfer_status ndebug transfer.status with
    | none => none
    | some status =>
      let request1 := { request with status := status, actual_length := transfer.actual_length }
      if request.is_in then
        match transfer.buffer with
        | TransferBuffer.bridge bytes =>
          some { request1 with
            transfer_buffer := (bytes.drop 8).take transfer.actual_length ++
              request.transfer_buffer.drop transfer.actual_length }
        | TransferBuffer.of_request _ => some request1
      else some request1
  | TransferType.isochronous =>
    match copy_iso_packets ndebug transfer.iso_packet_desc transfer.num_iso_packets 0
        request.iso_packets with
    | none => none
    | some packets => some { request with iso_packets := packets }
  | TransferType.bulk =>
    match translate_transfer_status ndebug transfer.status with
    | none => none
    | some status =>
      some { request with status := status, actual_length := transfer.actual_length }
  | TransferType.interrupt =>
    match translate_transfer_status ndebug transfer.status with
    | none => none
    | some status =>
      some { request with status := status, actual_length := transfer.actual_length }

/-- The function `proxy_gadget_transfer_cb(transfer)` for the transfer `t`. `none` says
that the program ends (an assertion, or a transfer that does not exist). -/
def proxy_gadget_transfer_cb (env : BridgeEnv) (s : Bridge) (t : Nat) : Option Bridge :=
  match s.transfers t with
  | none => none
  | some transfer =>
    match transfer.user_data with
    | none =>
      some { s with
        transfers := set_at s.transfers t none
        log := s.log ++
          (if transfer.type = TransferType.control then [BridgeEvent.free_buffer t] else []) ++
          [BridgeEvent.free_transfer t] }
    | some r =>
      match complete_request env.ndebug transfer (s.requests r) with
      | none => none
      | some request =>
        let s1 : Bridge :=
          { s with
            requests := set_at s.requests r { request with priv := none }
            log := s.log ++
              (if transfer.type = TransferType.control then [BridgeEvent.free_buffer t]
               else []) }
        let s2 := request_destroy (request_complete s1 r) r
        some { s2 with
          transfers := set_at s2.transfers t none
          log := s2.log ++ [BridgeEvent.free_transfer t] }

/-- The call `libusb_cancel_transfer(request->priv)` made by dequeue and disable: `none`
when the pointer is `NULL` or the transfer was released. -/
def cancel_request (cancel_res : Int) (s : Bridge) (r : Nat) : Option Bridge :=
  match (s.requests r).priv with
  | none => none
  | some t =>
    match s.transfers t with
    | none => none
    | some _ => some { s with log := s.log ++ [BridgeEvent.cancel t cancel_res] }

/-- The function `proxy_gadget_ep_dequeue(ep, request)`. -/
def proxy_gadget_ep_dequeue (cancel_res : Int) (s : Bridge) (r : Nat) : Option Bridge :=
  cancel_request cancel_res s r

/-- A loop over the list `ep->requests` (`vdp_list_for_each`) that runs `body` on each
request and stops when the program ends. -/
def for_each_request (body : Bridge → Nat → Option Bridge) :
    List Nat → Bridge → Option Bridge
  | [], s => some s
  | r :: rest, s =>
    match body s r with
    | none => none
    | some s1 => for_each_request body rest s1

/-- The function `proxy_gadget_ep_enable(ep, value)`; `cancel_res` gives the result of
the cancel call by request. -/
def proxy_gadget_ep_enable (cancel_res : Nat → Int) (s : Bridge) (value : Int) :
    Option Bridge :=
  if value = 0 then
    for_each_request (fun s r => cancel_request (cancel_res r) s r) s.ep_requests s
  else some s

/-- The body of the loop of `proxy_gadget_ep_destroy` for the request `r`:
`transfer = request->priv; request->priv = NULL; transfer->user_data = NULL;` and the
cancel call. -/
def sever_request (cancel_res : Nat → Int) (s : Bridge) (r : Nat) : Option Bridge :=
  match (s.requests r).priv with
  | none => none
  | some t =>
    match s.transfers t with
    | none => none
    | some transfer =>
      some { s with
        requests := set_at s.requests r { s.requests r with priv := none }
        transfers := set_at s.transfers t (some { transfer with user_data := none })
        log := s.log ++ [BridgeEvent.cancel t (cancel_res r)] }

/-- The function `proxy_gadget_ep_destroy(ep)`. -/
def proxy_gadget_ep_destroy (cancel_res : Nat → Int) (s : Bridge) : Option Bridge :=
  for_each_request (sever_request cancel_res) s.ep_requests s

/-- What libusb reports when a transfer completes: the status, the actual length, the
content of the memory behind `transfer->buffer`, and status and actual length of each
isochronous packet. -/
structure Completion where
  status : TransferStatus
  actual_length : Nat
  buffer : List Nat
  iso : List (TransferStatus × Nat)

/-- The state in which libusb calls the completion callback of transfer `t`: the fields
of the transfer that libusb writes are set, and a buffer that the bridge allocated holds
what the hardware left there. (The bytes that the hardware writes into the transfer buffer
of a request are not followed.) -/
def hardware_complete (s : Bridge) (t : Nat) (c : Completion) : Bridge :=
  match s.transfers t with
  | none => s
  | some transfer =>
    let descs := (List.range transfer.iso_packet_desc.length).map (fun i =>
      { transfer.iso_packet_desc.getD i ⟨0, 0, 0⟩ with
        status := (c.iso.getD i (TransferStatus.completed, 0)).1.code
        actual_length := (c.iso.getD i (TransferStatus.completed, 0)).2 })
    { s with
      transfers := set_at s.transfers t
        (some { transfer with
          status := c.status.code
          actual_length := c.actual_length
          iso_packet_desc := descs
          buffer :=
            match transfer.buffer with
            | TransferBuffer.bridge _ => TransferBuffer.bridge c.buffer
            | TransferBuffer.of_request r => TransferBuffer.of_request r }) }

/-- What happens to the bridge of an endpoint: the virtual side passes a new request to
enqueue, asks to dequeue a request, disables the endpoint or destroys it, or libusb
completes a transfer. -/
inductive BridgeInput where
  | enqueue (request : Request) (e : EnqueueEnv)
  | dequeue (r : Nat) (cancel_res : Int)
  | disable (cancel_res : Nat → Int)
  | destroy_ep (cancel_res : Nat → Int)
  | completion (t : Nat) (c : Completion)

/-- Modelled from the spec: the gadget library and libusb around the bridge code (neither
is part of the sources at hand). A request passed to enqueue is a new object and is put
on the list of in-flight requests of the endpoint before the operation runs; dequeue is
asked for an in-flight request only; no operation is called on an endpoint after its
destroy; libusb calls the completion callback once for a transfer it accepted. An input
that these rules exclude leaves the state as it is. `none` says that the program ends. -/
def bridge_step (env : BridgeEnv) (s : Bridge) : BridgeInput → Option Bridge
  | BridgeInput.enqueue request e =>
    if s.ep_alive then
      some (proxy_gadget_ep_enqueue env e
        { s with
          requests := set_at s.requests s.num_requests request
          ep_requests := s.ep_requests ++ [s.num_requests]
          num_requests := s.num_requests + 1 }
        s.num_requests)
    else some s
  | BridgeInput.dequeue r cancel_res =>
    if s.ep_alive = true ∧ r ∈ s.ep_requests then proxy_gadget_ep_dequeue cancel_res s r
    else some s
  | BridgeInput.disable cancel_res =>
    if s.ep_alive then proxy_gadget_ep_enable cancel_res s 0 else some s
  | BridgeInput.destroy_ep cancel_res =>
    if s.ep_alive then
      (proxy_gadget_ep_destroy cancel_res s).map (fun s1 => { s1 with ep_alive := false })
    else some s
  | BridgeInput.completion t c =>
    if t ∈ s.in_flight then
      proxy_gadget_transfer_cb env
        (hardware_complete { s with in_flight := s.in_flight.erase t } t c) t
    else some s

/-- The state after a sequence of inputs. -/
def bridge_run (env : BridgeEnv) : Bridge → List BridgeInput → Option Bridge
  | s, [] => some s
  | s, input :: rest =>
    match bridge_step env s input with
    | none => none
    | some s1 => bridge_run env s1 rest

/-- The bridge of a new endpoint with the capabilities `caps`. -/
def new_bridge (caps : EpCaps) : Bridge :=
  { caps := caps
    requests := fun _ => ⟨0, false, [], [], 0, 0, [], UrbStatus.completed, 0, none⟩
    transfers := fun _ => none
    ep_requests := []
    ep_alive := true
    in_flight := []
    num_requests := 0
    num_transfers := 0
    log := [] }

/-- The requests whose completion callback was invoked, in the order of the calls. -/
def completions (log : List BridgeEvent) : List Nat :=
  log.filterMap (fun e =>
    match e with
    | BridgeEvent.complete r _ => some r
    | _ => none)

/-- The requests whose destruction callback was invoked, in the order of the calls. -/
def destructions (log : List BridgeEvent) : List Nat :=
  log.filterMap (fun e =>
    match e with
    | BridgeEvent.destroy r => some r
    | _ => none)

/-- The log is read event by event; `pending` is the request whose completion callback
was the event just before, if it was one. After a completion callback the next event has
to be the destruction callback of the same request, and a destruction callback may stand
nowhere else. -/
def paired_from : Option Nat → List BridgeEvent → Bool
  | pending, [] => pending.isNone
  | none, BridgeEvent.complete r _ :: rest => paired_from (some r) rest
  | none, BridgeEvent.destroy _ :: _ => false
  | none, _ :: rest => paired_from none rest
  | some r, BridgeEvent.destroy r1 :: rest => r == r1 && paired_from none rest
  | some _, _ :: _ => false

/-- Every completion callback in the log is followed at once by the destruction callback
of the same request, and no destruction callback stands anywhere else. -/
def well_paired (log : List BridgeEvent) : Bool := paired_from none log

/-- The enqueue fails before the hardware has the transfer: an allocation fails or the
submission is refused. -/
def enqueue_fails (type : EpType) (e : EnqueueEnv) : Prop :=
  (type = EpType.control ∧ e.malloc_ok = false) ∨ e.alloc_transfer_ok = false ∨
    e.submit_res ≠ 0

/-- Capabilities of a bulk endpoint with address 1. -/
def bulk_caps : EpCaps :=
  { address := 1, dir := vdp_usb_gadget_ep_inout, type := EpType.bulk, sync := 0, usage := 0,
    max_packet_size := 64, interval := 0, descriptors := none }

/-- Capabilities of the control endpoint 0. -/
def control_caps : EpCaps :=
  { address := 0, dir := vdp_usb_gadget_ep_inout, type := EpType.control, sync := 0, usage := 0,
    max_packet_size := 64, interval := 0, descriptors := none }

/-- A bridge environment with assertions compiled in and the usual address macros. -/
def sample_bridge_env : BridgeEnv :=
  { ndebug := false, IN_ADDRESS := fun a => a + 128, OUT_ADDRESS := fun a => a }

/-- An IN request of 4 bytes. -/
def sample_request : Request :=
  { id := 7, is_in := true, raw_setup_packet := [0x80, 6, 0, 1, 0, 0, 4, 0],
    transfer_buffer := [0, 0, 0, 0], transfer_length := 4, number_of_packets := 0,
    iso_packets := [], status := UrbStatus.completed, actual_length := 0, priv := none }

/-- An enqueue in which every allocation and the submission succeed. -/
def enqueue_ok : EnqueueEnv :=
  { malloc_ok := true, alloc_transfer_ok := true, submit_res := 0, uninitialised := fun _ => 0 }

/-- An enqueue in which the submission is refused. -/
def enqueue_refused : EnqueueEnv :=
  { malloc_ok := true, alloc_transfer_ok := true, submit_res := -1, uninitialised := fun _ => 0 }

/-- A completion that reports a cancelled transfer. -/
def cancelled_completion : Completion :=
  { status := TransferStatus.cancelled, actual_length := 0, buffer := [], iso := [] }

/-- The invariant of the bridge of an endpoint. A transfer in flight exists, and when it
has a back-reference to a request, that request refers to it, is on the list of the
endpoint, the endpoint exists and the request was not completed; on an existing endpoint
every listed request has such a transfer in flight; identities are below the counters;
and the callbacks in the log are in pairs, at most one pair for a request. -/
structure BridgeInv (s : Bridge) : Prop where
  owned : ∀ t ∈ s.in_flight, ∃ tr, s.transfers t = some tr ∧
    ∀ r, tr.user_data = some r →
      (s.requests r).priv = some t ∧ r ∈ s.ep_requests ∧ s.ep_alive = true ∧
        r ∉ completions s.log
  queued : s.ep_alive = true → ∀ r ∈ s.ep_requests, ∃ t tr,
    (s.requests r).priv = some t ∧ t ∈ s.in_flight ∧ s.transfers t = some tr ∧
      tr.user_data = some r
  transfers_fresh : ∀ t ∈ s.in_flight, t < s.num_transfers
  requests_fresh : ∀ r ∈ s.ep_requests, r < s.num_requests
  completions_fresh : ∀ r ∈ completions s.log, r < s.num_requests
  in_flight_nodup : s.in_flight.Nodup
  ep_requests_nodup : s.ep_requests.Nodup
  once : (completions s.log).Nodup
  destroyed : destructions s.log = completions s.log
  paired : well_paired s.log = true

/-- The status of a transfer is one of the values of `enum libusb_transfer_status`. -/
def valid_status (status : Int) : Prop := 0 ≤ status ∧ status ≤ 6

/-- The events are no callbacks of a request. -/
def no_callbacks (evs : List BridgeEvent) : Prop :=
  completions evs = [] ∧ destructions evs = [] ∧ well_paired evs = true

/-- The state `s1` is `s` after an enqueue of `r` that failed: the request was completed
and destroyed, and nothing is in flight for it. -/
def FailShape (s s1 : Bridge) (r : Nat) : Prop :=
  s1.ep_alive = s.ep_alive ∧ s1.in_flight = s.in_flight ∧
  s1.num_requests = s.num_requests ∧
  s1.ep_requests = s.ep_requests.filter (fun x => x ≠ r) ∧
  (∀ r1, r1 ≠ r → s1.requests r1 = s.requests r1) ∧
  (∀ t, t ≠ s.num_transfers → s1.transfers t = s.transfers t) ∧
  s.num_transfers ≤ s1.num_transfers ∧
  ∃ evs snap, s1.log = s.log ++ evs ++ [BridgeEvent.complete r snap, BridgeEvent.destroy r] ∧
    no_callbacks evs

/-- The state `s1` is `s` after an enqueue of `r` that handed a transfer to libusb. -/
def OkShape (s s1 : Bridge) (r : Nat) : Prop :=
  s1.ep_alive = s.ep_alive ∧ s1.in_flight = s.in_flight ++ [s.num_transfers] ∧
  s1.num_requests = s.num_requests ∧ s1.num_transfers = s.num_transfers + 1 ∧
  s1.ep_requests = s.ep_requests ∧
  (∀ r1, r1 ≠ r → s1.requests r1 = s.requests r1) ∧
  (s1.requests r).priv = some s.num_transfers ∧
  (∀ t, t ≠ s.num_transfers → s1.transfers t = s.transfers t) ∧
  (∃ tr, s1.transfers s.num_transfers = some tr ∧ tr.user_data = some r) ∧
  ∃ evs, s1.log = s.log ++ evs ∧ no_callbacks evs

/-- The cancel calls that a loop over the requests `l` makes in the state `s`: one for
each request, on the transfer the request refers to. -/
def cancel_events (cancel_res : Nat → Int) (s : Bridge) (l : List Nat) : List BridgeEvent :=
  l.filterMap (fun r => (s.requests r).priv.map (fun t => BridgeEvent.cancel t (cancel_res r)))

/-- The completions that libusb delivers one after the other for the given transfers:
for each, the fields of the transfer are set and `proxy_gadget_transfer_cb` is called. -/
def late_completions (env : BridgeEnv) : Bridge → List (Nat × Completion) → Option Bridge
  | s, [] => some s
  | s, (t, c) :: rest =>
    match proxy_gadget_transfer_cb env (hardware_complete s t c) t with
    | none => none
    | some s1 => late_completions env s1 rest

/-- What the callback does on a transfer that has no back-reference: the release of its
buffer when it is a control transfer, and the release of the transfer. -/
def release_events (s : Bridge) (t : Nat) : List BridgeEvent :=
  match s.transfers t with
  | none => []
  | some tr =>
    (if tr.type = TransferType.control then [BridgeEvent.free_buffer t] else []) ++
      [BridgeEvent.free_transfer t]

/-- The transfers whose cancellation was requested, in the order of the calls. -/
def cancelled (log : List BridgeEvent) : List Nat :=
  log.filterMap (fun e =>
    match e with
    | BridgeEvent.cancel t _ => some t
    | _ => none)

/-- The transfers the requests `l` refer to. -/
def transfers_of (s : Bridge) (l : List Nat) : List Nat :=
  l.filterMap (fun r => (s.requests r).priv)

/-- The transfers given are released: `a[t] = NULL` for each of them. -/
def clear_transfers (transfers : Nat → Option Transfer) (l : List Nat) : Nat → Option Transfer :=
  fun t => if t ∈ l then none else transfers t

/-- A control endpoint with two requests in flight. -/
def two_in_flight : Bridge :=
  (bridge_run sample_bridge_env (new_bridge control_caps)
    [BridgeInput.enqueue sample_request enqueue_ok,
      BridgeInput.enqueue sample_request enqueue_ok]).getD (new_bridge control_caps)

/-- The handle ids of the slots are below the counter of objects, and no handle id is
referred to by two different slots. -/
def handles_well_formed (s : SlotTable) : Prop :=
  (∀ j x, x ∈ slot_handle_ids s j → x < s.fresh) ∧
  (∀ j k x, x ∈ slot_handle_ids s j → x ∈ slot_handle_ids s k → j = k)

/-- Every slot of `s1` refers to handle ids only that it referred to in `s`, and the
counter of objects has not gone back. -/
def handles_shrink (s s1 : SlotTable) : Prop :=
  (∀ j x, x ∈ slot_handle_ids s1 j → x ∈ slot_handle_ids s j) ∧ s.fresh ≤ s1.fresh

/-! ## The function main and the shutdown (main.c, lines 1014-1268) -/

/-- The loop of `main` after the event loop (lines 1248-1253) from slot `i` on, with `n`
slots left: each proxy device still in `proxy_devs` is destroyed and the virtual side is
told of the detach. Neither array is written; `libusb_devs` is not looked at. -/
def teardown_loop : Nat → Nat → SlotTable → SlotTable
  | 0, _, s => s
  | n + 1, i, s =>
    match s.proxy_devs i with
    | some proxy =>
      teardown_loop n (i + 1)
        { s with
          log := s.log ++ proxy_device_destroy proxy ++ [SlotEvent.vdp_usb_device_detach i] }
    | none => teardown_loop n (i + 1) s

/-- The teardown of `main` after the event loop. -/
def shutdown_teardown (s : SlotTable) : SlotTable := teardown_loop NUM_SLOTS 0 s

/-- No handle id was closed twice, every closed handle id is below the counter of
objects, and no slot refers to a handle id that was closed. -/
def closes_sound (s : SlotTable) : Prop :=
  (closed_ids s.log).Nodup ∧ (∀ x, x ∈ closed_ids s.log → x < s.fresh) ∧
  (∀ j x, x ∈ slot_handle_ids s j → x ∉ closed_ids s.log)

/-- The handle ids opened by the events, in order. -/
def opened_ids (events : List SlotEvent) : List Nat :=
  events.filterMap (fun e =>
    match e with
    | SlotEvent.libusb_open _ (some h) => some h
    | _ => none)

/-- The calls `main` makes, in order; the calls of the lifecycle code are wrapped. -/
inductive MainEvent where
  | signal
  | usage
  | strtol (arg : String) (base : Nat)
  | libusb_init (res : Int)
  | vdp_usb_init (ok : Bool)
  | vdp_usb_device_open (i : Nat) (ok : Bool)
  | libusb_has_capability (ok : Bool)
  | libusb_hotplug_register_callback (arrived : Bool) (vendor_id : Int) (product_id : Int)
      (res : Int)
  | slot (e : SlotEvent)
  | vdp_usb_device_close (i : Nat)
  | vdp_usb_cleanup
  | libusb_exit
  deriving DecidableEq, Repr

/-- What `main` gets from outside: the function `strtol` of the C library (string and
base to the value, a `long`), the results of the initialisations, of the opening of the
virtual devices and of the registration of the two hot-plug callbacks, the devices for
which the arrival callback runs during its registration (`LIBUSB_HOTPLUG_ENUMERATE`),
and the hot-plug callbacks and reconciliation passes that run in the event loop until it
is left. -/
structure MainEnv where
  strtol : String → Nat → Int
  libusb_init : Int
  vdp_usb_init_ok : Bool
  vdp_usb_device_open_ok : Nat → Bool
  vdp_usb_device_get_busnum : Nat → Int
  has_hotplug : Bool
  register_arrived : Int
  register_left : Int
  enumerated : List (Device × Bool)
  steps : List LifecycleStep

/-- The array `vdp_devs` (which entries are not `NULL`), the variable `vdp_busnum` and
the calls made so far. -/
structure VdpDevs where
  opened : Nat → Bool
  vdp_busnum : Int
  log : List MainEvent

/-- The loop of `main` that opens the virtual devices, from index `i` on with `n` left;
the flag says whether every open succeeded. -/
def open_loop (env : MainEnv) : Nat → Nat → VdpDevs → Bool × VdpDevs
  | 0, _, v => (true, v)
  | n + 1, i, v =>
    if env.vdp_usb_device_open_ok i then
      open_loop env n (i + 1)
        { opened := set_at v.opened i true
          vdp_busnum := env.vdp_usb_device_get_busnum i
          log := v.log ++ [MainEvent.vdp_usb_device_open i true] }
    else (false, { v with log := v.log ++ [MainEvent.vdp_usb_device_open i false] })

/-- The code at the label `out3`: the virtual devices that were opened are closed and the
context of the virtual side is released. -/
def out3 (opened : Nat → Bool) : List MainEvent :=
  ((List.range NUM_SLOTS).filter opened).map MainEvent.vdp_usb_device_close ++
    [MainEvent.vdp_usb_cleanup]

/-- The code at the label `out2`. -/
def out2 : List MainEvent := [MainEvent.libusb_exit]

/-- The function `main(argc, argv)` with `argc` the length of `argv`: the exit status and
the calls made. The event loop is taken as the sequence of lifecycle steps it runs until
it is left; whatever way it is left, the teardown follows and the status is 0. -/
def main (env : MainEnv) (argv : List String) : Int × List MainEvent :=
  if argv.length < 3 then (1, [MainEvent.signal, MainEvent.usage])
  else
    let vendor_id := wrap_int (env.strtol (argv.getD 1 "") 16)
    let product_id := wrap_int (env.strtol (argv.getD 2 "") 16)
    let log0 := [MainEvent.signal, MainEvent.strtol (argv.getD 1 "") 16,
      MainEvent.strtol (argv.getD 2 "") 16, MainEvent.libusb_init env.libusb_init]
    if env.libusb_init ≠ 0 then (1, log0)
    else if !env.vdp_usb_init_ok then (1, log0 ++ [MainEvent.vdp_usb_init false] ++ out2)
    else
      match open_loop env NUM_SLOTS 0
        ⟨fun _ => false, -1, log0 ++ [MainEvent.vdp_usb_init true]⟩ with
      | (false, v) => (1, v.log ++ out3 v.opened ++ out2)
      | (true, v) =>
        if !env.has_hotplug then
          (1, v.log ++ [MainEvent.libusb_has_capability false] ++ out3 v.opened ++ out2)
        else if env.register_arrived ≠ 0 then
          (1, v.log ++ [MainEvent.libusb_has_capability true,
            MainEvent.libusb_hotplug_register_callback true vendor_id product_id
              env.register_arrived] ++ out3 v.opened ++ out2)
        else
          let s0 := lifecycle_run (empty_slots v.vdp_busnum)
            (env.enumerated.map (fun d => LifecycleStep.arrival d.1 d.2))
          let log1 := v.log ++ [MainEvent.libusb_has_capability true] ++
            s0.log.map MainEvent.slot ++
            [MainEvent.libusb_hotplug_register_callback true vendor_id product_id 0,
              MainEvent.libusb_hotplug_register_callback false vendor_id product_id
                env.register_left]
          if env.register_left ≠ 0 then (1, log1 ++ out3 v.opened ++ out2)
          else
            let s1 := shutdown_teardown (lifecycle_run s0 env.steps)
            (0, log1 ++ (events_since s0 s1).map MainEvent.slot ++ out3 v.opened ++ out2)

/-- A stand-in for `strtol` on strings of digits of the base. -/
def sample_strtol (arg : String) (base : Nat) : Int :=
  arg.toList.foldl (fun acc c =>
    acc * base + (if c.isDigit then (c.toNat - 48 : Nat) else (c.toLower.toNat - 87 : Nat))) 0

/-- An environment of `main` in which every call succeeds: the devices in `enumerated`
are plugged in when the arrival callback is registered, and the event loop runs
`steps`. -/
def sample_main_env (enumerated : List (Device × Bool)) (steps : List LifecycleStep) : MainEnv where
  strtol := sample_strtol
  libusb_init := 0
  vdp_usb_init_ok := true
  vdp_usb_device_open_ok := fun _ => true
  vdp_usb_device_get_busnum := fun _ => 7
  has_hotplug := true
  register_arrived := 0
  register_left := 0
  enumerated := enumerated
  steps := steps

/-- The statements of the case `LIBUSB_TRANSFER_TYPE_CONTROL` of
`proxy_gadget_transfer_cb`, run on the memory of the bridge buffer: `some bytes` is the
allocated buffer, `none` says that it was released. The `memcpy` out of a released buffer
and the `free` of a released buffer end the run (`none`). The result is the request and
the memory after `free(transfer->buffer)`. -/
def control_case (ndebug : Bool) (transfer : Transfer) (request : Request)
    (memory : Option (List Nat)) : Option (Request × Option (List Nat)) :=
  match translate_transfer_status ndebug transfer.status with
  | none => none
  | some status =>
    let request1 := { request with status := status, actual_length := transfer.actual_length }
    let copied : Option Request :=
      if request.is_in then
        memory.map (fun bytes =>
          { request1 with
            transfer_buffer := (bytes.drop 8).take transfer.actual_length ++
              request.transfer_buffer.drop transfer.actual_length })
      else some request1
    match copied, memory with
    | some request2, some _ => some (request2, none)
    | _, _ => none

/-- Capabilities of an isochronous endpoint. -/
def iso_caps : EpCaps :=
  { address := 2, dir := vdp_usb_gadget_ep_in, type := EpType.iso, sync := 0, usage := 0,
    max_packet_size := 64, interval := 1, descriptors := none }

/-- An isochronous IN request of two packets of 4 bytes. -/
def iso_request : Request :=
  { id := 9, is_in := true, raw_setup_packet := [],
    transfer_buffer := [0, 0, 0, 0, 0, 0, 0, 0], transfer_length := 8, number_of_packets := 2,
    iso_packets := [⟨4, 0, UrbStatus.completed⟩, ⟨4, 0, UrbStatus.completed⟩],
    status := UrbStatus.completed, actual_length := 0, priv := none }

/-- A control OUT request of 2 bytes. -/
def out_request : Request :=
  { id := 8, is_in := false, raw_setup_packet := [0x21, 9, 0, 2, 0, 0, 2, 0],
    transfer_buffer := [0xAA, 0xBB], transfer_length := 2, number_of_packets := 0,
    iso_packets := [], status := UrbStatus.completed, actual_length := 0, priv := none }

/-- The request snapshots with which the completion callback was invoked, in order. -/
def completion_snapshots (log : List BridgeEvent) : List Request :=
  log.filterMap (fun e =>
    match e with
    | BridgeEvent.complete _ snapshot => some snapshot
    | _ => none)

/-- The transfers as they were submitted, in order. -/
def submitted (log : List BridgeEvent) : List Transfer :=
  log.filterMap (fun e =>
    match e with
    | BridgeEvent.submit _ snapshot _ => some snapshot
    | _ => none)

/-! ## The upper levels of the descriptor translator (main.c, lines 737-882) -/

/-- The struct `libusb_config_descriptor`: `interface` holds, for each of the
`bNumInterfaces` entries, its array `altsetting` of `num_altsetting` interface
descriptors. -/
structure ConfigDescriptor where
  bConfigurationValue : Nat
  bmAttributes : Nat
  MaxPower : Nat
  iConfiguration : Nat
  interface : List (List InterfaceDescriptor)
  extra : Nat → Nat
  extra_length : Int

/-- The struct `libusb_device_descriptor`, as far as `create_proxy_gadget` reads it;
`bNumConfigurations` is the length of the array of configuration descriptors. -/
structure DeviceDescriptor where
  bcdUSB : Nat
  bcdDevice : Nat
  bDeviceClass : Nat
  bDeviceSubClass : Nat
  bDeviceProtocol : Nat
  idVendor : Nat
  idProduct : Nat
  iManufacturer : Nat
  iProduct : Nat
  iSerialNumber : Nat
  bMaxPacketSize0 : Nat

/-- The struct `vdp_usb_gadget_config_caps` that `create_proxy_gadget_config` fills in. -/
structure ConfigCaps where
  number : Nat
  attributes : Nat
  max_power : Nat
  description : Nat
  descriptors : Option (List (Option Nat))
  interfaces : List Interface
  deriving DecidableEq, Repr

/-- A config object of the gadget library. -/
structure Config where
  id : Nat
  caps : ConfigCaps
  deriving DecidableEq, Repr

/-- The struct `vdp_usb_gadget_caps` that `create_proxy_gadget` fills in. -/
structure GadgetCaps where
  bcd_usb : Nat
  bcd_device : Nat
  klass : Nat
  subklass : Nat
  protocol : Nat
  vendor_id : Nat
  product_id : Nat
  manufacturer : Nat
  product : Nat
  serial_number : Nat
  string_tables : Option (List StringTable)
  configs : List Config
  endpoint0 : Ep
  deriving DecidableEq, Repr

/-- A gadget object of the gadget library. -/
structure Gadget where
  id : Nat
  caps : GadgetCaps
  deriving DecidableEq, Repr

/-- The calls into the gadget library made while a config or a gadget is built: the calls
of the endpoint and interface levels, and the constructors and the destroy call of the
levels above. -/
inductive TreeEvent where
  | lower (e : GadgetEvent)
  | config_create (caps : ConfigCaps) (result : Option Nat)
  | config_destroy (config : Nat)
  | gadget_create (caps : GadgetCaps) (result : Option Nat)
  deriving DecidableEq, Repr

/-- The state the upper levels of the translator run in: the number of allocation
attempts so far and the calls made. -/
structure TreeWorld where
  allocs : Nat
  log : List TreeEvent
  deriving DecidableEq, Repr

/-- What `create_proxy_gadget` depends on and does not define: the environment of the
lower levels, the answers of the device to the string queries, and the macro
`VDP_USB_ENDPOINT_XFER_CONTROL` of the absent `vdp/usb.h`. -/
structure GadgetEnv where
  translator : TranslatorEnv
  strings : StringEnv
  ENDPOINT_XFER_CONTROL : Nat

/-- The state of the upper levels after code of the lower levels has run from it and
ended in `w1`, having started with no calls recorded. -/
def after_lower (w : TreeWorld) (w1 : World) : TreeWorld :=
  { allocs := w1.allocs, log := w.log ++ w1.log.map TreeEvent.lower }

/-- The two nested loops `for (i = 0; i < desc->bNumInterfaces; ++i) for (j = 0; j <
desc->interface[i].num_altsetting; ++j)` of `create_proxy_gadget_config`, over the
alternate settings of all interfaces in the order the loops visit them, with the
interfaces `built` so far. The result says whether the loops ran to their end or were
left through `goto out3`. -/
def build_interfaces (env : TranslatorEnv) :
    List InterfaceDescriptor → List Interface → World → Option (Bool × List Interface × World)
  | [], built, w => some (true, built, w)
  | d :: later, built, w =>
    match create_proxy_gadget_interface env d w with
    | none => none
    | some (none, w1) => some (false, built, w1)
    | some (some interface, w1) => build_interfaces env later (built ++ [interface]) w1

/-- Modelled from the spec: `vdp_usb_gadget_interface_destroy` of the gadget library, the
destroy call of the interface level. -/
def vdp_usb_gadget_interface_destroy (interface : Interface) (w : TreeWorld) : TreeWorld :=
  { w with log := w.log ++ [TreeEvent.lower (GadgetEvent.interface_destroy interface.id)] }

/-- The loop at `out3` of `create_proxy_gadget_config`:
`for (j = 0; j < num_interfaces; ++j) vdp_usb_gadget_interface_destroy(caps.interfaces[j]);`. -/
def destroy_interfaces (built : List Interface) (w : TreeWorld) : TreeWorld :=
  built.foldl (fun w i => vdp_usb_gadget_interface_destroy i w) w

/-- Modelled from the spec: `vdp_usb_gadget_config_create` of the gadget library. -/
def vdp_usb_gadget_config_create (env : TranslatorEnv) (caps : ConfigCaps) (w : TreeWorld) :
    Option Config × TreeWorld :=
  if env.alloc_ok w.allocs then
    (some ⟨w.allocs, caps⟩,
      { allocs := w.allocs + 1, log := w.log ++ [TreeEvent.config_create caps (some w.allocs)] })
  else
    (none, { allocs := w.allocs + 1, log := w.log ++ [TreeEvent.config_create caps none] })

/-- Modelled from the spec: `vdp_usb_gadget_config_destroy` of the gadget library, the
destroy call of the config level. -/
def vdp_usb_gadget_config_destroy (config : Config) (w : TreeWorld) : TreeWorld :=
  { w with log := w.log ++ [TreeEvent.config_destroy config.id] }

/-- Modelled from the spec: `vdp_usb_gadget_create` of the gadget library. -/
def vdp_usb_gadget_create (env : TranslatorEnv) (caps : GadgetCaps) (w : TreeWorld) :
    Option Gadget × TreeWorld :=
  if env.alloc_ok w.allocs then
    (some ⟨w.allocs, caps⟩,
      { allocs := w.allocs + 1, log := w.log ++ [TreeEvent.gadget_create caps (some w.allocs)] })
  else
    (none, { allocs := w.allocs + 1, log := w.log ++ [TreeEvent.gadget_create caps none] })

/-- The function `create_proxy_gadget_config(handle, desc)`. `none` says that a parse of
extra bytes did not return; otherwise the result is the config or `NULL`. The `malloc`
inside `extra_to_descriptors` and the `malloc` of the array of interfaces are one
allocation attempt each. -/
def create_proxy_gadget_config (env : TranslatorEnv) (desc : ConfigDescriptor)
    (w : TreeWorld) : Option (Option Config × TreeWorld) :=
  match extra_to_descriptors (env.alloc_ok w.allocs) desc.extra desc.extra_length env.fuel with
  | none => none
  | some descriptors =>
    if !env.alloc_ok (w.allocs + 1) then some (none, { w with allocs := w.allocs + 2 })
    else
      match build_interfaces env desc.interface.flatten [] ⟨w.allocs + 2, []⟩ with
      | none => none
      | some (false, built, w2) => some (none, destroy_interfaces built (after_lower w w2))
      | some (true, built, w2) =>
        let caps : ConfigCaps :=
          { number := desc.bConfigurationValue
            attributes := desc.bmAttributes
            max_power := desc.MaxPower
            description := desc.iConfiguration
            descriptors := descriptors
            interfaces := built }
        match vdp_usb_gadget_config_create env caps (after_lower w w2) with
        | (some config, w3) => some (some config, w3)
        | (none, w3) => some (none, destroy_interfaces built w3)

/-- The loop `for (i = 0; i < dev_desc->bNumConfigurations; ++i)` of
`create_proxy_gadget`, with the configs `built` so far. -/
def build_configs (env : TranslatorEnv) :
    List ConfigDescriptor → List Config → TreeWorld → Option (Bool × List Config × TreeWorld)
  | [], built, w => some (true, built, w)
  | d :: later, built, w =>
    match create_proxy_gadget_config env d w with
    | none => none
    | some (none, w1) => some (false, built, w1)
    | some (some config, w1) => build_configs env later (built ++ [config]) w1

/-- The code at `out3` of `create_proxy_gadget`: the loop
`for (i = 0; i < num_configs; ++i) vdp_usb_gadget_config_destroy(caps.configs[i]);`
followed by `vdp_usb_gadget_ep_destroy(caps.endpoint0);`. -/
def destroy_configs (built : List Config) (endpoint0 : Ep) (w : TreeWorld) : TreeWorld :=
  let w1 := built.foldl (fun w c => vdp_usb_gadget_config_destroy c w) w
  { w1 with log := w1.log ++ [TreeEvent.lower (GadgetEvent.ep_destroy endpoint0.id)] }

/-- The function `create_proxy_gadget(handle, dev_desc, config_descs)`. `none` says that a
parse of extra bytes did not return; otherwise the result is the gadget or `NULL`. The
endpoint descriptor of endpoint 0 is zeroed but for its attributes and packet size, so it
has no extra bytes. The releases of the arrays and of the string tables are not
recorded. -/
def create_proxy_gadget (env : GadgetEnv) (dev_desc : DeviceDescriptor)
    (config_descs : List ConfigDescriptor) (w : TreeWorld) :
    Option (Option Gadget × TreeWorld) :=
  let ep0_desc : EndpointDescriptor :=
    { bEndpointAddress := 0
      bmAttributes := env.ENDPOINT_XFER_CONTROL
      wMaxPacketSize := dev_desc.bMaxPacketSize0
      bInterval := 0
      extra := fun _ => 0
      extra_length := 0 }
  let string_tables := create_string_tables env.strings
  if !env.translator.alloc_ok w.allocs then some (none, { w with allocs := w.allocs + 1 })
  else
    match create_proxy_gadget_ep env.translator ep0_desc vdp_usb_gadget_ep_inout
        ⟨w.allocs + 1, []⟩ with
    | none => none
    | some (none, w1) => some (none, after_lower w w1)
    | some (some endpoint0, w1) =>
      match build_configs env.translator config_descs [] (after_lower w w1) with
      | none => none
      | some (false, built, w2) => some (none, destroy_configs built endpoint0 w2)
      | some (true, built, w2) =>
        let caps : GadgetCaps :=
          { bcd_usb := dev_desc.bcdUSB
            bcd_device := dev_desc.bcdDevice
            klass := dev_desc.bDeviceClass
            subklass := dev_desc.bDeviceSubClass
            protocol := dev_desc.bDeviceProtocol
            vendor_id := dev_desc.idVendor
            product_id := dev_desc.idProduct
            manufacturer := dev_desc.iManufacturer
            product := dev_desc.iProduct
            serial_number := dev_desc.iSerialNumber
            string_tables := string_tables
            configs := built
            endpoint0 := endpoint0 }
        match vdp_usb_gadget_create env.translator caps w2 with
        | (some gadget, w3) => some (some gadget, w3)
        | (none, w3) => some (none, destroy_configs built endpoint0 w3)

/-- The endpoints made by the calls, in order. -/
def created_eps (log : List GadgetEvent) : List Nat :=
  log.filterMap (fun e =>
    match e with
    | GadgetEvent.ep_create _ (some id) => some id
    | _ => none)

/-- The endpoints destroyed by the calls, in order. -/
def destroyed_eps (log : List GadgetEvent) : List Nat :=
  log.filterMap (fun e =>
    match e with
    | GadgetEvent.ep_destroy id => some id
    | _ => none)

/-- The interfaces made by the calls, in order. -/
def created_interfaces (log : List GadgetEvent) : List Nat :=
  log.filterMap (fun e =>
    match e with
    | GadgetEvent.interface_create _ (some id) => some id
    | _ => none)

/-- The interfaces destroyed by the calls, in order. -/
def destroyed_interfaces (log : List GadgetEvent) : List Nat :=
  log.filterMap (fun e =>
    match e with
    | GadgetEvent.interface_destroy id => some id
    | _ => none)

/-- The calls of the endpoint and interface levels among the calls. -/
def lower_events (log : List TreeEvent) : List GadgetEvent :=
  log.filterMap (fun e =>
    match e with
    | TreeEvent.lower e => some e
    | _ => none)

/-- The configs made by the calls, in order. -/
def created_configs (log : List TreeEvent) : List Nat :=
  log.filterMap (fun e =>
    match e with
    | TreeEvent.config_create _ (some id) => some id
    | _ => none)

/-- The configs destroyed by the calls, in order. -/
def destroyed_configs (log : List TreeEvent) : List Nat :=
  log.filterMap (fun e =>
    match e with
    | TreeEvent.config_destroy id => some id
    | _ => none)

/-- Every parse of extra bytes made while the interface is built returns with the fuel. -/
def interface_parses (fuel : Nat) (desc : InterfaceDescriptor) : Prop :=
  (extra_to_descriptors true desc.extra desc.extra_length fuel).isSome = true ∧
  ∀ d ∈ desc.endpoint, (extra_to_descriptors true d.extra d.extra_length fuel).isSome = true

/-- Every parse of extra bytes made while the config is built returns with the fuel. -/
def config_parses (fuel : Nat) (desc : ConfigDescriptor) : Prop :=
  (extra_to_descriptors true desc.extra desc.extra_length fuel).isSome = true ∧
  ∀ d ∈ desc.interface.flatten, interface_parses fuel d

/-- An environment in which the allocation attempt number `k` fails and every other one
succeeds. -/
def failing_env (k : Nat) : TranslatorEnv :=
  { macros := spec_macros, alloc_ok := fun n => decide (n ≠ k), fuel := 1 }

/-- A config descriptor with the given interfaces and no extra bytes. -/
def plain_config (interfaces : List (List InterfaceDescriptor)) : ConfigDescriptor :=
  { bConfigurationValue := 1, bmAttributes := 0x80, MaxPower := 50, iConfiguration := 0,
    interface := interfaces, extra := fun _ => 0, extra_length := 0 }

/-- A device descriptor of a full-speed device. -/
def plain_device : DeviceDescriptor :=
  { bcdUSB := 0x200, bcdDevice := 1, bDeviceClass := 0, bDeviceSubClass := 0,
    bDeviceProtocol := 0, idVendor := 0x1d6b, idProduct := 2, iManufacturer := 1,
    iProduct := 2, iSerialNumber := 0, bMaxPacketSize0 := 64 }

/-- A constructor of the endpoint or interface level gave `NULL` among the calls. -/
def creation_failed (log : List GadgetEvent) : Bool :=
  log.any (fun e =>
    match e with
    | GadgetEvent.ep_create _ none => true
    | GadgetEvent.interface_create _ none => true
    | _ => false)

/-- A constructor of any level gave `NULL` among the calls. -/
def tree_creation_failed (log : List TreeEvent) : Bool :=
  log.any (fun e =>
    match e with
    | TreeEvent.lower e => creation_failed [e]
    | TreeEvent.config_create _ none => true
    | TreeEvent.gadget_create _ none => true
    | _ => false)

/-- How a constructor of the translator leaves the children it built, given the children
`created` and `destroyed` by its calls, in the order of the calls: the children are
different objects; when the result is absent every child built was destroyed once, in
the order of construction; when it is present no child was destroyed and no constructor
call failed. -/
def unwound (created destroyed : List Nat) (failed : Bool) (absent : Bool) : Prop :=
  created.Nodup ∧
  (absent = true → destroyed = created) ∧
  (absent = false → destroyed = [] ∧ failed = false)

/-- An environment of `create_proxy_gadget` in which the allocation attempt number `k`
fails, with the strings of the sample device and the control transfer type 0. -/
def failing_gadget_env (k : Nat) : GadgetEnv :=
  { translator := failing_env k, strings := sample_string_env, ENDPOINT_XFER_CONTROL := 0 }

/-! ## The array of strings of create_string_tables (main.c, lines 117-166) -/

/-- The number of entries of the array `tables[i].strings`, as given to `malloc` and
`memset`. -/
def STRINGS_LENGTH : Nat := 256

/-- How the scan of one language ends, seen on the array `tables[i].strings`: the loop is
left with the array (a slot is `none` while it is zero, as `memset` left it) and the write
position `idx`; or an allocation fails (`goto fail`); or the entry at `idx` that is
written lies beyond the array. -/
inductive ScanOutcome where
  | done (slots : Nat → Option VdpUsbString) (idx : Nat)
  | fail
  | out_of_bounds

/-- The loop `for (j = 1; j <= 255; ++j)` of `create_string_tables` for the table number
`i` on the array of `STRINGS_LENGTH` slots, from index `j` on with `n` indices left and
the write position `idx`: `string = &tables[i].strings[idx]; string->index = j; ...;
++idx`. -/
def scan_array (env : StringEnv) (i : Nat) :
    Nat → Nat → (Nat → Option VdpUsbString) → Nat → ScanOutcome
  | 0, _, slots, idx => ScanOutcome.done slots idx
  | n + 1, j, slots, idx =>
    let res := (env.get_string i j).1
    if res < 0 then
      if res = LIBUSB_ERROR_TIMEOUT then ScanOutcome.done slots idx
      else scan_array env i n (j + 1) slots idx
    else if res < 2 then scan_array env i n (j + 1) slots idx
    else if (res - 2) % 2 ≠ 0 then scan_array env i n (j + 1) slots idx
    else
      let num_chars := (res - 2) / 2
      if STRINGS_LENGTH ≤ idx then ScanOutcome.out_of_bounds
      else if !env.str_alloc_ok i j then ScanOutcome.fail
      else
        scan_array env i n (j + 1)
          (set_at slots idx
            (some ⟨j, env.utf16le_to_utf8 (string_payload (env.get_string i j).2 num_chars)⟩))
          (idx + 1)

/-- The array whose first slots hold the entries of `strings` and whose other slots are
zero. -/
def array_of (strings : List VdpUsbString) : Nat → Option VdpUsbString :=
  fun k => strings[k]?

/-! ## Theorems: extra_to_descriptors -/

theorem wrap_int_of_range (x : Int) (h1 : -2 ^ 31 ≤ x) (h2 : x < 2 ^ 31) : wrap_int x = x := by
  unfold wrap_int
  omega

theorem to_size_t_of_nonneg (x : Int) (h1 : 0 ≤ x) (h2 : x < 2 ^ 31) :
    to_size_t x = x.toNat := by
  unfold to_size_t
  rw [Int.emod_eq_of_lt h1 (by omega)]

theorem total_length_cons (r : List Nat) (rs : List (List Nat)) :
    total_length (r :: rs) = r.length + total_length rs := by
  simp [total_length]

theorem count_loop_records (extra : Nat → Nat) (rs : List (List Nat)) :
    ∀ (off : Nat) (rem c : Int) (rd : List Nat) (n : Nat),
      Layout extra off rs → 0 ≤ rem → rem + total_length rs < 2 ^ 31 →
      0 ≤ c → c + rs.length < 2 ^ 31 →
      count_loop extra (rs.length + n) ⟨rem + total_length rs, c, off, rd⟩ =
        count_loop extra n
          ⟨rem, c + rs.length, off + total_length rs, rd ++ record_starts off rs⟩ := by
  induction rs with
  | nil =>
    intro off rem c rd n _ _ _ _ _
    simp [total_length, record_starts]
  | cons r rs ih =>
    intro off rem c rd n hlay hrem htot hc hcnt
    obtain ⟨hlen, hmin, hrest⟩ := hlay
    rw [total_length_cons] at htot
    simp only [List.length_cons] at hcnt
    have hfuel : (r :: rs).length + n = (rs.length + n) + 1 := by
      simp only [List.length_cons]; omega
    have hcond : count_cond ⟨rem + total_length (r :: rs), c, off, rd⟩ = true := by
      simp only [count_cond, decide_eq_true_eq]
      rw [total_length_cons, to_size_t_of_nonneg _ (by omega) (by push_cast; omega)]
      unfold sizeof_header at hmin ⊢
      omega
    have hstep : count_step extra ⟨rem + total_length (r :: rs), c, off, rd⟩ =
        ⟨rem + total_length rs, c + 1, off + r.length, rd ++ [off]⟩ := by
      simp only [count_step, hlen, total_length_cons]
      rw [wrap_int_of_range _ (by push_cast; omega) (by push_cast; omega),
        wrap_int_of_range _ (by omega) (by omega)]
      congr 1
      push_cast
      omega
    rw [hfuel, count_loop, hcond, if_pos rfl, hstep,
      ih (off + r.length) rem (c + 1) (rd ++ [off]) n hrest hrem (by omega) (by omega)
        (by push_cast at hcnt ⊢; omega)]
    congr 2
    · simp only [List.length_cons]; push_cast; omega
    · rw [total_length_cons]; omega
    · simp [record_starts]

theorem fill_headers_records (extra : Nat → Nat) (rs : List (List Nat)) :
    ∀ off : Nat, Layout extra off rs →
      fill_headers extra rs.length off = (record_starts off rs).map some ++ [none] := by
  induction rs with
  | nil => intro off _; simp [fill_headers, record_starts]
  | cons r rs ih =>
    intro off hlay
    obtain ⟨hlen, _, hrest⟩ := hlay
    simp only [List.length_cons, fill_headers, record_starts, List.map_cons, List.cons_append,
      hlen]
    rw [ih _ hrest]

theorem layout_of_flatten (extra : Nat → Nat) (rs : List (List Nat)) :
    ∀ off : Nat,
      (∀ r ∈ rs, r.head? = some r.length ∧ sizeof_header ≤ r.length) →
      (∀ b ∈ rs.flatten, b < 256) →
      (∀ i (hi : i < rs.flatten.length), extra (off + i) = rs.flatten[i]) →
      Layout extra off rs := by
  induction rs with
  | nil => intro off _ _ _; trivial
  | cons r rs ih =>
    intro off hrec hbyte hmem
    have hr := hrec r (List.mem_cons_self _ _)
    cases r with
    | nil => simp at hr
    | cons b bs =>
      have hb : b = (b :: bs).length := by simpa using hr.1
      refine ⟨?_, hr.2, ?_⟩
      · have h0 := hmem 0 (by simp)
        have hb256 : b < 256 := hbyte b (by simp)
        simp only [Nat.add_zero, List.flatten_cons, List.cons_append,
          List.getElem_cons_zero] at h0
        unfold bLength
        rw [h0, Nat.mod_eq_of_lt hb256]
        exact hb
      · apply ih
        · intro r' hr'
          exact hrec r' (List.mem_cons_of_mem _ hr')
        · intro b' hb'
          exact hbyte b' (by simp only [List.flatten_cons, List.mem_append]; exact Or.inr hb')
        · intro i hi
          have h := hmem ((b :: bs).length + i)
            (by simp only [List.flatten_cons, List.length_append]; omega)
          rw [Nat.add_assoc, h]
          simp only [List.flatten_cons]
          rw [List.getElem_append_right (by omega)]
          simp

theorem record_starts_eq (rs : List (List Nat)) :
    ∀ off : Nat, record_starts off rs =
      (List.range rs.length).map (fun i => off + ((rs.take i).map List.length).sum) := by
  induction rs with
  | nil => intro off; simp [record_starts]
  | cons r rs ih =>
    intro off
    simp only [record_starts, List.length_cons, List.range_succ_eq_map, List.map_cons,
      List.take_zero, List.map_nil, List.sum_nil, Nat.add_zero, List.map_map, ih]
    congr 1
    apply List.map_congr_left
    intro i _
    simp [Nat.add_assoc]

theorem record_offsets_eq (rs : List (List Nat)) : record_offsets rs = record_starts 0 rs := by
  rw [record_starts_eq]
  simp [record_offsets]

theorem count_loop_exit (extra : Nat → Nat) (s : CountState) (n : Nat)
    (h : count_cond s = false) : count_loop extra (n + 1) s = some s := by
  simp [count_loop, h]

theorem count_cond_zero (c : Int) (h : Nat) (rd : List Nat) :
    count_cond ⟨0, c, h, rd⟩ = false := by
  simp only [count_cond, decide_eq_false_iff_not]; decide

theorem count_cond_one (c : Int) (h : Nat) (rd : List Nat) :
    count_cond ⟨1, c, h, rd⟩ = false := by
  simp only [count_cond, decide_eq_false_iff_not]; decide

/-- C1: a buffer of length L that is exactly partitioned into k ≥ 1 length-prefixed
records (first byte of each record is its length, each length at least the header size,
lengths summing to L) makes `extra_to_descriptors` return a present chain of exactly k
entries followed by the terminator, the i-th entry pointing at the offset that is the sum
of the lengths of the i records before it. The counting loop leaves after k runs (any
fuel above k gives the result); the array allocation is taken to succeed. -/
theorem extra_to_descriptors_exact_partition (records : List (List Nat))
    (extra : Nat → Nat) (fuel : Nat)
    (hk : 1 ≤ records.length)
    (hrec : ∀ r ∈ records, r.head? = some r.length ∧ sizeof_header ≤ r.length)
    (hbyte : ∀ b ∈ records.flatten, b < 256)
    (hmem : ∀ i (hi : i < records.flatten.length), extra i = records.flatten[i])
    (hL : records.flatten.length < 2 ^ 31)
    (hfuel : records.length < fuel) :
    extra_to_descriptors true extra records.flatten.length fuel =
        some (some ((record_offsets records).map some ++ [none])) ∧
      (record_offsets records).length = records.length ∧
      ∀ i, i < records.length →
        (record_offsets records)[i]? = some (((records.take i).map List.length).sum) := by
  have hlay : Layout extra 0 records :=
    layout_of_flatten extra records 0 hrec hbyte (by simpa using hmem)
  have htot : records.flatten.length = total_length records := by
    simp [total_length, List.length_flatten]
  have hmin : ∀ rs : List (List Nat), (∀ r ∈ rs, sizeof_header ≤ r.length) →
      rs.length ≤ total_length rs := by
    intro rs
    induction rs with
    | nil => intro _; simp
    | cons r rs ih =>
      intro h
      have h1 := h r (List.mem_cons_self _ _)
      have h2 := ih (fun r' hr' => h r' (List.mem_cons_of_mem _ hr'))
      rw [total_length_cons]
      simp only [List.length_cons]
      unfold sizeof_header at h1
      omega
  have hcnt : records.length ≤ total_length records := hmin records (fun r hr => (hrec r hr).2)
  refine ⟨?_, by simp [record_offsets], ?_⟩
  · obtain ⟨n, rfl⟩ : ∃ n, fuel = records.length + (n + 1) := ⟨fuel - records.length - 1, by omega⟩
    have hloop := count_loop_records extra records 0 0 0 [] (n + 1) hlay (le_refl _)
      (by rw [htot] at hL; push_cast; omega) (le_refl _) (by push_cast; omega)
    simp only [zero_add, List.nil_append] at hloop
    rw [count_loop_exit _ _ _ (count_cond_zero _ _ _)] at hloop
    unfold extra_to_descriptors
    rw [htot, hloop]
    have hne : ¬ ((0 : Int) ≠ 0 ∨ (records.length : Int) = 0) := by
      push_neg
      exact ⟨rfl, by omega⟩
    simp only [hne, if_false, Bool.not_true, Bool.false_eq_true, Int.toNat_ofNat]
    rw [fill_headers_records extra records 0 hlay, record_offsets_eq]
  · intro i hi
    simp [record_offsets, hi]

/-- C1, at the buffer `02 09 03 01 01` (two records, of lengths 2 and 3). -/
theorem extra_to_descriptors_exact_partition_witness :
    extra_to_descriptors true (mem_of [2, 9, 3, 1, 1] 0) 5 3 =
        some (some [some 0, some 2, none]) := by
  have h := (extra_to_descriptors_exact_partition [[2, 9], [3, 1, 1]]
    (mem_of [2, 9, 3, 1, 1] 0) 3 (by decide) (by decide) (by decide) (by decide)
    (by decide) (by decide)).1
  simpa [record_offsets] using h

theorem overrun_loop :
    ∀ fuel : Nat, ∀ (c : Int) (rd : List Nat),
      count_loop (mem_of [4, 0, 0] 0) fuel ⟨-1, c, 4, rd⟩ = none := by
  intro fuel
  induction fuel with
  | zero => intro c rd; rfl
  | succ n ih =>
    intro c rd
    have hcond : count_cond ⟨-1, c, 4, rd⟩ = true := by
      simp only [count_cond, decide_eq_true_eq]; decide
    have hstep : count_step (mem_of [4, 0, 0] 0) ⟨-1, c, 4, rd⟩ =
        ⟨-1, wrap_int (c + 1), 4, rd ++ [4]⟩ := by
      simp only [count_step]
      congr 1
    rw [count_loop, hcond, if_pos rfl, hstep]
    exact ih _ _

/-- C2, over-run: at the 3-byte buffer `04 00 00` the first record claims 4 bytes. After
the first run of the loop body the remaining length is -1; compared as `size_t` it is
not below the header size, so the loop goes on and reads a header at offset 4, beyond the
3 bytes of the buffer, whatever byte lies there. With zero bytes beyond the buffer the
loop is never left: `extra_to_descriptors` does not return `NULL`, it does not return. -/
theorem extra_to_descriptors_overrun_not_null :
    (∀ beyond : Nat,
      (count_step (mem_of [4, 0, 0] beyond) ⟨3, 0, 0, []⟩).extra_length = -1 ∧
      count_cond (count_step (mem_of [4, 0, 0] beyond) ⟨3, 0, 0, []⟩) = true ∧
      (count_step (mem_of [4, 0, 0] beyond)
        (count_step (mem_of [4, 0, 0] beyond) ⟨3, 0, 0, []⟩)).reads = [0, 4]) ∧
    (∀ (malloc_ok : Bool) (fuel : Nat),
      extra_to_descriptors malloc_ok (mem_of [4, 0, 0] 0) 3 fuel = none) := by
  constructor
  · intro beyond
    refine ⟨by rfl, by rfl, by rfl⟩
  · intro malloc_ok fuel
    unfold extra_to_descriptors
    cases fuel with
    | zero => rfl
    | succ n =>
      have hcond : count_cond ⟨3, 0, 0, []⟩ = true := by decide
      have hstep : count_step (mem_of [4, 0, 0] 0) ⟨3, 0, 0, []⟩ = ⟨-1, 1, 4, [0]⟩ := by rfl
      rw [count_loop, hcond, if_pos rfl, hstep, overrun_loop n 1 [0]]

/-- The under-run case of C2: records that stop one byte short of the end of the buffer
(a remainder smaller than a header) give `NULL`. -/
theorem extra_to_descriptors_underrun (records : List (List Nat)) (extra : Nat → Nat)
    (fuel : Nat) (malloc_ok : Bool)
    (hlay : Layout extra 0 records)
    (hL : total_length records + 1 < 2 ^ 31)
    (hfuel : records.length < fuel) :
    extra_to_descriptors malloc_ok extra (total_length records + 1 : Nat) fuel = some none := by
  obtain ⟨n, rfl⟩ : ∃ n, fuel = records.length + (n + 1) := ⟨fuel - records.length - 1, by omega⟩
  have hmin : ∀ (rs : List (List Nat)) (off : Nat), Layout extra off rs →
      rs.length ≤ total_length rs := by
    intro rs
    induction rs with
    | nil => intro _ _; simp
    | cons r rs ih =>
      intro off h
      have h2 := ih _ h.2.2
      have h1 := h.2.1
      rw [total_length_cons]
      simp only [List.length_cons]
      unfold sizeof_header at h1
      omega
  have hcnt := hmin records 0 hlay
  have hloop := count_loop_records extra records 0 1 0 [] (n + 1) hlay (by decide)
    (by push_cast; omega) (le_refl _) (by push_cast; omega)
  simp only [zero_add, List.nil_append] at hloop
  rw [count_loop_exit _ _ _ (count_cond_one _ _ _)] at hloop
  unfold extra_to_descriptors
  have hcast : ((total_length records + 1 : Nat) : Int) = 1 + (total_length records : Int) := by
    push_cast; omega
  rw [hcast, hloop]
  simp

/-- The empty case of C2: a buffer of length 0 gives `NULL` (no record was found). -/
theorem extra_to_descriptors_empty (extra : Nat → Nat) (fuel : Nat) (malloc_ok : Bool) :
    extra_to_descriptors malloc_ok extra 0 (fuel + 1) = some none := by
  unfold extra_to_descriptors
  rw [count_loop_exit _ _ _ (count_cond_zero _ _ _)]
  simp

/-! ## Theorems: endpoint deduplication -/

theorem first_occurrences_filter (p : Nat → Bool) (l : List Nat) :
    first_occurrences (l.filter p) = (first_occurrences l).filter p := by
  induction l with
  | nil => rfl
  | cons x xs ih =>
    by_cases hx : p x = true
    · rw [List.filter_cons_of_pos hx]
      simp only [first_occurrences, ih, List.filter_cons_of_pos hx, List.filter_filter]
      congr 1
      apply List.filter_congr
      intro y _
      exact Bool.and_comm _ _
    · rw [List.filter_cons_of_neg hx, ih]
      show _ = List.filter p (x :: _)
      rw [List.filter_cons_of_neg hx, List.filter_filter]
      apply List.filter_congr
      intro y _
      by_cases hy : p y = true
      · have hne : y ≠ x := fun h => hx (h ▸ hy)
        simp [hy, hne]
      · simp [hy]

theorem or_of_directions_cons_ne (m : UsbMacros) (d : EndpointDescriptor)
    (E : List EndpointDescriptor) (n : Nat) (h : m.ENDPOINT_NUMBER d.bEndpointAddress ≠ n) :
    or_of_directions m (d :: E) n = or_of_directions m E n := by
  unfold or_of_directions
  rw [List.filter_cons_of_neg (by simpa using h)]

theorem or_of_directions_filter (m : UsbMacros) (E : List EndpointDescriptor)
    (p : Nat → Bool) (n : Nat) (h : p n = true) :
    or_of_directions m (E.filter (fun d => p (m.ENDPOINT_NUMBER d.bEndpointAddress))) n =
      or_of_directions m E n := by
  unfold or_of_directions
  rw [List.filter_filter]
  congr 2
  apply List.filter_congr
  intro d _
  by_cases hd : m.ENDPOINT_NUMBER d.bEndpointAddress = n
  · simp [hd, h]
  · simp [hd]

theorem reference_endpoints_cons (m : UsbMacros) (d : EndpointDescriptor)
    (E : List EndpointDescriptor) :
    reference_endpoints m (d :: E) =
      (m.ENDPOINT_NUMBER d.bEndpointAddress,
          or_of_directions m (d :: E) (m.ENDPOINT_NUMBER d.bEndpointAddress)) ::
        reference_endpoints m
          (E.filter (fun e => decide (m.ENDPOINT_NUMBER e.bEndpointAddress ≠
            m.ENDPOINT_NUMBER d.bEndpointAddress))) := by
  unfold reference_endpoints
  simp only [List.map_cons, first_occurrences]
  congr 1
  have hlist : (E.filter (fun e => decide (m.ENDPOINT_NUMBER e.bEndpointAddress ≠
      m.ENDPOINT_NUMBER d.bEndpointAddress))).map
        (fun e => m.ENDPOINT_NUMBER e.bEndpointAddress) =
      (E.map (fun e => m.ENDPOINT_NUMBER e.bEndpointAddress)).filter
        (fun y => decide (y ≠ m.ENDPOINT_NUMBER d.bEndpointAddress)) := by
    rw [List.filter_map]
    rfl
  rw [hlist, first_occurrences_filter]
  apply List.map_congr_left
  intro n hn
  have hne : n ≠ m.ENDPOINT_NUMBER d.bEndpointAddress := by
    have := (List.mem_filter.mp hn).2
    simpa using this
  rw [or_of_directions_cons_ne m d E n (fun h => hne h.symm)]
  rw [or_of_directions_filter m E
    (fun y => decide (y ≠ m.ENDPOINT_NUMBER d.bEndpointAddress)) n (by simpa using hne)]

theorem merge_dir_eq (m : UsbMacros) (number : Nat) (later : List EndpointDescriptor) :
    ∀ dir : Nat, merge_dir m number dir later =
      ((later.filter (fun d => m.ENDPOINT_NUMBER d.bEndpointAddress = number)).map
        (fun d => address_dir m d.bEndpointAddress)).foldl (fun a b => a ||| b) dir := by
  induction later with
  | nil => intro dir; rfl
  | cons e es ih =>
    intro dir
    unfold merge_dir at ih ⊢
    by_cases he : m.ENDPOINT_NUMBER e.bEndpointAddress = number
    · rw [List.filter_cons_of_pos (by simpa using he)]
      simp only [List.foldl_cons, he, if_true, List.map_cons]
      exact ih _
    · rw [List.filter_cons_of_neg (by simpa using he)]
      simp only [List.foldl_cons, he, if_false]
      exact ih _

theorem endpoint_found_iff (built : List Ep) (number : Nat) :
    endpoint_found built number = true ↔ number ∈ built.map (fun e => e.caps.address) := by
  unfold endpoint_found
  simp only [List.any_eq_true, beq_iff_eq, List.mem_map]

theorem extra_to_descriptors_returns (extra : Nat → Nat) (len : Int) (fuel : Nat) (b : Bool)
    (h : (extra_to_descriptors true extra len fuel).isSome = true) :
    ∃ r, extra_to_descriptors b extra len fuel = some r := by
  unfold extra_to_descriptors at h ⊢
  cases hc : count_loop extra fuel ⟨len, 0, 0, []⟩ with
  | none => rw [hc] at h; simp at h
  | some s =>
    simp only
    split_ifs <;> exact ⟨_, rfl⟩

theorem mem_first_occurrences (l : List Nat) (y : Nat) : y ∈ first_occurrences l ↔ y ∈ l := by
  induction l with
  | nil => simp [first_occurrences]
  | cons x xs ih =>
    simp only [first_occurrences, List.mem_cons, List.mem_filter, ih, ne_eq, decide_not,
      Bool.not_eq_eq_eq_not, Bool.not_true, decide_eq_false_iff_not]
    constructor
    · rintro (h | ⟨h, _⟩)
      · exact Or.inl h
      · exact Or.inr h
    · rintro (h | h)
      · exact Or.inl h
      · by_cases hyx : y = x
        · exact Or.inl hyx
        · exact Or.inr ⟨h, hyx⟩

theorem first_occurrences_nodup (l : List Nat) : (first_occurrences l).Nodup := by
  induction l with
  | nil => simp [first_occurrences]
  | cons x xs ih =>
    simp only [first_occurrences, List.nodup_cons, List.mem_filter, ne_eq, decide_not,
      Bool.not_eq_eq_eq_not, Bool.not_true, decide_eq_false_iff_not, not_true_eq_false,
      and_false, not_false_eq_true, true_and]
    exact ih.filter _

theorem build_endpoints_spec (env : TranslatorEnv) (halloc : ∀ n, env.alloc_ok n = true)
    (todo : List EndpointDescriptor) :
    ∀ (built : List Ep) (w : World),
      (∀ d ∈ todo, (extra_to_descriptors true d.extra d.extra_length env.fuel).isSome = true) →
      ∃ eps w1, build_endpoints env todo built w = some (true, eps, w1) ∧
        eps.map Ep.key = built.map Ep.key ++
          reference_endpoints env.macros (todo.filter (fun d =>
            decide (env.macros.ENDPOINT_NUMBER d.bEndpointAddress ∉
              built.map (fun e => e.caps.address)))) := by
  induction todo with
  | nil =>
    intro built w _
    exact ⟨built, w, rfl, by simp [reference_endpoints, first_occurrences]⟩
  | cons d later ih =>
    intro built w hret
    have hlater : ∀ d' ∈ later,
        (extra_to_descriptors true d'.extra d'.extra_length env.fuel).isSome = true :=
      fun d' hd' => hret d' (List.mem_cons_of_mem _ hd')
    by_cases hfound : endpoint_found built (env.macros.ENDPOINT_NUMBER d.bEndpointAddress) = true
    · obtain ⟨eps, w1, hrun, hkey⟩ := ih built w hlater
      refine ⟨eps, w1, ?_, ?_⟩
      · simp only [build_endpoints, hfound, if_true]
        exact hrun
      · rw [hkey, List.filter_cons_of_neg]
        simpa using (endpoint_found_iff _ _).mp hfound
    · have hnot : env.macros.ENDPOINT_NUMBER d.bEndpointAddress ∉
          built.map (fun e => e.caps.address) :=
        fun h => hfound ((endpoint_found_iff _ _).mpr h)
      obtain ⟨descs, hdescs⟩ := extra_to_descriptors_returns d.extra d.extra_length env.fuel
        true (hret d (List.mem_cons_self _ _))
      let dir := merge_dir env.macros (env.macros.ENDPOINT_NUMBER d.bEndpointAddress)
        (address_dir env.macros d.bEndpointAddress) later
      let caps : EpCaps :=
        { address := env.macros.ENDPOINT_NUMBER d.bEndpointAddress
          dir := dir
          type := env.macros.ENDPOINT_TYPE d.bmAttributes
          sync := env.macros.ENDPOINT_SYNC d.bmAttributes
          usage := env.macros.ENDPOINT_USAGE d.bmAttributes
          max_packet_size := d.wMaxPacketSize
          interval := d.bInterval
          descriptors := descs }
      let ep : Ep := ⟨w.allocs + 1, caps⟩
      let w1 : World :=
        { allocs := w.allocs + 1 + 1,
          log := w.log ++ [GadgetEvent.ep_create caps (some (w.allocs + 1))] }
      have hcreate : create_proxy_gadget_ep env d dir w = some (some ep, w1) := by
        simp only [create_proxy_gadget_ep, hdescs, vdp_usb_gadget_ep_create, halloc, if_true]
      obtain ⟨eps, w2, hrun, hkey⟩ := ih (built ++ [ep]) w1 hlater
      refine ⟨eps, w2, ?_, ?_⟩
      · simp only [build_endpoints, hfound, Bool.false_eq_true, if_false]
        rw [hcreate]
        exact hrun
      · rw [hkey, List.filter_cons_of_pos (by simpa using hnot), reference_endpoints_cons,
          List.map_append, List.append_assoc]
        congr 1
        simp only [List.map_cons, List.map_nil, List.singleton_append]
        congr 1
        · show (caps.address, caps.dir) = _
          show (env.macros.ENDPOINT_NUMBER d.bEndpointAddress, dir) = _
          congr 1
          show merge_dir _ _ _ _ = _
          rw [merge_dir_eq]
          unfold or_of_directions
          rw [List.filter_cons_of_pos (by simp), List.map_cons, List.foldl_cons, Nat.zero_or,
            List.filter_filter]
          congr 2
          apply List.filter_congr
          intro e _
          by_cases he : env.macros.ENDPOINT_NUMBER e.bEndpointAddress =
              env.macros.ENDPOINT_NUMBER d.bEndpointAddress
          · simp [he, hnot]
          · simp [he]
        · rw [List.filter_filter]
          congr 1
          apply List.filter_congr
          intro e _
          simp only [List.map_append, List.map_cons, List.map_nil, List.mem_append,
            List.mem_singleton, not_or, Bool.decide_and, Bool.and_comm]

theorem fold_directions (m : UsbMacros) (n : Nat) :
    ∀ (E : List EndpointDescriptor) (acc : Nat),
      ((E.filter (fun d => m.ENDPOINT_NUMBER d.bEndpointAddress = n)).map
        (fun d => address_dir m d.bEndpointAddress)).foldl (fun a b => a ||| b) acc =
      acc ||| spec_direction_set m E n := by
  intro E
  induction E with
  | nil => intro acc; simp [spec_direction_set]
  | cons d E ih =>
    intro acc
    by_cases hd : m.ENDPOINT_NUMBER d.bEndpointAddress = n
    · rw [List.filter_cons_of_pos (by simpa using hd), List.map_cons, List.foldl_cons, ih]
      unfold spec_direction_set address_dir vdp_usb_gadget_ep_in vdp_usb_gadget_ep_out
      simp only [List.any_cons, hd, decide_True, Bool.true_and]
      cases m.ENDPOINT_IN d.bEndpointAddress <;>
        cases E.any (fun d => decide (m.ENDPOINT_NUMBER d.bEndpointAddress = n) &&
          m.ENDPOINT_IN d.bEndpointAddress) <;>
        cases E.any (fun d => decide (m.ENDPOINT_NUMBER d.bEndpointAddress = n) &&
          !m.ENDPOINT_IN d.bEndpointAddress) <;>
        simp [Nat.or_assoc]
    · rw [List.filter_cons_of_neg (by simpa using hd), ih]
      unfold spec_direction_set
      simp only [List.any_cons, hd, decide_False, Bool.false_and, Bool.false_or]

theorem reference_endpoints_eq_spec (m : UsbMacros) (E : List EndpointDescriptor) :
    reference_endpoints m E = spec_endpoints m E := by
  unfold reference_endpoints spec_endpoints
  apply List.map_congr_left
  intro n _
  unfold or_of_directions
  rw [fold_directions, Nat.zero_or]

theorem create_proxy_gadget_ep_caps (env : TranslatorEnv) (d : EndpointDescriptor)
    (dir : Nat) (w : World) (r : Option Ep) (w1 : World)
    (h : create_proxy_gadget_ep env d dir w = some (r, w1)) :
    (∃ caps, w1.log = w.log ++ [GadgetEvent.ep_create caps (r.map (fun e => e.id))]) ∧
    ∀ e, r = some e →
      e.caps.address = env.macros.ENDPOINT_NUMBER d.bEndpointAddress ∧ e.caps.dir = dir := by
  unfold create_proxy_gadget_ep at h
  cases hx : extra_to_descriptors (env.alloc_ok w.allocs) d.extra d.extra_length env.fuel with
  | none => rw [hx] at h; cases h
  | some descriptors =>
    rw [hx] at h
    simp only [vdp_usb_gadget_ep_create, Option.some.injEq] at h
    split_ifs at h
    · obtain ⟨rfl, rfl⟩ := Prod.mk.inj h
      exact ⟨⟨_, rfl⟩, fun e he => (by cases he; exact ⟨rfl, rfl⟩)⟩
    · obtain ⟨rfl, rfl⟩ := Prod.mk.inj h
      exact ⟨⟨_, rfl⟩, fun e he => (by cases he)⟩

theorem build_endpoints_run (env : TranslatorEnv) (todo : List EndpointDescriptor) :
    ∀ (built : List Ep) (w : World) (ok : Bool) (built1 : List Ep) (w1 : World),
      build_endpoints env todo built w = some (ok, built1, w1) →
      ∃ evs, w1.log = w.log ++ evs ∧
        (∀ e, e ∈ evs → ∃ caps r, e = GadgetEvent.ep_create caps r) ∧
        (ok = false → ∃ caps, GadgetEvent.ep_create caps none ∈ evs) ∧
        (ok = true → built1.map Ep.key = built.map Ep.key ++
          reference_endpoints env.macros (todo.filter (fun d =>
            decide (env.macros.ENDPOINT_NUMBER d.bEndpointAddress ∉
              built.map (fun e => e.caps.address))))) := by
  induction todo with
  | nil =>
    intro built w ok built1 w1 h
    simp only [build_endpoints, Option.some.injEq, Prod.mk.injEq] at h
    obtain ⟨rfl, rfl, rfl⟩ := h
    refine ⟨[], by simp, by simp, by simp, ?_⟩
    intro _
    simp [reference_endpoints, first_occurrences]
  | cons d later ih =>
    intro built w ok built1 w1 h
    by_cases hfound : endpoint_found built (env.macros.ENDPOINT_NUMBER d.bEndpointAddress) = true
    · simp only [build_endpoints, hfound, if_true] at h
      obtain ⟨evs, hl, hev, hfail, hkey⟩ := ih built w ok built1 w1 h
      refine ⟨evs, hl, hev, hfail, ?_⟩
      intro hok
      rw [hkey hok, List.filter_cons_of_neg]
      simpa using (endpoint_found_iff _ _).mp hfound
    · have hnot : env.macros.ENDPOINT_NUMBER d.bEndpointAddress ∉
          built.map (fun e => e.caps.address) :=
        fun h => hfound ((endpoint_found_iff _ _).mpr h)
      simp only [build_endpoints, hfound, Bool.false_eq_true, if_false] at h
      generalize hdir : merge_dir env.macros (env.macros.ENDPOINT_NUMBER d.bEndpointAddress)
        (address_dir env.macros d.bEndpointAddress) later = dir at h
      cases hep : create_proxy_gadget_ep env d dir w with
      | none => rw [hep] at h; cases h
      | some p =>
        obtain ⟨r, w2⟩ := p
        obtain ⟨⟨caps, hlog⟩, hcaps⟩ := create_proxy_gadget_ep_caps env d dir w r w2 hep
        rw [hep] at h
        cases r with
        | none =>
          simp only [Option.some.injEq, Prod.mk.injEq] at h
          obtain ⟨rfl, rfl, rfl⟩ := h
          refine ⟨[GadgetEvent.ep_create caps none], hlog, ?_, ?_, ?_⟩
          · intro e he
            exact ⟨caps, none, List.mem_singleton.mp he⟩
          · intro _
            exact ⟨caps, List.mem_singleton.mpr rfl⟩
          · intro hne; cases hne
        | some ep =>
          simp only at h
          obtain ⟨haddr, hdirv⟩ := hcaps ep rfl
          obtain ⟨evs, hl, hev, hfail, hkey⟩ := ih (built ++ [ep]) w2 ok built1 w1 h
          refine ⟨GadgetEvent.ep_create caps (some ep.id) :: evs, ?_, ?_, ?_, ?_⟩
          · rw [hl, hlog]; simp
          · intro e he
            rcases List.mem_cons.mp he with rfl | he
            · exact ⟨caps, some ep.id, rfl⟩
            · exact hev e he
          · intro hok
            obtain ⟨c, hc⟩ := hfail hok
            exact ⟨c, List.mem_cons_of_mem _ hc⟩
          · intro hok
            rw [hkey hok, List.filter_cons_of_pos (by simpa using hnot),
              reference_endpoints_cons, List.map_append, List.append_assoc]
            congr 1
            simp only [List.map_cons, List.map_nil, List.singleton_append]
            congr 1
            · show (ep.caps.address, ep.caps.dir) = _
              rw [haddr, hdirv, ← hdir]
              congr 1
              rw [merge_dir_eq]
              unfold or_of_directions
              rw [List.filter_cons_of_pos (by simp), List.map_cons, List.foldl_cons,
                Nat.zero_or, List.filter_filter]
              congr 2
              apply List.filter_congr
              intro e _
              by_cases he : env.macros.ENDPOINT_NUMBER e.bEndpointAddress =
                  env.macros.ENDPOINT_NUMBER d.bEndpointAddress
              · simp [he, hnot]
              · simp [he]
            · rw [List.filter_filter]
              congr 1
              apply List.filter_congr
              intro e _
              simp only [List.map_append, List.map_cons, List.map_nil, List.mem_append,
                List.mem_singleton, not_or, Bool.decide_and, Bool.and_comm, haddr]

theorem destroy_events_no_create (built : List Ep) (caps : InterfaceCaps)
    (result : Option Nat) :
    GadgetEvent.interface_create caps result ∉
      built.map (fun e => GadgetEvent.ep_destroy e.id) := by
  intro h
  obtain ⟨e, _, he⟩ := List.mem_map.mp h
  cases he

/-! ## Theorems: string table scanning -/

theorem scan_strings_spec (env : StringEnv) (i : Nat) (halloc : ∀ j, env.str_alloc_ok i j = true) :
    ∀ (n j : Nat) (acc : List VdpUsbString),
      ∃ strings, scan_strings env i n j acc = some strings ∧
        strings.map (fun e => e.index) = acc.map (fun e => e.index) ++
          ((List.range' j n).takeWhile
            (fun j => decide ((env.get_string i j).1 ≠ LIBUSB_ERROR_TIMEOUT))).filter
            (fun j => stored_response (env.get_string i j).1) := by
  intro n
  induction n with
  | zero => intro j acc; exact ⟨acc, rfl, by simp⟩
  | succ n ih =>
    intro j acc
    rw [List.range'_succ]
    by_cases hneg : (env.get_string i j).1 < 0
    · by_cases hto : (env.get_string i j).1 = LIBUSB_ERROR_TIMEOUT
      · refine ⟨acc, ?_, ?_⟩
        · simp only [scan_strings]
          rw [if_pos hneg, if_pos hto]
        · rw [List.takeWhile_cons_of_neg (by simp [hto])]
          simp
      · obtain ⟨strings, hrun, hidx⟩ := ih (j + 1) acc
        refine ⟨strings, ?_, ?_⟩
        · simp only [scan_strings]
          rw [if_pos hneg, if_neg hto]
          exact hrun
        · rw [hidx, List.takeWhile_cons_of_pos (by simp [hto]), List.filter_cons_of_neg]
          simp only [stored_response, decide_eq_true_eq, not_and]
          intro h0
          omega
    · have hto : (env.get_string i j).1 ≠ LIBUSB_ERROR_TIMEOUT := by
        unfold LIBUSB_ERROR_TIMEOUT
        omega
      by_cases hshort : (env.get_string i j).1 < 2
      · obtain ⟨strings, hrun, hidx⟩ := ih (j + 1) acc
        refine ⟨strings, ?_, ?_⟩
        · simp only [scan_strings]
          rw [if_neg hneg, if_pos hshort]
          exact hrun
        · rw [hidx, List.takeWhile_cons_of_pos (by simp [hto]), List.filter_cons_of_neg]
          simp only [stored_response, decide_eq_true_eq, not_and]
          intro _ h2
          omega
      · by_cases hodd : ((env.get_string i j).1 - 2) % 2 ≠ 0
        · obtain ⟨strings, hrun, hidx⟩ := ih (j + 1) acc
          refine ⟨strings, ?_, ?_⟩
          · simp only [scan_strings]
            rw [if_neg hneg, if_neg hshort, if_pos hodd]
            exact hrun
          · rw [hidx, List.takeWhile_cons_of_pos (by simp [hto]), List.filter_cons_of_neg]
            simp only [stored_response, decide_eq_true_eq, not_and]
            intro _ _
            omega
        · obtain ⟨strings, hrun, hidx⟩ := ih (j + 1)
            (acc ++ [⟨j, env.utf16le_to_utf8
              (string_payload (env.get_string i j).2 (((env.get_string i j).1 - 2) / 2))⟩])
          refine ⟨strings, ?_, ?_⟩
          · simp only [scan_strings]
            rw [if_neg hneg, if_neg hshort, if_neg hodd, if_neg (by simp [halloc])]
            exact hrun
          · rw [hidx, List.takeWhile_cons_of_pos (by simp [hto]), List.filter_cons_of_pos]
            · simp
            · simp only [stored_response, decide_eq_true_eq]
              omega

theorem fill_tables_spec (env : StringEnv) (buf1 : Nat → Nat)
    (h2 : ∀ i, env.strings_alloc_ok i = true) (h3 : ∀ i j, env.str_alloc_ok i j = true) :
    ∀ (n i0 : Nat),
      ∃ tables, fill_tables env buf1 n i0 = some tables ∧ tables.length = n ∧
        ∀ k, k < n → ∃ strings,
          tables[k]? = some ⟨language_id_at buf1 (i0 + k), some strings⟩ ∧
          strings.map (fun e => e.index) = reference_indices env (i0 + k) := by
  intro n
  induction n with
  | zero => intro i0; exact ⟨[], rfl, rfl, fun k hk => absurd hk (Nat.not_lt_zero k)⟩
  | succ n ih =>
    intro i0
    obtain ⟨strings, hscan, hidx⟩ := scan_strings_spec env i0 (h3 i0) 255 1 []
    obtain ⟨rest, hrest, hlen, hspec⟩ := ih (i0 + 1)
    refine ⟨⟨language_id_at buf1 i0, some strings⟩ :: rest, ?_, by simp [hlen], ?_⟩
    · simp only [fill_tables, h2, Bool.not_true, Bool.false_eq_true, if_false, hscan, hrest]
    · intro k hk
      cases k with
      | zero =>
        refine ⟨strings, by simp, ?_⟩
        rw [hidx]
        simp [reference_indices]
      | succ k =>
        obtain ⟨strs, hget, hi⟩ := hspec k (by omega)
        refine ⟨strs, ?_, ?_⟩
        · simp only [List.getElem?_cons_succ, hget]
          congr 3
          omega
        · rw [hi]
          congr 1
          omega

/-- C4: with a valid language list (an even length of at least 4) and all allocations
succeeding, `create_string_tables` returns the tables, and for every language (table
number i) the entries stored are exactly, in increasing order, the indices before the
first index whose query timed out and whose own answer is a success of an even length of
at least 2. So a timeout at index t ends the scan of that language only (nothing from t
on is stored, the following languages are scanned, the table is returned), and any other
error, an odd length or a length below 2 skips that one index. -/
theorem create_string_tables_scan (env : StringEnv)
    (hres : 4 ≤ env.langs.1) (heven : env.langs.1 % 2 = 0)
    (h1 : env.tables_alloc_ok = true)
    (h2 : ∀ i, env.strings_alloc_ok i = true)
    (h3 : ∀ i j, env.str_alloc_ok i j = true) :
    ∃ tables, create_string_tables env = some tables ∧
      tables.length = ((env.langs.1 - 2) / 2).toNat + 1 ∧
      ∀ i, i < ((env.langs.1 - 2) / 2).toNat → ∃ strings,
        tables[i]? = some ⟨language_id_at env.langs.2 i, some strings⟩ ∧
        strings.map (fun e => e.index) = reference_indices env i := by
  obtain ⟨tables, hfill, hlen, hspec⟩ :=
    fill_tables_spec env env.langs.2 h2 h3 ((env.langs.1 - 2) / 2).toNat 0
  refine ⟨tables ++ [⟨0, none⟩], ?_, by simp [hlen], ?_⟩
  · have hn : ¬ env.langs.1 < 0 := by omega
    have hs : ¬ env.langs.1 < 4 := by omega
    have he : ¬ ((env.langs.1 - 2) % 2 ≠ 0) := by omega
    simp only [create_string_tables, hn, hs, he, h1, if_false, Bool.not_true,
      Bool.false_eq_true, hfill]
  · intro i hi
    obtain ⟨strings, hget, hidx⟩ := hspec i hi
    refine ⟨strings, ?_, ?_⟩
    · rw [List.getElem?_append_left (by omega), hget, Nat.zero_add]
    · rw [hidx, Nat.zero_add]

/-- C4, at a device with two languages that answers index 1 and 5 with strings, index 2
with an odd length, index 3 with an error, index 4 with one byte and index 6 with a
timeout: both tables hold the indices 1 and 5. -/
theorem create_string_tables_scan_witness :
    ∃ tables, create_string_tables sample_string_env = some tables ∧
      tables.map (fun t => t.strings.map (fun l => l.map (fun e => e.index))) =
        [some [1, 5], some [1, 5], none] := by
  obtain ⟨tables, hrun, _, _⟩ := create_string_tables_scan sample_string_env
    (by decide) (by decide) rfl (fun _ => rfl) (fun _ _ => rfl)
  refine ⟨tables, hrun, ?_⟩
  have hval : create_string_tables sample_string_env =
      some [⟨1033, some [⟨1, [65]⟩, ⟨5, []⟩]⟩, ⟨1031, some [⟨1, [65]⟩, ⟨5, []⟩]⟩, ⟨0, none⟩] := by
    decide
  rw [hval] at hrun
  cases hrun
  rfl

/-! ## Theorems: configuration activation and deactivation -/

theorem calls_of_append (a b : List HostEvent) : calls_of (a ++ b) = calls_of a ++ calls_of b := by
  simp [calls_of, List.filterMap_append]

theorem detach_errors_append (a b : List HostEvent) :
    detach_errors (a ++ b) = detach_errors a ++ detach_errors b := by
  simp [detach_errors, List.filterMap_append]

theorem calls_of_release_interfaces (host : HostStack) (l : List Nat) :
    ∀ i, calls_of (release_interfaces host i l) = l.map HostCall.release_interface := by
  induction l with
  | nil => intro i; rfl
  | cons n rest ih =>
    intro i
    simp only [release_interfaces, calls_of_append, ih, List.map_cons]
    by_cases h : host.release i ≠ 0
    · simp [h, calls_of]
    · simp [h, calls_of]

theorem calls_of_detach_interfaces (res : Nat → Int) (l : List Nat) :
    ∀ i, calls_of (detach_interfaces res i l) = l.map HostCall.detach_kernel_driver := by
  induction l with
  | nil => intro i; rfl
  | cons n rest ih =>
    intro i
    simp only [detach_interfaces, calls_of_append, ih, List.map_cons]
    by_cases h : res i ≠ 0 ∧ res i ≠ LIBUSB_ERROR_NOT_FOUND
    · simp [h, calls_of]
    · simp [h, calls_of]

theorem calls_of_claim_interfaces (host : HostStack) (l : List Nat) :
    ∀ i, calls_of (claim_interfaces host i l) =
      l.flatMap (fun n => [HostCall.detach_kernel_driver n, HostCall.claim_interface n]) := by
  induction l with
  | nil => intro i; rfl
  | cons n rest ih =>
    intro i
    simp only [claim_interfaces, calls_of_append, ih, List.flatMap_cons]
    by_cases h : host.detach_after i ≠ 0 ∧ host.detach_after i ≠ LIBUSB_ERROR_NOT_FOUND <;>
      by_cases h2 : host.claim i ≠ 0 <;> simp [h, h2, calls_of]

theorem detach_errors_detach_interfaces (res : Nat → Int) (l : List Nat) :
    ∀ i, detach_errors (detach_interfaces res i l) =
      ((List.range' i l.length).map res).filter
        (fun r => decide (r ≠ 0 ∧ r ≠ LIBUSB_ERROR_NOT_FOUND)) := by
  induction l with
  | nil => intro i; rfl
  | cons n rest ih =>
    intro i
    simp only [detach_interfaces, detach_errors_append, ih, List.length_cons, List.range'_succ,
      List.map_cons]
    by_cases h : res i ≠ 0 ∧ res i ≠ LIBUSB_ERROR_NOT_FOUND
    · rw [List.filter_cons_of_pos (by simpa using h)]
      simp [h, detach_errors]
    · rw [List.filter_cons_of_neg (by simpa using h)]
      simp [h, detach_errors]

theorem detach_errors_claim_interfaces (host : HostStack) (l : List Nat) :
    ∀ i, detach_errors (claim_interfaces host i l) =
      ((List.range' i l.length).map host.detach_after).filter
        (fun r => decide (r ≠ 0 ∧ r ≠ LIBUSB_ERROR_NOT_FOUND)) := by
  induction l with
  | nil => intro i; rfl
  | cons n rest ih =>
    intro i
    simp only [claim_interfaces, detach_errors_append, ih, List.length_cons, List.range'_succ,
      List.map_cons]
    by_cases h : host.detach_after i ≠ 0 ∧ host.detach_after i ≠ LIBUSB_ERROR_NOT_FOUND
    · rw [List.filter_cons_of_pos (by simpa using h)]
      by_cases h2 : host.claim i ≠ 0 <;> simp [h, h2, detach_errors]
    · rw [List.filter_cons_of_neg (by simpa using h)]
      by_cases h2 : host.claim i ≠ 0 <;> simp [h, h2, detach_errors]

/-- C8: a deactivation (`value` 0) on a device whose active configuration descriptor is
read and lists the interfaces I_0..I_{n-1} makes, whatever the results of the release
calls are, exactly these calls in this order: the read of the descriptor, one release of
each interface I_0..I_{n-1} in order, the release of the descriptor, and then one
selection of configuration -1. -/
theorem config_disable_releases_all (host : HostStack) (number : Nat)
    (hread : host.active_before.1 = 0) :
    calls_of (proxy_gadget_config_enable host number 0) =
      [HostCall.get_active_config_descriptor] ++
      host.active_before.2.map HostCall.release_interface ++
      [HostCall.free_config_descriptor, HostCall.set_configuration (-1)] := by
  simp only [proxy_gadget_config_enable, ne_eq, not_true_eq_false, if_false, hread, if_true,
    calls_of_append, calls_of_release_interfaces]
  by_cases h : host.set_configuration = 0 <;> simp [h, calls_of]

/-- C8, at a device with the interfaces 0 and 1 on which the release of interface 0
fails: interface 1 is released all the same, then configuration -1 is selected. -/
theorem config_disable_releases_all_witness :
    release_failing_host.release 0 ≠ 0 ∧
    calls_of (proxy_gadget_config_enable release_failing_host 1 0) =
      [HostCall.get_active_config_descriptor, HostCall.release_interface 0,
        HostCall.release_interface 1, HostCall.free_config_descriptor,
        HostCall.set_configuration (-1)] :=
  ⟨by decide, config_disable_releases_all release_failing_host 1 rfl⟩

/-- C9, as the code has it: an activation (`value` not 0) of the configuration with the
number c, when the selection and both reads of the descriptor succeed, makes exactly
these calls in this order: the read of the active descriptor, a kernel-driver detach on
every interface of the configuration that is active before the selection, the release of
the descriptor, the selection of c, the second read, then for every interface of the
descriptor read again a detach followed by a claim, and the release of the descriptor. An
error is printed for exactly those detach results that are neither 0 nor "not found". -/
theorem config_enable_call_order (host : HostStack) (number : Nat) (value : Int)
    (hvalue : value ≠ 0)
    (hread : host.active_before.1 = 0)
    (hselect : host.set_configuration = 0)
    (hreread : host.active_after.1 = 0) :
    calls_of (proxy_gadget_config_enable host number value) =
      [HostCall.get_active_config_descriptor] ++
      host.active_before.2.map HostCall.detach_kernel_driver ++
      [HostCall.free_config_descriptor, HostCall.set_configuration number,
        HostCall.get_active_config_descriptor] ++
      host.active_after.2.flatMap
        (fun n => [HostCall.detach_kernel_driver n, HostCall.claim_interface n]) ++
      [HostCall.free_config_descriptor] ∧
    detach_errors (proxy_gadget_config_enable host number value) =
      (((List.range host.active_before.2.length).map host.detach_before) ++
        ((List.range host.active_after.2.length).map host.detach_after)).filter
        (fun r => decide (r ≠ 0 ∧ r ≠ LIBUSB_ERROR_NOT_FOUND)) := by
  constructor
  · simp only [proxy_gadget_config_enable, hvalue, ne_eq, not_false_eq_true, if_true, hread,
      hselect, not_true_eq_false, if_false, hreread, calls_of_append,
      calls_of_detach_interfaces, calls_of_claim_interfaces]
    simp [calls_of]
  · simp only [proxy_gadget_config_enable, hvalue, ne_eq, not_false_eq_true, if_true, hread,
      hselect, not_true_eq_false, if_false, hreread, detach_errors_append,
      detach_errors_detach_interfaces, detach_errors_claim_interfaces, List.filter_append,
      List.range_eq_range']
    simp [detach_errors]

/-- C9, at a device whose active configuration has interface 0 and whose configuration 2
has the interfaces 0 and 1: the calls, and the one detach error printed (result -3; the
results "not found" are not reported). -/
theorem config_enable_call_order_witness :
    calls_of (proxy_gadget_config_enable two_config_host 2 1) =
      [HostCall.get_active_config_descriptor, HostCall.detach_kernel_driver 0,
        HostCall.free_config_descriptor, HostCall.set_configuration 2,
        HostCall.get_active_config_descriptor,
        HostCall.detach_kernel_driver 0, HostCall.claim_interface 0,
        HostCall.detach_kernel_driver 1, HostCall.claim_interface 1,
        HostCall.free_config_descriptor] ∧
    detach_errors (proxy_gadget_config_enable two_config_host 2 1) = [-3] := by
  have h := config_enable_call_order two_config_host 2 1 (by decide) rfl rfl rfl
  exact ⟨h.1, by rw [h.2]; decide⟩

/-- C9 as stated fails: configuration 2, which is being activated, has the interfaces 0
and 1 (the descriptor read after the successful selection lists them), but before the
selection the kernel driver is detached from interface 0 only, the one interface of the
configuration that was active. -/
theorem config_enable_detach_counterexample :
    two_config_host.active_before.1 = 0 ∧ two_config_host.set_configuration = 0 ∧
    two_config_host.active_after.1 = 0 ∧
    1 ∈ two_config_host.active_after.2 ∧
    HostCall.detach_kernel_driver 1 ∉
      calls_before_select (proxy_gadget_config_enable two_config_host 2 1) := by
  decide

/-! ## Theorems: the slot tables -/

theorem set_at_same {α : Type} (a : Nat → α) (i : Nat) (v : α) : set_at a i v i = v := by
  simp [set_at]

theorem set_at_other {α : Type} (a : Nat → α) (i j : Nat) (v : α) (h : j ≠ i) :
    set_at a i v j = a j := by
  simp [set_at, h]

theorem closed_ids_append (a b : List SlotEvent) :
    closed_ids (a ++ b) = closed_ids a ++ closed_ids b := by
  simp [closed_ids, List.filterMap_append]

theorem attached_slots_append (a b : List SlotEvent) :
    attached_slots (a ++ b) = attached_slots a ++ attached_slots b := by
  simp [attached_slots, List.filterMap_append]

theorem reconcile_slot_frame (env : ReconcileEnv) (i j : Nat) (s : SlotTable) (h : j ≠ i) :
    (reconcile_slot env i s).libusb_devs j = s.libusb_devs j ∧
    (reconcile_slot env i s).proxy_devs j = s.proxy_devs j := by
  unfold reconcile_slot proxy_device_create
  cases s.libusb_devs i <;> cases s.proxy_devs i <;>
    cases env.create_ok i <;> cases env.attach_ok i <;> simp [set_at, h]

theorem reconcile_slot_after (env : ReconcileEnv) (i : Nat) (s : SlotTable) :
    slot_after env i (s.libusb_devs i) (s.proxy_devs i)
      ((reconcile_slot env i s).libusb_devs i) ((reconcile_slot env i s).proxy_devs i) := by
  unfold reconcile_slot proxy_device_create slot_after
  cases hl : s.libusb_devs i <;> cases hp : s.proxy_devs i <;>
    cases hc : env.create_ok i <;> cases ha : env.attach_ok i <;> simp [set_at, hl, hp]

theorem reconcile_slot_log (env : ReconcileEnv) (i : Nat) (s : SlotTable) :
    ∃ ext, (reconcile_slot env i s).log = s.log ++ ext ∧
      closed_ids ext = closes_of_slot env s i ∧
      attached_slots ext = attaches_of_slot env s i := by
  unfold reconcile_slot proxy_device_create closes_of_slot attaches_of_slot
  cases hl : s.libusb_devs i <;> cases hp : s.proxy_devs i <;>
    cases hc : env.create_ok i <;> cases ha : env.attach_ok i <;>
    simp [closed_ids, attached_slots, proxy_device_destroy, List.append_assoc]

theorem closes_of_slot_congr (env : ReconcileEnv) (s t : SlotTable) (j : Nat)
    (hl : t.libusb_devs j = s.libusb_devs j) (hp : t.proxy_devs j = s.proxy_devs j) :
    closes_of_slot env t j = closes_of_slot env s j ∧
    attaches_of_slot env t j = attaches_of_slot env s j := by
  unfold closes_of_slot attaches_of_slot
  rw [hl, hp]
  exact ⟨rfl, rfl⟩

theorem reconcile_loop_frame (env : ReconcileEnv) :
    ∀ (n i0 : Nat) (s : SlotTable) (j : Nat), (j < i0 ∨ i0 + n ≤ j) →
      (reconcile_loop env n i0 s).libusb_devs j = s.libusb_devs j ∧
      (reconcile_loop env n i0 s).proxy_devs j = s.proxy_devs j := by
  intro n
  induction n with
  | zero => intro i0 s j _; exact ⟨rfl, rfl⟩
  | succ n ih =>
    intro i0 s j hj
    have h1 := ih (i0 + 1) (reconcile_slot env i0 s) j (by omega)
    have h2 := reconcile_slot_frame env i0 j s (by omega)
    simp only [reconcile_loop]
    exact ⟨h1.1.trans h2.1, h1.2.trans h2.2⟩

theorem reconcile_loop_after (env : ReconcileEnv) :
    ∀ (n i0 : Nat) (s : SlotTable) (j : Nat), i0 ≤ j → j < i0 + n →
      slot_after env j (s.libusb_devs j) (s.proxy_devs j)
        ((reconcile_loop env n i0 s).libusb_devs j)
        ((reconcile_loop env n i0 s).proxy_devs j) := by
  intro n
  induction n with
  | zero => intro i0 s j h1 h2; omega
  | succ n ih =>
    intro i0 s j h1 h2
    simp only [reconcile_loop]
    by_cases hj : j = i0
    · subst hj
      have hf := reconcile_loop_frame env n (j + 1) (reconcile_slot env j s) j (by omega)
      rw [hf.1, hf.2]
      exact reconcile_slot_after env j s
    · have h := ih (i0 + 1) (reconcile_slot env i0 s) j (by omega) (by omega)
      have hf := reconcile_slot_frame env i0 j s hj
      rw [hf.1, hf.2] at h
      exact h

theorem reconcile_loop_log (env : ReconcileEnv) :
    ∀ (n i0 : Nat) (s : SlotTable),
      ∃ ext, (reconcile_loop env n i0 s).log = s.log ++ ext ∧
        closed_ids ext = (List.range' i0 n).flatMap (closes_of_slot env s) ∧
        attached_slots ext = (List.range' i0 n).flatMap (attaches_of_slot env s) := by
  intro n
  induction n with
  | zero => intro i0 s; exact ⟨[], by simp [reconcile_loop], rfl, rfl⟩
  | succ n ih =>
    intro i0 s
    obtain ⟨ext1, hlog1, hc1, ha1⟩ := reconcile_slot_log env i0 s
    obtain ⟨ext2, hlog2, hc2, ha2⟩ := ih (i0 + 1) (reconcile_slot env i0 s)
    have hcongr : ∀ j ∈ List.range' (i0 + 1) n,
        closes_of_slot env (reconcile_slot env i0 s) j = closes_of_slot env s j ∧
        attaches_of_slot env (reconcile_slot env i0 s) j = attaches_of_slot env s j := by
      intro j hj
      have hj1 : i0 + 1 ≤ j := (List.mem_range'_1.mp hj).1
      have hf := reconcile_slot_frame env i0 j s (by omega)
      exact closes_of_slot_congr env s _ j hf.1 hf.2
    refine ⟨ext1 ++ ext2, ?_, ?_, ?_⟩
    · simp only [reconcile_loop]
      rw [hlog2, hlog1, List.append_assoc]
    · rw [closed_ids_append, hc1, hc2, List.range'_succ, List.flatMap_cons]
      congr 1
      apply List.flatMap_congr
      intro j hj
      exact (hcongr j hj).1
    · rw [attached_slots_append, ha1, ha2, List.range'_succ, List.flatMap_cons]
      congr 1
      apply List.flatMap_congr
      intro j hj
      exact (hcongr j hj).2

theorem count_flatMap_single {α β : Type} [DecidableEq β] (f : α → List β) (x : β) (i : α)
    (l : List α) (hnodup : l.Nodup) (hi : i ∈ l) (hother : ∀ j ∈ l, j ≠ i → x ∉ f j) :
    (l.flatMap f).count x = (f i).count x := by
  classical
  induction l with
  | nil => simp at hi
  | cons a rest ih =>
    have hzero : ∀ l1 : List α, (∀ j ∈ l1, x ∉ f j) → (l1.flatMap f).count x = 0 := by
      intro l1
      induction l1 with
      | nil => intro _; rfl
      | cons b bs ihb =>
        intro hb
        rw [List.flatMap_cons, List.count_append, ihb (fun j hj => hb j (List.mem_cons_of_mem _ hj)),
          List.count_eq_zero_of_not_mem (hb b (List.mem_cons_self _ _))]
    rw [List.flatMap_cons, List.count_append]
    rw [List.nodup_cons] at hnodup
    by_cases ha : a = i
    · subst ha
      rw [hzero rest (fun j hj => hother j (List.mem_cons_of_mem _ hj)
        (fun h => hnodup.1 (h ▸ hj)))]
      rfl
    · have hi1 : i ∈ rest := by
        rcases List.mem_cons.mp hi with h | h
        · exact absurd h.symm ha
        · exact h
      rw [ih hnodup.2 hi1 (fun j hj => hother j (List.mem_cons_of_mem _ hj)),
        List.count_eq_zero_of_not_mem (hother a (List.mem_cons_self _ _) ha), Nat.zero_add]

theorem closes_of_slot_subset (env : ReconcileEnv) (s : SlotTable) (j x : Nat)
    (h : x ∈ closes_of_slot env s j) : x ∈ slot_handle_ids s j := by
  unfold closes_of_slot at h
  unfold slot_handle_ids
  cases hl : s.libusb_devs j <;> cases hp : s.proxy_devs j <;> rw [hl, hp] at h
  · simp at h
  · simpa using h
  · by_cases hc : env.create_ok j = true ∧ env.attach_ok j = true
    · simp [hc] at h
    · simp only [hc, if_false, List.mem_singleton] at h
      simp [h]
  · simp at h

theorem events_since_append (s t : SlotTable) (ext : List SlotEvent)
    (h : t.log = s.log ++ ext) : events_since s t = ext := by
  unfold events_since
  rw [h]
  simp

theorem handles_shrink_refl (s : SlotTable) : handles_shrink s s :=
  ⟨fun _ _ h => h, le_refl _⟩

theorem handles_shrink_trans (s s1 s2 : SlotTable) (h1 : handles_shrink s s1)
    (h2 : handles_shrink s1 s2) : handles_shrink s s2 :=
  ⟨fun j x h => h1.1 j x (h2.1 j x h), le_trans h1.2 h2.2⟩

theorem handles_well_formed_shrink (s s1 : SlotTable) (h : handles_well_formed s)
    (hs : handles_shrink s s1) : handles_well_formed s1 :=
  ⟨fun j x hx => lt_of_lt_of_le (h.1 j x (hs.1 j x hx)) hs.2,
    fun j k x hj hk => h.2 j k x (hs.1 j x hj) (hs.1 k x hk)⟩

theorem reconcile_slot_shrink (env : ReconcileEnv) (i : Nat) (s : SlotTable) :
    handles_shrink s (reconcile_slot env i s) := by
  constructor
  · intro j x
    by_cases hj : j = i
    · subst hj
      unfold reconcile_slot proxy_device_create slot_handle_ids
      cases hl : s.libusb_devs j <;> cases hp : s.proxy_devs j <;>
        cases hc : env.create_ok j <;> cases ha : env.attach_ok j <;>
        simp [set_at, hl, hp]
    · have hf := reconcile_slot_frame env i j s hj
      unfold slot_handle_ids
      rw [hf.1, hf.2]
      exact id
  · unfold reconcile_slot proxy_device_create
    cases hl : s.libusb_devs i <;> cases hp : s.proxy_devs i <;>
      cases hc : env.create_ok i <;> cases ha : env.attach_ok i <;> simp

theorem reconcile_loop_shrink (env : ReconcileEnv) :
    ∀ (n i0 : Nat) (s : SlotTable), handles_shrink s (reconcile_loop env n i0 s) := by
  intro n
  induction n with
  | zero => intro i0 s; exact handles_shrink_refl s
  | succ n ih =>
    intro i0 s
    exact handles_shrink_trans _ _ _ (reconcile_slot_shrink env i0 s) (ih (i0 + 1) _)

theorem detach_loop_shrink (dev : Device) :
    ∀ (n i0 : Nat) (s : SlotTable), handles_shrink s (detach_loop dev n i0 s) := by
  intro n
  induction n with
  | zero => intro i0 s; exact handles_shrink_refl s
  | succ n ih =>
    intro i0 s
    simp only [detach_loop]
    cases hl : s.libusb_devs i0 with
    | none => exact ih (i0 + 1) s
    | some h =>
      simp only
      by_cases hm : dev.bus = h.dev.bus ∧ dev.port = h.dev.port
      · rw [if_pos hm]
        refine ⟨?_, le_refl _⟩
        intro j x
        unfold slot_handle_ids
        by_cases hj : j = i0
        · subst hj
          simp only [set_at, if_true, Option.toList_none, List.map_nil, List.nil_append]
          intro hx
          exact List.mem_append_right _ hx
        · simp only [set_at, hj, if_false]
          exact id
      · rw [if_neg hm]
        exact ih (i0 + 1) s

theorem attach_loop_well_formed (dev : Device) (open_ok : Bool) :
    ∀ (n i0 : Nat) (s : SlotTable), handles_well_formed s →
      handles_well_formed (attach_loop dev open_ok n i0 s) := by
  intro n
  induction n with
  | zero => intro i0 s h; exact h
  | succ n ih =>
    intro i0 s h
    simp only [attach_loop]
    by_cases hfree : (s.libusb_devs i0).isNone = true ∧ (s.proxy_devs i0).isNone = true
    · rw [if_pos hfree]
      have hl := Option.isNone_iff_eq_none.mp hfree.1
      have hp := Option.isNone_iff_eq_none.mp hfree.2
      cases open_ok with
      | false =>
        simp only [Bool.false_eq_true, if_false]
        apply handles_well_formed_shrink s _ h
        refine ⟨?_, le_refl _⟩
        intro j x
        unfold slot_handle_ids
        by_cases hj : j = i0
        · subst hj
          simp [set_at, hp]
        · simp only [set_at, hj, if_false]
          exact id
      | true =>
        simp only [if_true]
        have hids : ∀ j x, x ∈ slot_handle_ids
            { s with
              libusb_devs := set_at s.libusb_devs i0 (some ⟨s.fresh, dev⟩)
              fresh := s.fresh + 1
              log := s.log ++ [SlotEvent.libusb_open dev (some s.fresh)] } j ↔
            (j = i0 ∧ x = s.fresh) ∨ (j ≠ i0 ∧ x ∈ slot_handle_ids s j) := by
          intro j x
          unfold slot_handle_ids
          by_cases hj : j = i0
          · subst hj
            simp [set_at, hp]
          · simp [set_at, hj]
        constructor
        · intro j x hx
          rcases (hids j x).mp hx with ⟨_, h1⟩ | ⟨_, h1⟩
          · show x < s.fresh + 1
            omega
          · have := h.1 j x h1
            show x < s.fresh + 1
            omega
        · intro j k x hj hk
          rcases (hids j x).mp hj with ⟨hj1, hj2⟩ | ⟨hj1, hj2⟩ <;>
            rcases (hids k x).mp hk with ⟨hk1, hk2⟩ | ⟨hk1, hk2⟩
          · rw [hj1, hk1]
          · have := h.1 k x hk2
            omega
          · have := h.1 j x hj2
            omega
          · exact h.2 j k x hj2 hk2
    · rw [if_neg hfree]
      exact ih (i0 + 1) s h

theorem lifecycle_step_well_formed (s : SlotTable) (step : LifecycleStep)
    (h : handles_well_formed s) : handles_well_formed (lifecycle_step s step) := by
  cases step with
  | arrival dev open_ok =>
    simp only [lifecycle_step, hotplug_callback_attach]
    split_ifs
    · exact h
    · exact attach_loop_well_formed dev open_ok NUM_SLOTS 0 s h
  | departure dev =>
    simp only [lifecycle_step, hotplug_callback_detach]
    split_ifs
    · exact h
    · exact handles_well_formed_shrink s _ h (detach_loop_shrink dev NUM_SLOTS 0 s)
  | pass env =>
    exact handles_well_formed_shrink s _ h (reconcile_loop_shrink env NUM_SLOTS 0 s)

theorem lifecycle_run_well_formed (steps : List LifecycleStep) :
    ∀ s : SlotTable, handles_well_formed s → handles_well_formed (lifecycle_run s steps) := by
  induction steps with
  | nil => intro s h; exact h
  | cons step rest ih =>
    intro s h
    exact ih _ (lifecycle_step_well_formed s step h)

theorem empty_slots_well_formed (vdp_busnum : Int) :
    handles_well_formed (empty_slots vdp_busnum) := by
  constructor
  · intro j x hx
    simp [slot_handle_ids, empty_slots] at hx
  · intro j k x hx
    simp [slot_handle_ids, empty_slots] at hx

theorem reconcile_opened_slot_of_distinct (env : ReconcileEnv) (s : SlotTable) (i : Nat) (h : Handle)
    (hi : i < NUM_SLOTS)
    (hopen : s.libusb_devs i = some h) (hnone : s.proxy_devs i = none)
    (hdistinct : ∀ j, j < NUM_SLOTS → j ≠ i → h.id ∉ slot_handle_ids s j) :
    ((env.create_ok i = false ∨ env.attach_ok i = false) →
      slot_empty (reconcile env s) i ∧
      (closed_ids (events_since s (reconcile env s))).count h.id = 1) ∧
    ((env.create_ok i = true ∧ env.attach_ok i = true) →
      (reconcile env s).libusb_devs i = some h ∧
      (∃ g, (reconcile env s).proxy_devs i = some ⟨h, g⟩) ∧
      (attached_slots (events_since s (reconcile env s))).count i = 1 ∧
      (closed_ids (events_since s (reconcile env s))).count h.id = 0) := by
  have hafter := reconcile_loop_after env NUM_SLOTS 0 s i (Nat.zero_le _) (by omega)
  obtain ⟨ext, hlog, hclosed, hattached⟩ := reconcile_loop_log env NUM_SLOTS 0 s
  have hsince : events_since s (reconcile env s) = ext := events_since_append s _ ext hlog
  have hmem : i ∈ List.range' 0 NUM_SLOTS := List.mem_range'_1.mpr ⟨Nat.zero_le _, by omega⟩
  have hcount : (closed_ids ext).count h.id = (closes_of_slot env s i).count h.id := by
    rw [hclosed]
    apply count_flatMap_single _ _ _ _ (List.nodup_range' _ _) hmem
    intro j hj hne hx
    exact hdistinct j (by have := (List.mem_range'_1.mp hj).2; omega) hne
      (closes_of_slot_subset env s j _ hx)
  have hcount2 : (attached_slots ext).count i = (attaches_of_slot env s i).count i := by
    rw [hattached]
    apply count_flatMap_single _ _ _ _ (List.nodup_range' _ _) hmem
    intro j _ hne hx
    unfold attaches_of_slot at hx
    cases hl : s.libusb_devs j <;> cases hp : s.proxy_devs j <;> rw [hl, hp] at hx
    · simp at hx
    · simp at hx
    · by_cases hc : env.create_ok j = true ∧ env.attach_ok j = true
      · simp only [hc, and_self, if_true, List.mem_singleton] at hx
        exact hne hx.symm
      · simp [hc] at hx
    · simp at hx
  unfold reconcile at *
  rw [hsince]
  rw [hopen, hnone] at hafter
  simp only [slot_after] at hafter
  constructor
  · intro hfail
    have hc : ¬ (env.create_ok i = true ∧ env.attach_ok i = true) := by
      rcases hfail with h1 | h1 <;> simp [h1]
    rw [if_neg hc] at hafter
    refine ⟨hafter, ?_⟩
    rw [hcount]
    simp [closes_of_slot, hopen, hnone, hc]
  · intro hok
    rw [if_pos hok] at hafter
    refine ⟨hafter.1, hafter.2, ?_, ?_⟩
    · rw [hcount2]
      simp [attaches_of_slot, hopen, hnone, hok]
    · rw [hcount]
      simp [closes_of_slot, hopen, hnone, hok]

/-- C7: in a reconciliation pass of the main loop, run in any state the lifecycle reaches
from all slots Empty, a slot that is Opened (real handle present, no bridge) ends as
follows. If `proxy_device_create` fails, or succeeds and the attach notification fails,
the slot is Empty after the pass and its handle was closed exactly once during the pass.
If both succeed the slot holds the handle and a bridge on that handle, the virtual side
was notified of the attach of this slot exactly once, and the handle was not closed. -/
theorem reconcile_opened_slot (vdp_busnum : Int) (steps : List LifecycleStep)
    (env : ReconcileEnv) (i : Nat) (h : Handle)
    (hi : i < NUM_SLOTS)
    (hopen : (lifecycle_run (empty_slots vdp_busnum) steps).libusb_devs i = some h)
    (hnone : (lifecycle_run (empty_slots vdp_busnum) steps).proxy_devs i = none) :
    ((env.create_ok i = false ∨ env.attach_ok i = false) →
      slot_empty (reconcile env (lifecycle_run (empty_slots vdp_busnum) steps)) i ∧
      (closed_ids (events_since (lifecycle_run (empty_slots vdp_busnum) steps)
        (reconcile env (lifecycle_run (empty_slots vdp_busnum) steps)))).count h.id = 1) ∧
    ((env.create_ok i = true ∧ env.attach_ok i = true) →
      (reconcile env (lifecycle_run (empty_slots vdp_busnum) steps)).libusb_devs i = some h ∧
      (∃ g, (reconcile env (lifecycle_run (empty_slots vdp_busnum) steps)).proxy_devs i =
        some ⟨h, g⟩) ∧
      (attached_slots (events_since (lifecycle_run (empty_slots vdp_busnum) steps)
        (reconcile env (lifecycle_run (empty_slots vdp_busnum) steps)))).count i = 1 ∧
      (closed_ids (events_since (lifecycle_run (empty_slots vdp_busnum) steps)
        (reconcile env (lifecycle_run (empty_slots vdp_busnum) steps)))).count h.id = 0) := by
  have hwf := lifecycle_run_well_formed steps _ (empty_slots_well_formed vdp_busnum)
  apply reconcile_opened_slot_of_distinct env _ i h hi hopen hnone
  intro j _ hne hmem
  have hown : h.id ∈ slot_handle_ids (lifecycle_run (empty_slots vdp_busnum) steps) i := by
    simp [slot_handle_ids, hopen]
  exact hne (hwf.2 j i h.id hmem hown)

/-- C7, after the arrival of one device, in a pass whose attach notification fails: the
slot 0 is Empty again and the handle 0 was closed once. -/
theorem reconcile_opened_slot_witness :
    slot_empty (reconcile attach_fails_env
      (lifecycle_run (empty_slots 9) [LifecycleStep.arrival sample_device true])) 0 ∧
    (closed_ids (events_since
      (lifecycle_run (empty_slots 9) [LifecycleStep.arrival sample_device true])
      (reconcile attach_fails_env
        (lifecycle_run (empty_slots 9) [LifecycleStep.arrival sample_device true])))).count 0
      = 1 :=
  (reconcile_opened_slot 9 [LifecycleStep.arrival sample_device true] attach_fails_env 0
    ⟨0, sample_device⟩ (by decide) (by decide) (by decide)).1 (Or.inr rfl)

theorem slot_after_bridge_has_handle (env : ReconcileEnv) (j : Nat) (l l1 : Option Handle)
    (p p1 : Option ProxyDevice) (h : slot_after env j l p l1 p1) :
    p1.isSome = true → l1.isSome = true := by
  unfold slot_after at h
  cases l <;> cases p <;> simp only at h
  · rw [h.1, h.2]; exact id
  · rw [h.2]; simp
  · by_cases hc : env.create_ok j = true ∧ env.attach_ok j = true
    · rw [if_pos hc] at h
      rw [h.1]; simp
    · rw [if_neg hc] at h
      rw [h.2]; simp
  · rw [h.1]; simp

theorem attach_loop_bridge_has_handle (dev : Device) (open_ok : Bool) :
    ∀ (n i0 : Nat) (s : SlotTable) (j : Nat), bridge_has_handle s j →
      bridge_has_handle (attach_loop dev open_ok n i0 s) j := by
  intro n
  induction n with
  | zero => intro i0 s j h; exact h
  | succ n ih =>
    intro i0 s j h
    simp only [attach_loop]
    by_cases hfree : (s.libusb_devs i0).isNone = true ∧ (s.proxy_devs i0).isNone = true
    · rw [if_pos hfree]
      by_cases hj : j = i0
      · subst hj
        intro hp
        cases open_ok <;> simp only [Bool.false_eq_true, if_false, if_true] at hp ⊢
        · rw [Option.isNone_iff_eq_none.mp hfree.2] at hp
          simp at hp
        · rw [Option.isNone_iff_eq_none.mp hfree.2] at hp
          simp at hp
      · cases open_ok <;>
          simp only [bridge_has_handle, Bool.false_eq_true, if_false, if_true,
            set_at_other _ _ _ _ hj] <;> exact h
    · rw [if_neg hfree]
      exact ih (i0 + 1) s j h

/-- C10, as the code has it: starting from all slots Empty and after any sequence of
lifecycle steps, a reconciliation pass leaves every slot with a bridge only if it has a
real handle, and a hot-plug arrival keeps this property at every slot at which it holds.
(A hot-plug departure does not: see the counterexample.) -/
theorem bridge_has_handle_after_pass (vdp_busnum : Int) (steps : List LifecycleStep)
    (i : Nat) (hi : i < NUM_SLOTS) :
    (∀ env : ReconcileEnv,
      bridge_has_handle (reconcile env (lifecycle_run (empty_slots vdp_busnum) steps)) i) ∧
    (∀ (dev : Device) (open_ok : Bool),
      bridge_has_handle (lifecycle_run (empty_slots vdp_busnum) steps) i →
      bridge_has_handle
        (hotplug_callback_attach dev open_ok (lifecycle_run (empty_slots vdp_busnum) steps))
        i) := by
  constructor
  · intro env
    exact slot_after_bridge_has_handle env i _ _ _ _
      (reconcile_loop_after env NUM_SLOTS 0 _ i (Nat.zero_le _) (by omega))
  · intro dev open_ok h
    unfold hotplug_callback_attach
    split_ifs
    · exact h
    · exact attach_loop_bridge_has_handle dev open_ok NUM_SLOTS 0 _ i h

/-- C10 as the code has it, after an arrival, a successful pass, the departure of the
device and one more pass: slot 0 has no bridge without a handle. -/
theorem bridge_has_handle_after_pass_witness :
    bridge_has_handle (reconcile all_ok_env (lifecycle_run (empty_slots 9)
      [LifecycleStep.arrival sample_device true, LifecycleStep.pass all_ok_env,
        LifecycleStep.departure sample_device])) 0 :=
  (bridge_has_handle_after_pass 9
    [LifecycleStep.arrival sample_device true, LifecycleStep.pass all_ok_env,
      LifecycleStep.departure sample_device] 0 (by decide)).1 all_ok_env

/-- C10 as stated fails: after the arrival of a device, a pass that builds and attaches
its bridge, and the departure of the device, slot 0 holds a bridge and no real handle. -/
theorem bridge_without_handle_counterexample :
    ((lifecycle_run (empty_slots 9)
      [LifecycleStep.arrival sample_device true, LifecycleStep.pass all_ok_env,
        LifecycleStep.departure sample_device]).proxy_devs 0).isSome = true ∧
    ((lifecycle_run (empty_slots 9)
      [LifecycleStep.arrival sample_device true, LifecycleStep.pass all_ok_env,
        LifecycleStep.departure sample_device]).libusb_devs 0) = none ∧
    ¬ bridge_has_handle (lifecycle_run (empty_slots 9)
      [LifecycleStep.arrival sample_device true, LifecycleStep.pass all_ok_env,
        LifecycleStep.departure sample_device]) 0 := by
  refine ⟨by decide, by decide, ?_⟩
  unfold bridge_has_handle
  decide

/-! ## Theorems: the transfer bridge -/

theorem completions_append (a b : List BridgeEvent) :
    completions (a ++ b) = completions a ++ completions b := by
  simp [completions, List.filterMap_append]

theorem destructions_append (a b : List BridgeEvent) :
    destructions (a ++ b) = destructions a ++ destructions b := by
  simp [destructions, List.filterMap_append]

theorem paired_from_append (a b : List BridgeEvent) (hb : paired_from none b = true) :
    ∀ pending, paired_from pending a = true → paired_from pending (a ++ b) = true := by
  induction a with
  | nil =>
    intro pending ha
    cases pending with
    | none => simpa using hb
    | some r => simp [paired_from] at ha
  | cons e rest ih =>
    intro pending ha
    cases pending with
    | none =>
      cases e <;> simp only [paired_from, List.cons_append] at ha ⊢
      all_goals first
        | exact ih _ ha
        | exact absurd ha (by simp)
    | some r =>
      cases e <;> simp only [paired_from, List.cons_append, Bool.and_eq_true] at ha ⊢
      all_goals first
        | exact ⟨ha.1, ih _ ha.2⟩
        | exact absurd ha (by simp)

theorem well_paired_append (a b : List BridgeEvent) (ha : well_paired a = true)
    (hb : well_paired b = true) : well_paired (a ++ b) = true :=
  paired_from_append a b hb none ha

theorem inv_new_bridge (caps : EpCaps) : BridgeInv (new_bridge caps) := by
  constructor <;> simp [new_bridge, completions, destructions, well_paired, paired_from]

theorem inv_enqueue_fail (s s1 : Bridge) (hinv : BridgeInv s)
    (halive : s1.ep_alive = s.ep_alive) (hfl : s1.in_flight = s.in_flight)
    (hnr : s1.num_requests = s.num_requests + 1)
    (hq : s1.ep_requests =
      (s.ep_requests ++ [s.num_requests]).filter (fun x => x ≠ s.num_requests))
    (hreq : ∀ r, r ≠ s.num_requests → s1.requests r = s.requests r)
    (htr : ∀ t, t ≠ s.num_transfers → s1.transfers t = s.transfers t)
    (hnt : s.num_transfers ≤ s1.num_transfers)
    (hlog : ∃ evs snap, s1.log = s.log ++ evs ++
        [BridgeEvent.complete s.num_requests snap, BridgeEvent.destroy s.num_requests] ∧
      completions evs = [] ∧ destructions evs = [] ∧ well_paired evs = true) :
    BridgeInv s1 ∧ completions s1.log = completions s.log ++ [s.num_requests] := by
  obtain ⟨evs, snap, hlog, hc, hd, hp⟩ := hlog
  have hcomp : completions s1.log = completions s.log ++ [s.num_requests] := by
    rw [hlog, completions_append, completions_append, hc]
    simp [completions]
  have hq1 : s1.ep_requests = s.ep_requests := by
    rw [hq, List.filter_append]
    have h1 : s.ep_requests.filter (fun x => decide (x ≠ s.num_requests)) = s.ep_requests := by
      apply List.filter_eq_self.mpr
      intro r hr
      have := hinv.requests_fresh r hr
      simp only [ne_eq, decide_not, Bool.not_eq_eq_eq_not, Bool.not_true, decide_eq_false_iff_not]
      omega
    rw [h1]
    simp
  have hnew : s.num_requests ∉ completions s.log := fun h =>
    Nat.lt_irrefl _ (hinv.completions_fresh _ h)
  refine ⟨?_, hcomp⟩
  constructor
  · intro t ht
    rw [hfl] at ht
    obtain ⟨tr, htr0, hown⟩ := hinv.owned t ht
    have htlt := hinv.transfers_fresh t ht
    refine ⟨tr, by rw [htr t (by omega)]; exact htr0, ?_⟩
    intro r hr
    obtain ⟨h1, h2, h3, h4⟩ := hown r hr
    have hrlt := hinv.requests_fresh r h2
    refine ⟨by rw [hreq r (by omega)]; exact h1, by rw [hq1]; exact h2,
      by rw [halive]; exact h3, ?_⟩
    rw [hcomp, List.mem_append, List.mem_singleton]
    rintro (h | h)
    · exact h4 h
    · omega
  · intro ha r hr
    rw [halive] at ha
    rw [hq1] at hr
    obtain ⟨t, tr, h1, h2, h3, h4⟩ := hinv.queued ha r hr
    have hrlt := hinv.requests_fresh r hr
    have htlt := hinv.transfers_fresh t h2
    exact ⟨t, tr, by rw [hreq r (by omega)]; exact h1, by rw [hfl]; exact h2,
      by rw [htr t (by omega)]; exact h3, h4⟩
  · intro t ht
    rw [hfl] at ht
    have := hinv.transfers_fresh t ht
    omega
  · intro r hr
    rw [hq1] at hr
    have := hinv.requests_fresh r hr
    omega
  · intro r hr
    rw [hcomp, List.mem_append, List.mem_singleton] at hr
    rcases hr with h | h
    · have := hinv.completions_fresh r h
      omega
    · omega
  · rw [hfl]; exact hinv.in_flight_nodup
  · rw [hq1]; exact hinv.ep_requests_nodup
  · rw [hcomp]
    exact List.Nodup.append hinv.once (List.nodup_singleton _) (by
      intro x hx hx1
      rw [List.mem_singleton] at hx1
      exact hnew (hx1 ▸ hx))
  · rw [hcomp, hlog, destructions_append, destructions_append, hd, hinv.destroyed]
    simp [destructions]
  · rw [hlog, List.append_assoc]
    apply well_paired_append _ _ hinv.paired
    apply well_paired_append _ _ hp
    simp [well_paired, paired_from]

theorem inv_enqueue_ok (s s1 : Bridge) (hinv : BridgeInv s)
    (hs : s.ep_alive = true) (halive : s1.ep_alive = true)
    (hfl : s1.in_flight = s.in_flight ++ [s.num_transfers])
    (hnr : s1.num_requests = s.num_requests + 1)
    (hnt : s1.num_transfers = s.num_transfers + 1)
    (hq : s1.ep_requests = s.ep_requests ++ [s.num_requests])
    (hreq : ∀ r, r ≠ s.num_requests → s1.requests r = s.requests r)
    (hpriv : (s1.requests s.num_requests).priv = some s.num_transfers)
    (htr : ∀ t, t ≠ s.num_transfers → s1.transfers t = s.transfers t)
    (htr1 : ∃ tr, s1.transfers s.num_transfers = some tr ∧ tr.user_data = some s.num_requests)
    (hlog : ∃ evs, s1.log = s.log ++ evs ∧
      completions evs = [] ∧ destructions evs = [] ∧ well_paired evs = true) :
    BridgeInv s1 ∧ completions s1.log = completions s.log := by
  obtain ⟨evs, hlog, hc, hd, hp⟩ := hlog
  obtain ⟨trn, htrn, hud⟩ := htr1
  have hcomp : completions s1.log = completions s.log := by
    rw [hlog, completions_append, hc, List.append_nil]
  have hnew : s.num_requests ∉ completions s.log := fun h =>
    Nat.lt_irrefl _ (hinv.completions_fresh _ h)
  have hnewq : s.num_requests ∉ s.ep_requests := fun h =>
    Nat.lt_irrefl _ (hinv.requests_fresh _ h)
  have hnewt : s.num_transfers ∉ s.in_flight := fun h =>
    Nat.lt_irrefl _ (hinv.transfers_fresh _ h)
  refine ⟨?_, hcomp⟩
  constructor
  · intro t ht
    rw [hfl, List.mem_append, List.mem_singleton] at ht
    rcases ht with ht | ht
    · obtain ⟨tr, htr0, hown⟩ := hinv.owned t ht
      have htlt := hinv.transfers_fresh t ht
      refine ⟨tr, by rw [htr t (by omega)]; exact htr0, ?_⟩
      intro r hr
      obtain ⟨h1, h2, h3, h4⟩ := hown r hr
      have hrlt := hinv.requests_fresh r h2
      exact ⟨by rw [hreq r (by omega)]; exact h1,
        by rw [hq]; exact List.mem_append_left _ h2, halive, by rw [hcomp]; exact h4⟩
    · subst ht
      refine ⟨trn, htrn, ?_⟩
      intro r hr
      rw [hud] at hr
      cases hr
      exact ⟨hpriv, by rw [hq]; simp, halive, by rw [hcomp]; exact hnew⟩
  · intro _ r hr
    rw [hq, List.mem_append, List.mem_singleton] at hr
    rcases hr with hr | hr
    · obtain ⟨t, tr, h1, h2, h3, h4⟩ := hinv.queued hs r hr
      have hrlt := hinv.requests_fresh r hr
      have htlt := hinv.transfers_fresh t h2
      exact ⟨t, tr, by rw [hreq r (by omega)]; exact h1,
        by rw [hfl]; exact List.mem_append_left _ h2,
        by rw [htr t (by omega)]; exact h3, h4⟩
    · subst hr
      exact ⟨s.num_transfers, trn, hpriv, by rw [hfl]; simp, htrn, hud⟩
  · intro t ht
    rw [hfl, List.mem_append, List.mem_singleton] at ht
    rcases ht with ht | ht
    · have := hinv.transfers_fresh t ht
      omega
    · omega
  · intro r hr
    rw [hq, List.mem_append, List.mem_singleton] at hr
    rcases hr with hr | hr
    · have := hinv.requests_fresh r hr
      omega
    · omega
  · intro r hr
    rw [hcomp] at hr
    have := hinv.completions_fresh r hr
    omega
  · rw [hfl]
    exact List.Nodup.append hinv.in_flight_nodup (List.nodup_singleton _) (by
      intro x hx hx1
      rw [List.mem_singleton] at hx1
      exact hnewt (hx1 ▸ hx))
  · rw [hq]
    exact List.Nodup.append hinv.ep_requests_nodup (List.nodup_singleton _) (by
      intro x hx hx1
      rw [List.mem_singleton] at hx1
      exact hnewq (hx1 ▸ hx))
  · rw [hcomp]; exact hinv.once
  · rw [hcomp, hlog, destructions_append, hd, List.append_nil]; exact hinv.destroyed
  · rw [hlog]
    exact well_paired_append _ _ hinv.paired hp

theorem inv_log_only (s s1 : Bridge) (hinv : BridgeInv s)
    (halive : s1.ep_alive = s.ep_alive) (hfl : s1.in_flight = s.in_flight)
    (hnr : s1.num_requests = s.num_requests) (hnt : s1.num_transfers = s.num_transfers)
    (hq : s1.ep_requests = s.ep_requests)
    (hreq : s1.requests = s.requests) (htr : s1.transfers = s.transfers)
    (hlog : ∃ evs, s1.log = s.log ++ evs ∧
      completions evs = [] ∧ destructions evs = [] ∧ well_paired evs = true) :
    BridgeInv s1 ∧ completions s1.log = completions s.log := by
  obtain ⟨evs, hlog, hc, hd, hp⟩ := hlog
  have hcomp : completions s1.log = completions s.log := by
    rw [hlog, completions_append, hc, List.append_nil]
  refine ⟨?_, hcomp⟩
  constructor
  · rw [hfl, htr, hreq, hq, halive, hcomp]; exact hinv.owned
  · rw [hfl, htr, hreq, hq, halive]; exact hinv.queued
  · rw [hfl, hnt]; exact hinv.transfers_fresh
  · rw [hq, hnr]; exact hinv.requests_fresh
  · rw [hcomp, hnr]; exact hinv.completions_fresh
  · rw [hfl]; exact hinv.in_flight_nodup
  · rw [hq]; exact hinv.ep_requests_nodup
  · rw [hcomp]; exact hinv.once
  · rw [hcomp, hlog, destructions_append, hd, List.append_nil]; exact hinv.destroyed
  · rw [hlog]; exact well_paired_append _ _ hinv.paired hp

theorem inv_completion_unowned (s s1 : Bridge) (t : Nat) (tr : Transfer) (hinv : BridgeInv s)
    (ht : s.transfers t = some tr) (hud : tr.user_data = none)
    (halive : s1.ep_alive = s.ep_alive) (hfl : s1.in_flight = s.in_flight.erase t)
    (hnr : s1.num_requests = s.num_requests) (hnt : s1.num_transfers = s.num_transfers)
    (hq : s1.ep_requests = s.ep_requests)
    (hreq : ∀ r, (s1.requests r).priv = (s.requests r).priv)
    (htr : ∀ t1, t1 ≠ t → s1.transfers t1 = s.transfers t1)
    (hlog : ∃ evs, s1.log = s.log ++ evs ∧
      completions evs = [] ∧ destructions evs = [] ∧ well_paired evs = true) :
    BridgeInv s1 ∧ completions s1.log = completions s.log := by
  obtain ⟨evs, hlog, hc, hd, hp⟩ := hlog
  have hcomp : completions s1.log = completions s.log := by
    rw [hlog, completions_append, hc, List.append_nil]
  have hmem : ∀ t1, t1 ∈ s.in_flight.erase t ↔ t1 ≠ t ∧ t1 ∈ s.in_flight := fun t1 =>
    hinv.in_flight_nodup.mem_erase_iff
  refine ⟨?_, hcomp⟩
  constructor
  · intro t1 ht1
    rw [hfl, hmem] at ht1
    obtain ⟨tr1, htr1, hown⟩ := hinv.owned t1 ht1.2
    refine ⟨tr1, by rw [htr t1 ht1.1]; exact htr1, ?_⟩
    intro r hr
    obtain ⟨h1, h2, h3, h4⟩ := hown r hr
    exact ⟨by rw [hreq]; exact h1, by rw [hq]; exact h2, by rw [halive]; exact h3,
      by rw [hcomp]; exact h4⟩
  · intro ha r hr
    rw [halive] at ha
    rw [hq] at hr
    obtain ⟨t1, tr1, h1, h2, h3, h4⟩ := hinv.queued ha r hr
    have hne : t1 ≠ t := by
      intro h
      subst h
      rw [ht] at h3
      cases h3
      rw [hud] at h4
      cases h4
    exact ⟨t1, tr1, by rw [hreq]; exact h1, by rw [hfl, hmem]; exact ⟨hne, h2⟩,
      by rw [htr t1 hne]; exact h3, h4⟩
  · intro t1 ht1
    rw [hfl, hmem] at ht1
    rw [hnt]
    exact hinv.transfers_fresh t1 ht1.2
  · rw [hq, hnr]; exact hinv.requests_fresh
  · rw [hcomp, hnr]; exact hinv.completions_fresh
  · rw [hfl]; exact hinv.in_flight_nodup.erase t
  · rw [hq]; exact hinv.ep_requests_nodup
  · rw [hcomp]; exact hinv.once
  · rw [hcomp, hlog, destructions_append, hd, List.append_nil]; exact hinv.destroyed
  · rw [hlog]; exact well_paired_append _ _ hinv.paired hp

theorem inv_completion_owned (s s1 : Bridge) (t r : Nat) (tr : Transfer) (hinv : BridgeInv s)
    (htin : t ∈ s.in_flight) (ht : s.transfers t = some tr) (hud : tr.user_data = some r)
    (halive : s1.ep_alive = s.ep_alive) (hfl : s1.in_flight = s.in_flight.erase t)
    (hnr : s1.num_requests = s.num_requests) (hnt : s1.num_transfers = s.num_transfers)
    (hq : s1.ep_requests = s.ep_requests.filter (fun x => x ≠ r))
    (hreq : ∀ r1, r1 ≠ r → (s1.requests r1).priv = (s.requests r1).priv)
    (htr : ∀ t1, t1 ≠ t → s1.transfers t1 = s.transfers t1)
    (hlog : ∃ evs snap evs2, s1.log = s.log ++ evs ++
        [BridgeEvent.complete r snap, BridgeEvent.destroy r] ++ evs2 ∧
      completions evs = [] ∧ destructions evs = [] ∧ well_paired evs = true ∧
      completions evs2 = [] ∧ destructions evs2 = [] ∧ well_paired evs2 = true) :
    BridgeInv s1 ∧ completions s1.log = completions s.log ++ [r] ∧
      r ∉ completions s.log := by
  obtain ⟨evs, snap, evs2, hlog, hc, hd, hp, hc2, hd2, hp2⟩ := hlog
  have hcomp : completions s1.log = completions s.log ++ [r] := by
    rw [hlog, completions_append, completions_append, completions_append, hc, hc2]
    simp [completions]
  have hmem : ∀ t1, t1 ∈ s.in_flight.erase t ↔ t1 ≠ t ∧ t1 ∈ s.in_flight := fun t1 =>
    hinv.in_flight_nodup.mem_erase_iff
  obtain ⟨tr0, htr0, hown0⟩ := hinv.owned t htin
  rw [ht] at htr0
  cases htr0
  obtain ⟨hrpriv, hrq, hralive, hrnew⟩ := hown0 r hud
  refine ⟨?_, hcomp, hrnew⟩
  constructor
  · intro t1 ht1
    rw [hfl, hmem] at ht1
    obtain ⟨tr1, htr1, hown⟩ := hinv.owned t1 ht1.2
    refine ⟨tr1, by rw [htr t1 ht1.1]; exact htr1, ?_⟩
    intro r1 hr1
    obtain ⟨h1, h2, h3, h4⟩ := hown r1 hr1
    have hne : r1 ≠ r := by
      intro h
      subst h
      rw [hrpriv] at h1
      cases h1
      exact ht1.1 rfl
    refine ⟨by rw [hreq r1 hne]; exact h1, ?_, by rw [halive]; exact h3, ?_⟩
    · rw [hq, List.mem_filter]
      exact ⟨h2, by simpa using hne⟩
    · rw [hcomp, List.mem_append, List.mem_singleton]
      rintro (h | h)
      · exact h4 h
      · exact hne h
  · intro ha r1 hr1
    rw [halive] at ha
    rw [hq, List.mem_filter] at hr1
    have hne : r1 ≠ r := by simpa using hr1.2
    obtain ⟨t1, tr1, h1, h2, h3, h4⟩ := hinv.queued ha r1 hr1.1
    have hnet : t1 ≠ t := by
      intro h
      subst h
      rw [ht] at h3
      cases h3
      rw [hud] at h4
      cases h4
      exact hne rfl
    exact ⟨t1, tr1, by rw [hreq r1 hne]; exact h1, by rw [hfl, hmem]; exact ⟨hnet, h2⟩,
      by rw [htr t1 hnet]; exact h3, h4⟩
  · intro t1 ht1
    rw [hfl, hmem] at ht1
    rw [hnt]
    exact hinv.transfers_fresh t1 ht1.2
  · intro r1 hr1
    rw [hq, List.mem_filter] at hr1
    rw [hnr]
    exact hinv.requests_fresh r1 hr1.1
  · intro r1 hr1
    rw [hcomp, List.mem_append, List.mem_singleton] at hr1
    rw [hnr]
    rcases hr1 with h | h
    · exact hinv.completions_fresh r1 h
    · rw [h]; exact hinv.requests_fresh r hrq
  · rw [hfl]; exact hinv.in_flight_nodup.erase t
  · rw [hq]; exact hinv.ep_requests_nodup.filter _
  · rw [hcomp]
    exact List.Nodup.append hinv.once (List.nodup_singleton _) (by
      intro x hx hx1
      rw [List.mem_singleton] at hx1
      exact hrnew (hx1 ▸ hx))
  · rw [hcomp, hlog, destructions_append, destructions_append, destructions_append, hd, hd2,
      hinv.destroyed]
    simp [destructions]
  · rw [hlog, List.append_assoc, List.append_assoc]
    apply well_paired_append _ _ hinv.paired
    apply well_paired_append _ _ hp
    apply well_paired_append _ _ _ hp2
    simp [well_paired, paired_from]

theorem inv_destroy (s s1 : Bridge) (hinv : BridgeInv s)
    (halive : s1.ep_alive = false) (hfl : s1.in_flight = s.in_flight)
    (hnr : s1.num_requests = s.num_requests) (hnt : s1.num_transfers = s.num_transfers)
    (hq : s1.ep_requests = s.ep_requests)
    (htr : ∀ t ∈ s.in_flight, ∃ tr, s1.transfers t = some tr ∧ tr.user_data = none)
    (hlog : ∃ evs, s1.log = s.log ++ evs ∧
      completions evs = [] ∧ destructions evs = [] ∧ well_paired evs = true) :
    BridgeInv s1 ∧ completions s1.log = completions s.log := by
  obtain ⟨evs, hlog, hc, hd, hp⟩ := hlog
  have hcomp : completions s1.log = completions s.log := by
    rw [hlog, completions_append, hc, List.append_nil]
  refine ⟨?_, hcomp⟩
  constructor
  · intro t ht
    rw [hfl] at ht
    obtain ⟨tr, h1, h2⟩ := htr t ht
    refine ⟨tr, h1, ?_⟩
    intro r hr
    rw [h2] at hr
    cases hr
  · intro ha
    rw [halive] at ha
    cases ha
  · rw [hfl, hnt]; exact hinv.transfers_fresh
  · rw [hq, hnr]; exact hinv.requests_fresh
  · rw [hcomp, hnr]; exact hinv.completions_fresh
  · rw [hfl]; exact hinv.in_flight_nodup
  · rw [hq]; exact hinv.ep_requests_nodup
  · rw [hcomp]; exact hinv.once
  · rw [hcomp, hlog, destructions_append, hd, List.append_nil]; exact hinv.destroyed
  · rw [hlog]; exact well_paired_append _ _ hinv.paired hp

theorem no_callbacks_nil : no_callbacks [] := ⟨rfl, rfl, rfl⟩

theorem no_callbacks_append (a b : List BridgeEvent) (ha : no_callbacks a)
    (hb : no_callbacks b) : no_callbacks (a ++ b) :=
  ⟨by rw [completions_append, ha.1, hb.1]; rfl,
    by rw [destructions_append, ha.2.1, hb.2.1]; rfl,
    well_paired_append a b ha.2.2 hb.2.2⟩

theorem fail_request_shape (s s0 : Bridge) (r : Nat)
    (halive : s0.ep_alive = s.ep_alive) (hfl : s0.in_flight = s.in_flight)
    (hnr : s0.num_requests = s.num_requests) (hq : s0.ep_requests = s.ep_requests)
    (hreq : ∀ r1, r1 ≠ r → s0.requests r1 = s.requests r1)
    (htr : ∀ t, t ≠ s.num_transfers → s0.transfers t = s.transfers t)
    (hnt : s.num_transfers ≤ s0.num_transfers)
    (hlog : ∃ evs, s0.log = s.log ++ evs ∧ no_callbacks evs) :
    FailShape s (fail_request s0 r) r := by
  obtain ⟨evs, hlog, hno⟩ := hlog
  refine ⟨halive, hfl, hnr, ?_, ?_, htr, hnt,
    ⟨evs, { s0.requests r with status := UrbStatus.error }, ?_, hno⟩⟩
  · simp [fail_request, request_destroy, request_complete, hq]
  · intro r1 hr1
    simp [fail_request, request_destroy, request_complete, set_at, hr1, hreq r1 hr1]
  · simp [fail_request, request_destroy, request_complete, hlog, set_at]

theorem submit_transfer_shape (e : EnqueueEnv) (s : Bridge) (r : Nat) (transfer : Transfer)
    (hud : transfer.user_data = some r) :
    (e.submit_res ≠ 0 ∧ FailShape s (submit_transfer e s r transfer) r) ∨
    (e.submit_res = 0 ∧ OkShape s (submit_transfer e s r transfer) r) := by
  by_cases hres : e.submit_res = 0
  · right
    refine ⟨hres, ?_⟩
    simp only [submit_transfer, hres, ne_eq, not_true_eq_false, if_false]
    refine ⟨rfl, rfl, rfl, rfl, rfl, ?_, ?_, ?_, ⟨transfer, ?_, hud⟩, _, rfl, ?_⟩
    · intro r1 hr1; simp [set_at, hr1]
    · simp [set_at]
    · intro t ht; simp [set_at, ht]
    · simp [set_at]
    · simp [no_callbacks, completions, destructions, well_paired, paired_from]
  · left
    refine ⟨hres, ?_⟩
    simp only [submit_transfer, hres, ne_eq, not_false_eq_true, if_true]
    apply fail_request_shape
    · rfl
    · rfl
    · rfl
    · rfl
    · intro r1 hr1; simp [set_at, hr1]
    · intro t ht; simp [set_at, ht]
    · simp
    · refine ⟨_, by simp only [List.append_assoc]; rfl, ?_⟩
      by_cases hc : transfer.type = TransferType.control <;>
        simp [hc, no_callbacks, completions, destructions, well_paired, paired_from]

theorem enqueue_shape (env : BridgeEnv) (e : EnqueueEnv) (s : Bridge) (r : Nat) :
    (enqueue_fails s.caps.type e ∧ FailShape s (proxy_gadget_ep_enqueue env e s r) r) ∨
    (¬ enqueue_fails s.caps.type e ∧ OkShape s (proxy_gadget_ep_enqueue env e s r) r) := by
  have hplain : FailShape s (fail_request s r) r :=
    fail_request_shape s s r rfl rfl rfl rfl (fun _ _ => rfl) (fun _ _ => rfl) (le_refl _)
      ⟨[], by simp, no_callbacks_nil⟩
  have hsubmit : ∀ transfer : Transfer, transfer.user_data = some r →
      e.alloc_transfer_ok = true → (s.caps.type = EpType.control → e.malloc_ok = true) →
      (enqueue_fails s.caps.type e ∧ FailShape s (submit_transfer e s r transfer) r) ∨
      (¬ enqueue_fails s.caps.type e ∧ OkShape s (submit_transfer e s r transfer) r) := by
    intro transfer hud ha hm
    rcases submit_transfer_shape e s r transfer hud with ⟨h1, h2⟩ | ⟨h1, h2⟩
    · exact Or.inl ⟨Or.inr (Or.inr h1), h2⟩
    · refine Or.inr ⟨?_, h2⟩
      rintro (⟨hc, hmf⟩ | hf | hf)
      · rw [hm hc] at hmf; cases hmf
      · rw [ha] at hf; cases hf
      · exact hf h1
  have hnoalloc : e.alloc_transfer_ok ≠ true →
      (enqueue_fails s.caps.type e ∧ FailShape s (fail_request s r) r) ∨
      (¬ enqueue_fails s.caps.type e ∧ OkShape s (fail_request s r) r) :=
    fun ha => Or.inl ⟨Or.inr (Or.inl (by simpa using ha)), hplain⟩
  unfold proxy_gadget_ep_enqueue
  cases htype : s.caps.type <;> simp only
  · by_cases hm : e.malloc_ok = true
    · by_cases ha : e.alloc_transfer_ok = true
      · simp only [hm, ha, Bool.not_true, Bool.false_eq_true, if_false]
        have := hsubmit (control_transfer env e s r) rfl ha (fun _ => hm)
        rw [htype] at this
        exact this
      · simp only [hm, ha, Bool.not_true, Bool.false_eq_true, if_false, Bool.not_eq_true,
          Bool.not_false, if_true]
        refine Or.inl ⟨Or.inr (Or.inl (by simpa using ha)), ?_⟩
        refine fail_request_shape s _ r ?_ ?_ ?_ ?_ ?_ ?_ ?_ ?_
        · rfl
        · rfl
        · rfl
        · rfl
        · intro _ _; rfl
        · intro _ _; rfl
        · exact le_refl _
        · exact ⟨[BridgeEvent.free_unused_buffer r], rfl,
            by simp [no_callbacks, completions, destructions, well_paired, paired_from]⟩
    · simp only [hm, Bool.not_false, if_true]
      exact Or.inl ⟨Or.inl ⟨rfl, by simpa using hm⟩, hplain⟩
  · by_cases ha : e.alloc_transfer_ok = true
    · simp only [ha, Bool.not_true, Bool.false_eq_true, if_false]
      have := hsubmit (iso_transfer env s r) rfl ha (by rw [htype]; intro h; cases h)
      rw [htype] at this
      exact this
    · simp only [ha, Bool.not_false, if_true]
      have := hnoalloc ha
      rw [htype] at this
      exact this
  · by_cases ha : e.alloc_transfer_ok = true
    · simp only [ha, Bool.not_true, Bool.false_eq_true, if_false]
      have := hsubmit (bulk_transfer env s r TransferType.bulk) rfl ha
        (by rw [htype]; intro h; cases h)
      rw [htype] at this
      exact this
    · simp only [ha, Bool.not_false, if_true]
      have := hnoalloc ha
      rw [htype] at this
      exact this
  · by_cases ha : e.alloc_transfer_ok = true
    · simp only [ha, Bool.not_true, Bool.false_eq_true, if_false]
      have := hsubmit (bulk_transfer env s r TransferType.interrupt) rfl ha
        (by rw [htype]; intro h; cases h)
      rw [htype] at this
      exact this
    · simp only [ha, Bool.not_false, if_true]
      have := hnoalloc ha
      rw [htype] at this
      exact this

theorem transfer_cb_unowned (env : BridgeEnv) (s : Bridge) (t : Nat) (tr : Transfer)
    (ht : s.transfers t = some tr) (hud : tr.user_data = none) :
    proxy_gadget_transfer_cb env s t =
      some { s with
        transfers := set_at s.transfers t none
        log := s.log ++
          (if tr.type = TransferType.control then [BridgeEvent.free_buffer t] else []) ++
          [BridgeEvent.free_transfer t] } := by
  simp [proxy_gadget_transfer_cb, ht, hud]

theorem transfer_cb_owned (env : BridgeEnv) (s : Bridge) (t r : Nat) (tr : Transfer)
    (req : Request) (ht : s.transfers t = some tr) (hud : tr.user_data = some r)
    (hreq : complete_request env.ndebug tr (s.requests r) = some req) :
    proxy_gadget_transfer_cb env s t =
      some { s with
        requests := set_at s.requests r { req with priv := none }
        ep_requests := s.ep_requests.filter (fun x => x ≠ r)
        transfers := set_at s.transfers t none
        log := s.log ++
          (if tr.type = TransferType.control then [BridgeEvent.free_buffer t] else []) ++
          [BridgeEvent.complete r { req with priv := none }, BridgeEvent.destroy r] ++
          [BridgeEvent.free_transfer t] } := by
  simp [proxy_gadget_transfer_cb, ht, hud, hreq, request_destroy, request_complete, set_at]

theorem valid_status_code (x : TransferStatus) : valid_status x.code := by
  cases x <;> simp [valid_status, TransferStatus.code]

theorem translate_transfer_status_some (ndebug : Bool) (status : Int)
    (h : valid_status status) : ∃ u, translate_transfer_status ndebug status = some u := by
  obtain ⟨h0, h6⟩ := h
  have hcases : status = 0 ∨ status = 1 ∨ status = 2 ∨ status = 3 ∨ status = 4 ∨
      status = 5 ∨ status = 6 := by omega
  rcases hcases with h | h | h | h | h | h | h <;> subst h <;>
    simp [translate_transfer_status]

theorem copy_iso_packets_some (ndebug : Bool) (descs : List IsoPacketDesc)
    (h : ∀ d ∈ descs, valid_status d.status) :
    ∀ (n i : Nat) (packets : List IsoPacket),
      ∃ ps, copy_iso_packets ndebug descs n i packets = some ps := by
  intro n
  induction n with
  | zero => intro i packets; exact ⟨packets, rfl⟩
  | succ n ih =>
    intro i packets
    have hv : valid_status (descs.getD i ⟨0, 0, 0⟩).status := by
      rw [List.getD_eq_getElem?_getD]
      cases hget : descs[i]? with
      | none => simp [valid_status]
      | some d =>
        simp only [Option.getD_some]
        exact h d (List.mem_iff_getElem?.mpr ⟨i, hget⟩)
    obtain ⟨u, hu⟩ := translate_transfer_status_some ndebug _ hv
    simp only [copy_iso_packets, hu]
    exact ih _ _

theorem complete_request_some (ndebug : Bool) (tr : Transfer) (request : Request)
    (hs : valid_status tr.status) (hd : ∀ d ∈ tr.iso_packet_desc, valid_status d.status) :
    ∃ req, complete_request ndebug tr request = some req := by
  obtain ⟨u, hu⟩ := translate_transfer_status_some ndebug _ hs
  unfold complete_request
  cases tr.type <;> simp only [hu]
  · cases request.is_in
    · exact ⟨_, rfl⟩
    · cases tr.buffer <;> exact ⟨_, rfl⟩
  · obtain ⟨ps, hps⟩ := copy_iso_packets_some ndebug tr.iso_packet_desc hd
      tr.num_iso_packets 0 request.iso_packets
    rw [hps]
    exact ⟨_, rfl⟩
  · exact ⟨_, rfl⟩
  · exact ⟨_, rfl⟩

theorem hardware_complete_effect (s : Bridge) (t : Nat) (c : Completion) (tr : Transfer)
    (ht : s.transfers t = some tr) :
    ∃ tr1, hardware_complete s t c = { s with transfers := set_at s.transfers t (some tr1) } ∧
      tr1.user_data = tr.user_data ∧ tr1.type = tr.type ∧ valid_status tr1.status ∧
      ∀ d ∈ tr1.iso_packet_desc, valid_status d.status := by
  simp only [hardware_complete, ht]
  refine ⟨_, rfl, rfl, rfl, valid_status_code _, ?_⟩
  intro d hd
  simp only [List.mem_map] at hd
  obtain ⟨i, _, rfl⟩ := hd
  exact valid_status_code _

theorem no_callbacks_cancel_events (cancel_res : Nat → Int) (s : Bridge) (l : List Nat) :
    no_callbacks (cancel_events cancel_res s l) := by
  induction l with
  | nil => exact no_callbacks_nil
  | cons r rest ih =>
    unfold cancel_events at ih ⊢
    cases hp : (s.requests r).priv with
    | none => simpa [List.filterMap_cons, hp] using ih
    | some t =>
      simp only [List.filterMap_cons, hp, Option.map_some']
      exact no_callbacks_append [_] _
        (by simp [no_callbacks, completions, destructions, well_paired, paired_from]) ih

theorem cancel_loop_effect (cancel_res : Nat → Int) (l : List Nat) :
    ∀ s : Bridge,
      (∀ r ∈ l, ∃ t tr, (s.requests r).priv = some t ∧ s.transfers t = some tr) →
      for_each_request (fun s r => cancel_request (cancel_res r) s r) l s =
        some { s with log := s.log ++ cancel_events cancel_res s l } := by
  induction l with
  | nil => intro s _; simp [for_each_request, cancel_events]
  | cons r rest ih =>
    intro s h
    obtain ⟨t, tr, hp, ht⟩ := h r (List.mem_cons_self _ _)
    have hstep : cancel_request (cancel_res r) s r =
        some { s with log := s.log ++ [BridgeEvent.cancel t (cancel_res r)] } := by
      simp [cancel_request, hp, ht]
    have key := ih { s with log := s.log ++ [BridgeEvent.cancel t (cancel_res r)] }
      (fun r1 hr1 => h r1 (List.mem_cons_of_mem _ hr1))
    simp only [for_each_request, hstep]
    rw [key]
    simp [cancel_events, List.filterMap_cons, hp]

theorem sever_loop_effect (cancel_res : Nat → Int) (l : List Nat) :
    ∀ s : Bridge, l.Nodup →
      (∀ r ∈ l, ∃ t tr, (s.requests r).priv = some t ∧ s.transfers t = some tr ∧
        tr.user_data = some r) →
      ∃ s1, for_each_request (sever_request cancel_res) l s = some s1 ∧
        s1.caps = s.caps ∧ s1.ep_alive = s.ep_alive ∧ s1.in_flight = s.in_flight ∧
        s1.ep_requests = s.ep_requests ∧ s1.num_requests = s.num_requests ∧
        s1.num_transfers = s.num_transfers ∧
        (∀ r ∈ l, s1.requests r = { s.requests r with priv := none }) ∧
        (∀ r, r ∉ l → s1.requests r = s.requests r) ∧
        (∀ r ∈ l, ∀ t tr, (s.requests r).priv = some t → s.transfers t = some tr →
          s1.transfers t = some { tr with user_data := none }) ∧
        (∀ t, (∀ r ∈ l, (s.requests r).priv ≠ some t) → s1.transfers t = s.transfers t) ∧
        s1.log = s.log ++ cancel_events cancel_res s l := by
  induction l with
  | nil =>
    intro s _ _
    exact ⟨s, rfl, rfl, rfl, rfl, rfl, rfl, rfl, by simp, by simp, by simp, by simp,
      by simp [cancel_events]⟩
  | cons r rest ih =>
    intro s hnodup h
    rw [List.nodup_cons] at hnodup
    obtain ⟨t, tr, hp, ht, hud⟩ := h r (List.mem_cons_self _ _)
    have hstep : sever_request cancel_res s r =
        some { s with
          requests := set_at s.requests r { s.requests r with priv := none }
          transfers := set_at s.transfers t (some { tr with user_data := none })
          log := s.log ++ [BridgeEvent.cancel t (cancel_res r)] } := by
      simp [sever_request, hp, ht]
    have hne : ∀ r1 ∈ rest, r1 ≠ r := fun r1 hr1 h1 => hnodup.1 (h1 ▸ hr1)
    have hother : ∀ r1 ∈ rest, ∀ t1, (s.requests r1).priv = some t1 → t1 ≠ t := by
      intro r1 hr1 t1 hp1 h1
      subst h1
      obtain ⟨t2, tr2, hp2, ht2, hud2⟩ := h r1 (List.mem_cons_of_mem _ hr1)
      rw [hp1] at hp2
      cases hp2
      rw [ht] at ht2
      cases ht2
      rw [hud] at hud2
      cases hud2
      exact hne r hr1 rfl
    obtain ⟨s1, hrun, hcaps, halive, hfl, hq, hnr, hnt, hreq, hreq2, htr, htr2, hlog⟩ :=
      ih { s with
          requests := set_at s.requests r { s.requests r with priv := none }
          transfers := set_at s.transfers t (some { tr with user_data := none })
          log := s.log ++ [BridgeEvent.cancel t (cancel_res r)] } hnodup.2 (by
        intro r1 hr1
        obtain ⟨t1, tr1, hp1, ht1, hud1⟩ := h r1 (List.mem_cons_of_mem _ hr1)
        refine ⟨t1, tr1, ?_, ?_, hud1⟩
        · simp [set_at, hne r1 hr1, hp1]
        · simp [set_at, hother r1 hr1 t1 hp1, ht1])
    refine ⟨s1, ?_, hcaps, halive, hfl, hq, hnr, hnt, ?_, ?_, ?_, ?_, ?_⟩
    · simp only [for_each_request, hstep]
      exact hrun
    · intro r0 hr0
      rcases List.mem_cons.mp hr0 with h0 | h0
      · subst h0
        rw [hreq2 _ hnodup.1]
        simp [set_at]
      · rw [hreq r0 h0]
        simp [set_at, hne r0 h0]
    · intro r0 hr0
      rw [List.mem_cons, not_or] at hr0
      rw [hreq2 r0 hr0.2]
      simp [set_at, hr0.1]
    · intro r0 hr0 t0 tr0 hp0 ht0
      rcases List.mem_cons.mp hr0 with h0 | h0
      · subst h0
        rw [hp] at hp0
        cases hp0
        rw [ht] at ht0
        cases ht0
        rw [htr2 t (by
          intro r1 hr1
          obtain ⟨t1, tr1, hp1, _, _⟩ := h r1 (List.mem_cons_of_mem _ hr1)
          simp only [set_at, hne r1 hr1, if_false, hp1]
          intro h1
          cases h1
          exact hother r1 hr1 t hp1 rfl)]
        simp [set_at]
      · exact htr r0 h0 t0 tr0 (by simp [set_at, hne r0 h0, hp0])
          (by simp [set_at, hother r0 h0 t0 hp0, ht0])
    · intro t0 h0
      have hne0 : t0 ≠ t := fun h1 => h0 r (List.mem_cons_self _ _) (h1 ▸ hp)
      rw [htr2 t0 (by
        intro r1 hr1
        simp only [set_at, hne r1 hr1, if_false]
        exact h0 r1 (List.mem_cons_of_mem _ hr1))]
      simp [set_at, hne0]
    · rw [hlog]
      simp only [cancel_events, List.filterMap_cons, hp, Option.map_some', List.append_assoc,
        List.singleton_append]
      congr 2
      apply List.filterMap_congr
      intro r1 hr1
      simp [set_at, hne r1 hr1]

theorem step_enqueue (env : BridgeEnv) (s : Bridge) (request : Request) (e : EnqueueEnv)
    (hinv : BridgeInv s) (ha : s.ep_alive = true) :
    ∃ s1, bridge_step env s (BridgeInput.enqueue request e) = some s1 ∧ BridgeInv s1 ∧
      s1.ep_alive = true ∧
      ((enqueue_fails s.caps.type e ∧
          completions s1.log = completions s.log ++ [s.num_requests]) ∨
        (¬ enqueue_fails s.caps.type e ∧ completions s1.log = completions s.log)) := by
  refine ⟨proxy_gadget_ep_enqueue env e
    { s with
      requests := set_at s.requests s.num_requests request
      ep_requests := s.ep_requests ++ [s.num_requests]
      num_requests := s.num_requests + 1 } s.num_requests, ?_, ?_⟩
  · simp only [bridge_step]
    rw [if_pos ha]
  rcases enqueue_shape env e
    { s with
      requests := set_at s.requests s.num_requests request
      ep_requests := s.ep_requests ++ [s.num_requests]
      num_requests := s.num_requests + 1 } s.num_requests with ⟨hf, hshape⟩ | ⟨hf, hshape⟩
  · obtain ⟨h1, h2, h3, h4, h5, h6, h7, h8⟩ := hshape
    have := inv_enqueue_fail s _ hinv h1 h2 h3 h4
      (fun r hr => by rw [h5 r hr]; simp [set_at, hr]) h6 h7 h8
    exact ⟨this.1, by rw [h1]; exact ha, Or.inl ⟨hf, this.2⟩⟩
  · obtain ⟨h1, h2, h3, h4, h5, h6, h7, h8, h9, h10⟩ := hshape
    have := inv_enqueue_ok s _ hinv ha (by rw [h1]; exact ha) h2 h3 h4 h5
      (fun r hr => by rw [h6 r hr]; simp [set_at, hr]) h7 h8 h9 h10
    exact ⟨this.1, by rw [h1]; exact ha, Or.inr ⟨hf, this.2⟩⟩

theorem step_dequeue (env : BridgeEnv) (s : Bridge) (r : Nat) (cancel_res : Int)
    (hinv : BridgeInv s) :
    ∃ s1, bridge_step env s (BridgeInput.dequeue r cancel_res) = some s1 ∧ BridgeInv s1 ∧
      s1.ep_alive = s.ep_alive ∧ completions s1.log = completions s.log := by
  by_cases hg : s.ep_alive = true ∧ r ∈ s.ep_requests
  · obtain ⟨t, tr, hp, _, ht, _⟩ := hinv.queued hg.1 r hg.2
    refine ⟨{ s with log := s.log ++ [BridgeEvent.cancel t cancel_res] }, ?_, ?_⟩
    · simp [bridge_step, hg, proxy_gadget_ep_dequeue, cancel_request, hp, ht]
    · have := inv_log_only s { s with log := s.log ++ [BridgeEvent.cancel t cancel_res] } hinv
        rfl rfl rfl rfl rfl rfl rfl
        ⟨_, rfl, by simp [completions], by simp [destructions],
          by simp [well_paired, paired_from]⟩
      exact ⟨this.1, rfl, this.2⟩
  · exact ⟨s, by simp only [bridge_step, hg, if_false], hinv, rfl, rfl⟩

theorem step_disable (env : BridgeEnv) (s : Bridge) (cancel_res : Nat → Int)
    (hinv : BridgeInv s) :
    ∃ s1, bridge_step env s (BridgeInput.disable cancel_res) = some s1 ∧ BridgeInv s1 ∧
      s1.ep_alive = s.ep_alive ∧ completions s1.log = completions s.log := by
  by_cases ha : s.ep_alive = true
  · have hloop := cancel_loop_effect cancel_res s.ep_requests s (by
      intro r hr
      obtain ⟨t, tr, hp, _, ht, _⟩ := hinv.queued ha r hr
      exact ⟨t, tr, hp, ht⟩)
    refine ⟨_, by simp only [bridge_step, ha, if_true, proxy_gadget_ep_enable]; exact hloop, ?_⟩
    have hno := no_callbacks_cancel_events cancel_res s s.ep_requests
    have := inv_log_only s
      { s with log := s.log ++ cancel_events cancel_res s s.ep_requests } hinv
      rfl rfl rfl rfl rfl rfl rfl ⟨_, rfl, hno.1, hno.2.1, hno.2.2⟩
    exact ⟨this.1, rfl, this.2⟩
  · exact ⟨s, by simp only [bridge_step, ha, Bool.false_eq_true, if_false], hinv, rfl, rfl⟩

theorem step_destroy (env : BridgeEnv) (s : Bridge) (cancel_res : Nat → Int)
    (hinv : BridgeInv s) :
    ∃ s1, bridge_step env s (BridgeInput.destroy_ep cancel_res) = some s1 ∧ BridgeInv s1 ∧
      s1.ep_alive = false ∧ completions s1.log = completions s.log := by
  by_cases ha : s.ep_alive = true
  · obtain ⟨s1, hrun, _, _, hfl, hq, hnr, hnt, _, _, htr, htr2, hlog⟩ :=
      sever_loop_effect cancel_res s.ep_requests s hinv.ep_requests_nodup (by
        intro r hr
        obtain ⟨t, tr, hp, _, ht, hud⟩ := hinv.queued ha r hr
        exact ⟨t, tr, hp, ht, hud⟩)
    refine ⟨{ s1 with ep_alive := false }, ?_, ?_⟩
    · simp only [bridge_step, ha, if_true, proxy_gadget_ep_destroy, hrun, Option.map_some']
    · have hno := no_callbacks_cancel_events cancel_res s s.ep_requests
      have := inv_destroy s { s1 with ep_alive := false } hinv rfl hfl hnr hnt hq (by
        intro t ht
        obtain ⟨tr, htr0, hown⟩ := hinv.owned t ht
        by_cases hex : ∃ r ∈ s.ep_requests, (s.requests r).priv = some t
        · obtain ⟨r, hr, hp⟩ := hex
          exact ⟨_, htr r hr t tr hp htr0, rfl⟩
        · refine ⟨tr, ?_, ?_⟩
          · show s1.transfers t = some tr
            rw [htr2 t (fun r hr hp => hex ⟨r, hr, hp⟩)]
            exact htr0
          · cases hud : tr.user_data with
            | none => rfl
            | some r =>
              obtain ⟨h1, h2, _, _⟩ := hown r hud
              exact absurd ⟨r, h2, h1⟩ hex)
        ⟨_, hlog, hno.1, hno.2.1, hno.2.2⟩
      exact ⟨this.1, rfl, this.2⟩
  · have hd : s.ep_alive = false := by simpa using ha
    exact ⟨s, by simp only [bridge_step, hd, Bool.false_eq_true, if_false], hinv, hd, rfl⟩

theorem step_completion (env : BridgeEnv) (s : Bridge) (t : Nat) (c : Completion)
    (hinv : BridgeInv s) :
    ∃ s1, bridge_step env s (BridgeInput.completion t c) = some s1 ∧ BridgeInv s1 ∧
      s1.ep_alive = s.ep_alive ∧
      (∃ ext, completions s1.log = completions s.log ++ ext) ∧
      (s.ep_alive = false → completions s1.log = completions s.log) ∧
      (∀ tr r, t ∈ s.in_flight → s.transfers t = some tr → tr.user_data = some r →
        completions s1.log = completions s.log ++ [r] ∧ r ∉ completions s.log) := by
  by_cases hin : t ∈ s.in_flight
  · obtain ⟨tr, htr, hown⟩ := hinv.owned t hin
    obtain ⟨tr1, hhw, hud1, htype1, hvalid, hvalids⟩ :=
      hardware_complete_effect { s with in_flight := s.in_flight.erase t } t c tr htr
    have hstep : bridge_step env s (BridgeInput.completion t c) =
        proxy_gadget_transfer_cb env
          { s with
            in_flight := s.in_flight.erase t
            transfers := set_at s.transfers t (some tr1) } t := by
      simp only [bridge_step, hin, if_true, hhw]
    cases hud : tr.user_data with
    | none =>
      have hcb := transfer_cb_unowned env
        { s with
          in_flight := s.in_flight.erase t
          transfers := set_at s.transfers t (some tr1) } t tr1 (by simp [set_at])
        (by rw [hud1, hud])
      have := inv_completion_unowned s
        { s with
          in_flight := s.in_flight.erase t
          transfers := set_at (set_at s.transfers t (some tr1)) t none
          log := s.log ++
            (if tr1.type = TransferType.control then [BridgeEvent.free_buffer t] else []) ++
            [BridgeEvent.free_transfer t] } t tr hinv htr hud
        rfl rfl rfl rfl rfl (fun _ => rfl) (fun t1 h1 => by simp [set_at, h1])
        ⟨_, by rw [List.append_assoc], by
          by_cases hc : tr1.type = TransferType.control <;> simp [hc, completions], by
          by_cases hc : tr1.type = TransferType.control <;> simp [hc, destructions], by
          by_cases hc : tr1.type = TransferType.control <;>
            simp [hc, well_paired, paired_from]⟩
      refine ⟨_, by rw [hstep, hcb], this.1, rfl, ⟨[], by rw [this.2]; simp⟩,
        fun _ => this.2, ?_⟩
      intro tr0 r _ htr0 hud0
      rw [htr] at htr0
      cases htr0
      rw [hud] at hud0
      cases hud0
    | some r =>
      obtain ⟨req, hreq⟩ := complete_request_some env.ndebug tr1 (s.requests r) hvalid hvalids
      have hcb := transfer_cb_owned env
        { s with
          in_flight := s.in_flight.erase t
          transfers := set_at s.transfers t (some tr1) } t r tr1 req (by simp [set_at])
        (by rw [hud1, hud]) hreq
      have := inv_completion_owned s
        { s with
          in_flight := s.in_flight.erase t
          requests := set_at s.requests r { req with priv := none }
          ep_requests := s.ep_requests.filter (fun x => x ≠ r)
          transfers := set_at (set_at s.transfers t (some tr1)) t none
          log := s.log ++
            (if tr1.type = TransferType.control then [BridgeEvent.free_buffer t] else []) ++
            [BridgeEvent.complete r { req with priv := none }, BridgeEvent.destroy r] ++
            [BridgeEvent.free_transfer t] } t r tr hinv hin htr hud
        rfl rfl rfl rfl rfl (fun r1 h1 => by simp [set_at, h1])
        (fun t1 h1 => by simp [set_at, h1])
        ⟨_, _, _, rfl, by
          by_cases hc : tr1.type = TransferType.control <;> simp [hc, completions], by
          by_cases hc : tr1.type = TransferType.control <;> simp [hc, destructions], by
          by_cases hc : tr1.type = TransferType.control <;>
            simp [hc, well_paired, paired_from], by simp [completions],
          by simp [destructions], by simp [well_paired, paired_from]⟩
      refine ⟨_, by rw [hstep, hcb], this.1, rfl, ⟨[r], this.2.1⟩, ?_, ?_⟩
      · intro hdead
        have := (hown r hud).2.2.1
        rw [hdead] at this
        cases this
      · intro tr0 r0 _ htr0 hud0
        rw [htr] at htr0
        cases htr0
        rw [hud] at hud0
        cases hud0
        exact this.2
  · exact ⟨s, by simp only [bridge_step, hin, if_false], hinv, rfl, ⟨[], by simp⟩,
      fun _ => rfl, fun _ _ h => absurd h hin⟩

theorem bridge_step_inv (env : BridgeEnv) (s : Bridge) (input : BridgeInput)
    (hinv : BridgeInv s) :
    ∃ s1, bridge_step env s input = some s1 ∧ BridgeInv s1 ∧
      (∃ ext, completions s1.log = completions s.log ++ ext) ∧
      (s.ep_alive = false → s1.ep_alive = false ∧ completions s1.log = completions s.log) := by
  cases input with
  | enqueue request e =>
    by_cases ha : s.ep_alive = true
    · obtain ⟨s1, h1, h2, _, h4⟩ := step_enqueue env s request e hinv ha
      refine ⟨s1, h1, h2, ?_, fun hd => by rw [ha] at hd; cases hd⟩
      rcases h4 with ⟨_, h⟩ | ⟨_, h⟩
      · exact ⟨_, h⟩
      · exact ⟨[], by rw [h]; simp⟩
    · have hd : s.ep_alive = false := by simpa using ha
      exact ⟨s, by simp only [bridge_step, hd, Bool.false_eq_true, if_false], hinv,
        ⟨[], by simp⟩, fun _ => ⟨hd, rfl⟩⟩
  | dequeue r cancel_res =>
    obtain ⟨s1, h1, h2, h3, h4⟩ := step_dequeue env s r cancel_res hinv
    exact ⟨s1, h1, h2, ⟨[], by rw [h4]; simp⟩, fun hd => ⟨by rw [h3]; exact hd, h4⟩⟩
  | disable cancel_res =>
    obtain ⟨s1, h1, h2, h3, h4⟩ := step_disable env s cancel_res hinv
    exact ⟨s1, h1, h2, ⟨[], by rw [h4]; simp⟩, fun hd => ⟨by rw [h3]; exact hd, h4⟩⟩
  | destroy_ep cancel_res =>
    obtain ⟨s1, h1, h2, h3, h4⟩ := step_destroy env s cancel_res hinv
    exact ⟨s1, h1, h2, ⟨[], by rw [h4]; simp⟩, fun _ => ⟨h3, h4⟩⟩
  | completion t c =>
    obtain ⟨s1, h1, h2, h3, h4, h5, _⟩ := step_completion env s t c hinv
    exact ⟨s1, h1, h2, h4, fun hd => ⟨by rw [h3]; exact hd, h5 hd⟩⟩

theorem bridge_run_inv (env : BridgeEnv) (inputs : List BridgeInput) :
    ∀ s : Bridge, BridgeInv s →
      ∃ s2, bridge_run env s inputs = some s2 ∧ BridgeInv s2 ∧
        (∃ ext, completions s2.log = completions s.log ++ ext) ∧
        (s.ep_alive = false → completions s2.log = completions s.log) := by
  induction inputs with
  | nil => intro s hinv; exact ⟨s, rfl, hinv, ⟨[], by simp⟩, fun _ => rfl⟩
  | cons input rest ih =>
    intro s hinv
    obtain ⟨s1, h1, h2, ⟨ext1, h3⟩, h4⟩ := bridge_step_inv env s input hinv
    obtain ⟨s2, h5, h6, ⟨ext2, h7⟩, h8⟩ := ih s1 h2
    refine ⟨s2, by simp only [bridge_run, h1]; exact h5, h6,
      ⟨ext1 ++ ext2, by rw [h7, h3, List.append_assoc]⟩, ?_⟩
    intro hd
    rw [h8 (h4 hd).1, (h4 hd).2]

/-- C5, as the code has it: over every sequence of bridge inputs (the program never
ends on them), the completion callback and the destruction callback of a request are each
invoked at most once, as often as each other, and every completion callback is followed
at once by the destruction callback of the same request. On the synchronous failure of an
enqueue both are invoked exactly once, during the enqueue, and never again; on the
hardware completion of a transfer that still refers to its request both are invoked
exactly once, at that completion, and never again; and for a request that is in flight
when the endpoint is destroyed neither is ever invoked, whatever completes later. -/
theorem bridge_callbacks_at_most_once (env : BridgeEnv) (caps : EpCaps)
    (before after : List BridgeInput) (input : BridgeInput) :
    ∃ s s1 s2, bridge_run env (new_bridge caps) before = some s ∧
      bridge_step env s input = some s1 ∧ bridge_run env s1 after = some s2 ∧
      (∀ r, (completions s2.log).count r ≤ 1 ∧
        (destructions s2.log).count r = (completions s2.log).count r) ∧
      well_paired s2.log = true ∧
      (∀ request e, input = BridgeInput.enqueue request e → s.ep_alive = true →
        enqueue_fails s.caps.type e →
        (completions s.log).count s.num_requests = 0 ∧
        (completions s1.log).count s.num_requests = 1 ∧
        (completions s2.log).count s.num_requests = 1) ∧
      (∀ t c tr r, input = BridgeInput.completion t c → t ∈ s.in_flight →
        s.transfers t = some tr → tr.user_data = some r →
        (completions s.log).count r = 0 ∧ (completions s1.log).count r = 1 ∧
        (completions s2.log).count r = 1) ∧
      (∀ cancel_res r, input = BridgeInput.destroy_ep cancel_res → s.ep_alive = true →
        r ∈ s.ep_requests →
        (completions s.log).count r = 0 ∧ (completions s2.log).count r = 0) := by
  obtain ⟨s, hrun, hinv, _, _⟩ := bridge_run_inv env before (new_bridge caps) (inv_new_bridge caps)
  obtain ⟨s1, hstep, hinv1, ⟨ext1, hext1⟩, hdead1⟩ := bridge_step_inv env s input hinv
  obtain ⟨s2, hrun2, hinv2, ⟨ext2, hext2⟩, hdead2⟩ := bridge_run_inv env after s1 hinv1
  refine ⟨s, s1, s2, hrun, hstep, hrun2, ?_, hinv2.paired, ?_, ?_, ?_⟩
  · intro r
    exact ⟨List.nodup_iff_count_le_one.mp hinv2.once r, by rw [hinv2.destroyed]⟩
  · intro request e hin ha hf
    subst hin
    obtain ⟨s1a, h1, _, _, h4⟩ := step_enqueue env s request e hinv ha
    rw [hstep] at h1
    cases h1
    rcases h4 with ⟨_, h⟩ | ⟨hnf, _⟩
    · refine ⟨List.count_eq_zero_of_not_mem (fun hm =>
        Nat.lt_irrefl _ (hinv.completions_fresh _ hm)), ?_, ?_⟩
      · exact List.count_eq_one_of_mem hinv1.once (by rw [h]; simp)
      · exact List.count_eq_one_of_mem hinv2.once (by rw [hext2, h]; simp)
    · exact absurd hf hnf
  · intro t c tr r hin htin htr hud
    subst hin
    obtain ⟨s1a, h1, _, _, _, _, h6⟩ := step_completion env s t c hinv
    rw [hstep] at h1
    cases h1
    obtain ⟨h, hnew⟩ := h6 tr r htin htr hud
    refine ⟨List.count_eq_zero_of_not_mem hnew, ?_, ?_⟩
    · exact List.count_eq_one_of_mem hinv1.once (by rw [h]; simp)
    · exact List.count_eq_one_of_mem hinv2.once (by rw [hext2, h]; simp)
  · intro cancel_res r hin ha hr
    subst hin
    obtain ⟨s1a, h1, _, h3, h4⟩ := step_destroy env s cancel_res hinv
    rw [hstep] at h1
    cases h1
    obtain ⟨t, tr, _, htin, htr, hud⟩ := hinv.queued ha r hr
    obtain ⟨tr0, htr0, hown⟩ := hinv.owned t htin
    rw [htr] at htr0
    cases htr0
    have hnew := (hown r hud).2.2.2
    refine ⟨List.count_eq_zero_of_not_mem hnew, ?_⟩
    rw [hdead2 h3, h4]
    exact List.count_eq_zero_of_not_mem hnew

/-- C5 as stated fails on the third path: a request is enqueued and its transfer
accepted, the endpoint is destroyed, and the transfer completes later. The program runs
on, and neither the completion callback nor the destruction callback of the request was
invoked: not once, but never. -/
theorem severed_request_counterexample :
    (bridge_run sample_bridge_env (new_bridge bulk_caps)
      [BridgeInput.enqueue sample_request enqueue_ok,
        BridgeInput.destroy_ep (fun _ => 0),
        BridgeInput.completion 0 cancelled_completion]).map
      (fun s => (completions s.log, destructions s.log,
        (completions s.log).count 0, (destructions s.log).count 0)) =
      some ([], [], 0, 0) := by
  decide

theorem cancelled_cancel_events (cancel_res : Nat → Int) (s : Bridge) (l : List Nat) :
    cancelled (cancel_events cancel_res s l) = transfers_of s l := by
  induction l with
  | nil => rfl
  | cons r rest ih =>
    unfold cancelled cancel_events transfers_of at ih ⊢
    cases hp : (s.requests r).priv with
    | none => simpa [List.filterMap_cons, hp] using ih
    | some t => simpa [List.filterMap_cons, hp] using ih

theorem mem_transfers_of (s : Bridge) (l : List Nat) (t : Nat) :
    t ∈ transfers_of s l ↔ ∃ r ∈ l, (s.requests r).priv = some t := by
  simp [transfers_of, List.mem_filterMap]

theorem nodup_transfers_of (s : Bridge) (l : List Nat) (hnodup : l.Nodup)
    (h : ∀ r ∈ l, ∃ t tr, (s.requests r).priv = some t ∧ s.transfers t = some tr ∧
      tr.user_data = some r) :
    (transfers_of s l).Nodup := by
  induction l with
  | nil => simp [transfers_of]
  | cons r rest ih =>
    rw [List.nodup_cons] at hnodup
    obtain ⟨t, tr, hp, ht, hud⟩ := h r (List.mem_cons_self _ _)
    have ih1 := ih hnodup.2 (fun r1 hr1 => h r1 (List.mem_cons_of_mem _ hr1))
    have hcons : transfers_of s (r :: rest) = t :: transfers_of s rest := by
      simp [transfers_of, List.filterMap_cons, hp]
    rw [hcons, List.nodup_cons]
    refine ⟨?_, ih1⟩
    intro hmem
    obtain ⟨r1, hr1, hp1⟩ := (mem_transfers_of s rest t).mp hmem
    obtain ⟨t2, tr2, hp2, ht2, hud2⟩ := h r1 (List.mem_cons_of_mem _ hr1)
    rw [hp1] at hp2
    cases hp2
    rw [ht] at ht2
    cases ht2
    rw [hud] at hud2
    cases hud2
    exact hnodup.1 hr1

theorem late_completions_unowned (env : BridgeEnv) (later : List (Nat × Completion)) :
    ∀ s : Bridge, (later.map Prod.fst).Nodup →
      (∀ t ∈ later.map Prod.fst, ∃ tr, s.transfers t = some tr ∧ tr.user_data = none) →
      ∀ reqs : Nat → Request,
        late_completions env { s with requests := reqs } later =
          some { s with
            requests := reqs
            transfers := clear_transfers s.transfers (later.map Prod.fst)
            log := s.log ++ (later.map Prod.fst).flatMap (release_events s) } := by
  induction later with
  | nil =>
    intro s _ _ reqs
    have hclear : clear_transfers s.transfers [] = s.transfers := by
      funext t; simp [clear_transfers]
    simp [late_completions, hclear]
  | cons p rest ih =>
    intro s hnodup h reqs
    obtain ⟨t, c⟩ := p
    simp only [List.map_cons, List.nodup_cons] at hnodup
    obtain ⟨tr, htr, hud⟩ := h t (by simp)
    obtain ⟨tr1, hhw, hud1, htype1, _, _⟩ :=
      hardware_complete_effect { s with requests := reqs } t c tr htr
    have hcb := transfer_cb_unowned env
      { s with requests := reqs, transfers := set_at s.transfers t (some tr1) } t tr1
      (by simp [set_at]) (by rw [hud1, hud])
    have hother : ∀ t1 ∈ rest.map Prod.fst, t1 ≠ t := fun t1 h1 h2 => hnodup.1 (h2 ▸ h1)
    have key := ih
      { s with
        transfers := set_at (set_at s.transfers t (some tr1)) t none
        log := s.log ++
          (if tr1.type = TransferType.control then [BridgeEvent.free_buffer t] else []) ++
          [BridgeEvent.free_transfer t] } hnodup.2 (by
        intro t1 h1
        obtain ⟨tr2, htr2, hud2⟩ := h t1 (by simp only [List.map_cons]; exact List.mem_cons_of_mem _ h1)
        exact ⟨tr2, by simp [set_at, hother t1 h1, htr2], hud2⟩) reqs
    simp only [late_completions, hhw, hcb]
    rw [key]
    congr 2
    · funext t1
      by_cases h1 : t1 = t
      · subst h1
        have hnot : t1 ∉ List.map Prod.fst rest := hnodup.1
        simp only [clear_transfers, List.map_cons, List.mem_cons, true_or, if_true, hnot,
          if_false, set_at]
      · simp only [clear_transfers, List.map_cons, List.mem_cons, h1, false_or, set_at,
          if_false]
    · simp only [List.map_cons, List.flatMap_cons, List.append_assoc]
      have hrel : release_events s t =
          (if tr1.type = TransferType.control then [BridgeEvent.free_buffer t] else []) ++
            [BridgeEvent.free_transfer t] := by
        simp [release_events, htr, htype1]
      rw [hrel]
      simp only [List.append_assoc]
      congr 3
      apply List.flatMap_congr
      intro t1 h1
      simp [release_events, set_at, hother t1 h1]

theorem release_events_mentions (s : Bridge) (t t1 : Nat) (h : t1 ≠ t) :
    BridgeEvent.free_transfer t ∉ release_events s t1 ∧
    BridgeEvent.free_buffer t ∉ release_events s t1 := by
  unfold release_events
  cases s.transfers t1 with
  | none => simp
  | some tr =>
    by_cases hc : tr.type = TransferType.control <;> simp [hc, Ne.symm h]

theorem no_callbacks_release_events (s : Bridge) (l : List Nat) :
    no_callbacks (l.flatMap (release_events s)) := by
  induction l with
  | nil => exact no_callbacks_nil
  | cons t rest ih =>
    rw [List.flatMap_cons]
    apply no_callbacks_append _ _ _ ih
    unfold release_events
    cases s.transfers t with
    | none => exact no_callbacks_nil
    | some tr =>
      by_cases hc : tr.type = TransferType.control <;>
        simp [hc, no_callbacks, completions, destructions, well_paired, paired_from]

/-- C6: for an endpoint with N in-flight requests (each listed once, each with a
hardware transfer that refers back to it), `proxy_gadget_ep_destroy` runs to its end;
after it no listed request has a transfer reference, each of the N transfers exists
without a back-reference, and the cancellation of each was requested exactly once by the
destroy. Whatever completions libusb then delivers for these transfers (each at most
once, in any order), the callback runs on the unowned path every time: each transfer is
released exactly once, its buffer exactly once when it is a control transfer and not at
all otherwise, no completion or destruction callback is invoked, no request is written,
and the outcome does not depend on the content of any request. -/
theorem ep_destroy_severs (env : BridgeEnv) (cancel_res : Nat → Int) (s : Bridge)
    (later : List (Nat × Completion))
    (hnodup : s.ep_requests.Nodup)
    (hflight : ∀ r ∈ s.ep_requests, ∃ t tr,
      (s.requests r).priv = some t ∧ s.transfers t = some tr ∧ tr.user_data = some r)
    (hlater_nodup : (later.map Prod.fst).Nodup)
    (hlater : ∀ t ∈ later.map Prod.fst, t ∈ transfers_of s s.ep_requests) :
    ∃ s1 s2, proxy_gadget_ep_destroy cancel_res s = some s1 ∧
      (∀ r ∈ s.ep_requests, (s1.requests r).priv = none) ∧
      (∀ t ∈ transfers_of s s.ep_requests,
        (∃ tr, s1.transfers t = some tr ∧ tr.user_data = none) ∧
        (cancelled (s1.log.drop s.log.length)).count t = 1) ∧
      late_completions env s1 later = some s2 ∧
      s2.requests = s1.requests ∧
      completions (s2.log.drop s1.log.length) = [] ∧
      destructions (s2.log.drop s1.log.length) = [] ∧
      (∀ t ∈ later.map Prod.fst, ∀ tr, s1.transfers t = some tr →
        (s2.log.drop s1.log.length).count (BridgeEvent.free_transfer t) = 1 ∧
        (s2.log.drop s1.log.length).count (BridgeEvent.free_buffer t) =
          (if tr.type = TransferType.control then 1 else 0)) ∧
      (∀ reqs : Nat → Request,
        late_completions env { s1 with requests := reqs } later =
          some { s2 with requests := reqs }) := by
  obtain ⟨s1, hrun, _, _, _, _, _, _, hreq, _, htr, _, hlog⟩ :=
    sever_loop_effect cancel_res s.ep_requests s hnodup hflight
  have hsevered : ∀ t ∈ transfers_of s s.ep_requests,
      ∃ tr, s1.transfers t = some tr ∧ tr.user_data = none := by
    intro t ht
    obtain ⟨r, hr, hp⟩ := (mem_transfers_of s _ t).mp ht
    obtain ⟨t1, tr, hp1, ht1, _⟩ := hflight r hr
    rw [hp] at hp1
    cases hp1
    exact ⟨_, htr r hr t tr hp ht1, rfl⟩
  have hlate := late_completions_unowned env later s1 hlater_nodup
    (fun t ht => hsevered t (hlater t ht))
  have hdrop : ∀ a b : List BridgeEvent, (a ++ b).drop a.length = b := by
    intro a b; simp
  refine ⟨s1,
    { s1 with
      transfers := clear_transfers s1.transfers (later.map Prod.fst)
      log := s1.log ++ (later.map Prod.fst).flatMap (release_events s1) },
    hrun, ?_, ?_, hlate s1.requests, rfl, ?_, ?_, ?_, hlate⟩
  · intro r hr
    rw [hreq r hr]
  · intro t ht
    refine ⟨hsevered t ht, ?_⟩
    rw [hlog, hdrop, cancelled_cancel_events]
    exact List.count_eq_one_of_mem (nodup_transfers_of s _ hnodup hflight) ht
  · rw [hdrop]
    exact (no_callbacks_release_events s1 _).1
  · rw [hdrop]
    exact (no_callbacks_release_events s1 _).2.1
  · intro t ht tr htr1
    rw [hdrop]
    rw [count_flatMap_single (release_events s1) _ t _ hlater_nodup ht
        (fun t1 _ h1 => (release_events_mentions s1 t t1 h1).1),
      count_flatMap_single (release_events s1) _ t _ hlater_nodup ht
        (fun t1 _ h1 => (release_events_mentions s1 t t1 h1).2)]
    unfold release_events
    rw [htr1]
    by_cases hc : tr.type = TransferType.control <;> simp [hc]

/-- C6, at a control endpoint with two requests in flight whose transfers complete in
the reverse order after the destroy. -/
theorem ep_destroy_severs_witness :
    ∃ s1 s2, proxy_gadget_ep_destroy (fun _ => 0) two_in_flight = some s1 ∧
      late_completions sample_bridge_env s1
        [(1, cancelled_completion), (0, cancelled_completion)] = some s2 ∧
      s2.requests = s1.requests ∧
      completions (s2.log.drop s1.log.length) = [] ∧
      destructions (s2.log.drop s1.log.length) = [] := by
  obtain ⟨s1, s2, h1, _, _, h4, h5, h6, h7, _⟩ := ep_destroy_severs sample_bridge_env
    (fun _ => 0) two_in_flight [(1, cancelled_completion), (0, cancelled_completion)]
    (by decide)
    (by
      intro r hr
      have hq : two_in_flight.ep_requests = [0, 1] := by decide
      rw [hq] at hr
      simp only [List.mem_cons, List.mem_singleton, List.not_mem_nil, or_false] at hr
      rcases hr with rfl | rfl
      · exact ⟨0, _, rfl, rfl, rfl⟩
      · exact ⟨1, _, rfl, rfl, rfl⟩)
    (by decide) (by decide)
  exact ⟨s1, s2, h1, h4, h5, h6, h7⟩

/-- C5 as the code has it, at a bulk endpoint on which the submission of a request is
refused: both callbacks were invoked exactly once, also after a later completion event. -/
theorem bridge_callbacks_at_most_once_witness :
    ∃ s2, bridge_run sample_bridge_env (new_bridge bulk_caps)
        [BridgeInput.enqueue sample_request enqueue_refused,
          BridgeInput.completion 0 cancelled_completion] = some s2 ∧
      (completions s2.log).count 0 = 1 ∧ (destructions s2.log).count 0 = 1 ∧
      well_paired s2.log = true := by
  obtain ⟨s, s1, s2, hrun, hstep, hrun2, hcount, hp, h1, _, _⟩ :=
    bridge_callbacks_at_most_once sample_bridge_env bulk_caps []
      [BridgeInput.completion 0 cancelled_completion]
      (BridgeInput.enqueue sample_request enqueue_refused)
  simp only [bridge_run, Option.some.injEq] at hrun
  subst hrun
  have hone := (h1 _ _ rfl rfl (Or.inr (Or.inr (by decide)))).2.2
  refine ⟨s2, ?_, hone, ?_, hp⟩
  · simp only [bridge_run, hstep]
    exact hrun2
  · rw [(hcount 0).2]
    exact hone

/-! ## Theorems: status translation -/

/-- C11, amended: over the seven members of `enum libusb_transfer_status` the function
`translate_transfer_status` returns, in every build, COMPLETED as completed, CANCELLED as
unlinked, STALL as stall, OVERFLOW as overflow and ERROR, TIMED_OUT and NO_DEVICE as
error; whenever it returns, the result is unlinked only for CANCELLED and completed only
for COMPLETED. Every other value reaches `default: assert(0)`: it is returned as error
when assertions are compiled out and ends the program when they are compiled in. -/
theorem translate_transfer_status_table (ndebug : Bool) (status : Int) :
    translate_transfer_status ndebug TransferStatus.completed.code = some UrbStatus.completed ∧
    translate_transfer_status ndebug TransferStatus.cancelled.code = some UrbStatus.unlinked ∧
    translate_transfer_status ndebug TransferStatus.stall.code = some UrbStatus.stall ∧
    translate_transfer_status ndebug TransferStatus.overflow.code = some UrbStatus.overflow ∧
    translate_transfer_status ndebug TransferStatus.error.code = some UrbStatus.error ∧
    translate_transfer_status ndebug TransferStatus.timed_out.code = some UrbStatus.error ∧
    translate_transfer_status ndebug TransferStatus.no_device.code = some UrbStatus.error ∧
    ((∃ t : TransferStatus, status = t.code) →
      ∃ u, translate_transfer_status ndebug status = some u) ∧
    (translate_transfer_status ndebug status = some UrbStatus.unlinked ↔
      status = TransferStatus.cancelled.code) ∧
    (translate_transfer_status ndebug status = some UrbStatus.completed ↔
      status = TransferStatus.completed.code) ∧
    ((¬ ∃ t : TransferStatus, status = t.code) →
      translate_transfer_status ndebug status =
        if ndebug then some UrbStatus.error else none) := by
  refine ⟨rfl, rfl, rfl, rfl, rfl, rfl, rfl, ?_, ?_, ?_, ?_⟩
  · rintro ⟨t, rfl⟩
    cases t <;> exact ⟨_, rfl⟩
  · unfold translate_transfer_status TransferStatus.code
    constructor
    · intro h
      by_contra hne
      split_ifs at h <;> simp_all
    · rintro rfl; rfl
  · unfold translate_transfer_status TransferStatus.code
    constructor
    · intro h
      by_contra hne
      split_ifs at h <;> simp_all
    · rintro rfl; rfl
  · intro h
    have h0 : status ≠ 0 := fun e => h ⟨TransferStatus.completed, e⟩
    have h1 : status ≠ 1 := fun e => h ⟨TransferStatus.error, e⟩
    have h2 : status ≠ 2 := fun e => h ⟨TransferStatus.timed_out, e⟩
    have h3 : status ≠ 3 := fun e => h ⟨TransferStatus.cancelled, e⟩
    have h4 : status ≠ 4 := fun e => h ⟨TransferStatus.stall, e⟩
    have h5 : status ≠ 5 := fun e => h ⟨TransferStatus.no_device, e⟩
    have h6 : status ≠ 6 := fun e => h ⟨TransferStatus.overflow, e⟩
    simp [translate_transfer_status, h0, h1, h2, h3, h4, h5, h6]

/-- C11 as stated fails in a build with assertions: the value 7, which is no member of
the enumeration, is not treated as error; `assert(0)` ends the program. -/
theorem translate_transfer_status_counterexample :
    translate_transfer_status false 7 = none ∧
    translate_transfer_status false 7 ≠ some UrbStatus.error := by
  decide

/-! ## Theorems: termination of the counting loop -/

theorem zero_length_loop (extra : Nat → Nat) (h : Nat) (L : Int)
    (hb : bLength extra h = 0) (hL : 2 ≤ L) (hL2 : L < 2 ^ 31) :
    ∀ fuel : Nat, ∀ (c : Int) (rd : List Nat),
      count_loop extra fuel ⟨L, c, h, rd⟩ = none := by
  intro fuel
  induction fuel with
  | zero => intro c rd; rfl
  | succ n ih =>
    intro c rd
    have hcond : count_cond ⟨L, c, h, rd⟩ = true := by
      simp only [count_cond, decide_eq_true_eq]
      rw [to_size_t_of_nonneg L (by omega) (by omega)]
      unfold sizeof_header
      omega
    have hstep : count_step extra ⟨L, c, h, rd⟩ = ⟨L, wrap_int (c + 1), h, rd ++ [h]⟩ := by
      simp only [count_step, hb]
      rw [wrap_int_of_range] <;> simp <;> omega
    rw [count_loop, hcond, if_pos rfl, hstep]
    exact ih _ _

/-- C19 fails at the 2-byte buffer `00 00`: the record at offset 0 has the length byte 0,
so a run of the loop body neither lowers the remaining length nor moves the header
pointer, and the counting loop is never left, whatever the fuel: `extra_to_descriptors`
does not return. A length byte 1 does make progress: the buffer `01 01` leaves the loop
after one run and gives `NULL`. -/
theorem extra_to_descriptors_zero_length_diverges :
    (count_step (mem_of [0, 0] 0) ⟨2, 0, 0, []⟩).extra_length = 2 ∧
    (count_step (mem_of [0, 0] 0) ⟨2, 0, 0, []⟩).h = 0 ∧
    (∀ (malloc_ok : Bool) (fuel : Nat),
      extra_to_descriptors malloc_ok (mem_of [0, 0] 0) 2 fuel = none) ∧
    (∀ malloc_ok : Bool, extra_to_descriptors malloc_ok (mem_of [1, 1] 0) 2 2 = some none) := by
  refine ⟨by rfl, by rfl, ?_, ?_⟩
  · intro malloc_ok fuel
    unfold extra_to_descriptors
    rw [zero_length_loop (mem_of [0, 0] 0) 0 2 (by rfl) (by decide) (by decide) fuel 0 []]
  · intro malloc_ok
    rfl

/-! ## Theorems: hot-plug arrival -/

theorem attach_loop_skip (dev : Device) (open_ok : Bool) (s : SlotTable) :
    ∀ (n i : Nat), (∀ j, i ≤ j → j < i + n → ¬ slot_empty s j) →
      attach_loop dev open_ok n i s = s := by
  intro n
  induction n with
  | zero => intro i _; rfl
  | succ n ih =>
    intro i h
    have hi : ¬ ((s.libusb_devs i).isNone = true ∧ (s.proxy_devs i).isNone = true) := by
      intro hc
      exact h i (le_refl _) (by omega)
        ⟨Option.isNone_iff_eq_none.mp hc.1, Option.isNone_iff_eq_none.mp hc.2⟩
    rw [attach_loop, if_neg hi]
    exact ih (i + 1) (fun j h1 h2 => h j (by omega) (by omega))

theorem attach_loop_first (dev : Device) (open_ok : Bool) (s : SlotTable) (k : Nat)
    (hk : slot_empty s k) :
    ∀ (n i : Nat), i ≤ k → k < i + n → (∀ j, i ≤ j → j < k → ¬ slot_empty s j) →
      attach_loop dev open_ok n i s =
        { s with
          libusb_devs := set_at s.libusb_devs k (if open_ok then some ⟨s.fresh, dev⟩ else none)
          fresh := if open_ok then s.fresh + 1 else s.fresh
          log := s.log ++ [SlotEvent.libusb_open dev (if open_ok then some s.fresh else none)] } := by
  intro n
  induction n with
  | zero => intro i h1 h2; omega
  | succ n ih =>
    intro i h1 h2 h
    by_cases hik : i = k
    · subst hik
      have hi : (s.libusb_devs i).isNone = true ∧ (s.proxy_devs i).isNone = true := by
        simp [hk.1, hk.2]
      rw [attach_loop, if_pos hi]
      cases open_ok <;> simp
    · have hi : ¬ ((s.libusb_devs i).isNone = true ∧ (s.proxy_devs i).isNone = true) := by
        intro hc
        exact h i (le_refl _) (by omega)
          ⟨Option.isNone_iff_eq_none.mp hc.1, Option.isNone_iff_eq_none.mp hc.2⟩
      rw [attach_loop, if_neg hi]
      exact ih (i + 1) (by omega) (by omega) (fun j h1 h2 => h j (by omega) h2)

/-- C18: the effect of `hotplug_callback_attach` on any slot table. A device on the
bus of the virtual devices leaves the state as it is (no slot changes, no call is made).
Otherwise, when `k` is the lowest slot below 5 in which both entries are absent, exactly
one `libusb_open` is made; slot `k` holds the new handle when the open succeeds and stays
Empty when it fails, its bridge entry stays absent, and every other entry of both arrays
is as before. When no slot below 5 is Empty the state is left as it is. -/
theorem hotplug_callback_attach_frame (dev : Device) (open_ok : Bool) (s : SlotTable) :
    ((dev.bus : Int) = s.vdp_busnum → hotplug_callback_attach dev open_ok s = s) ∧
    ((dev.bus : Int) ≠ s.vdp_busnum →
      (∀ k, k < NUM_SLOTS → slot_empty s k → (∀ j, j < k → ¬ slot_empty s j) →
        (hotplug_callback_attach dev open_ok s).libusb_devs k =
          (if open_ok then some ⟨s.fresh, dev⟩ else none) ∧
        (hotplug_callback_attach dev open_ok s).proxy_devs k = none ∧
        (∀ j, j ≠ k →
          (hotplug_callback_attach dev open_ok s).libusb_devs j = s.libusb_devs j) ∧
        (hotplug_callback_attach dev open_ok s).proxy_devs = s.proxy_devs ∧
        (hotplug_callback_attach dev open_ok s).log =
          s.log ++ [SlotEvent.libusb_open dev (if open_ok then some s.fresh else none)]) ∧
      ((∀ j, j < NUM_SLOTS → ¬ slot_empty s j) →
        hotplug_callback_attach dev open_ok s = s)) := by
  constructor
  · intro h
    simp [hotplug_callback_attach, h]
  · intro hbus
    constructor
    · intro k hk hempty hfirst
      have key := attach_loop_first dev open_ok s k hempty NUM_SLOTS 0 (Nat.zero_le _)
        (by omega) (fun j _ h2 => hfirst j h2)
      have e : hotplug_callback_attach dev open_ok s = attach_loop dev open_ok NUM_SLOTS 0 s := by
        rw [hotplug_callback_attach, if_neg hbus]
      rw [e, key]
      refine ⟨by simp [set_at], hempty.2, ?_, rfl, rfl⟩
      intro j hj
      simp [set_at, hj]
    · intro hnone
      simp only [hotplug_callback_attach, if_neg hbus]
      exact attach_loop_skip dev open_ok s NUM_SLOTS 0 (fun j _ h2 => hnone j (by omega))

/-- C18 at the table with all slots Empty and the virtual devices on bus 7: the device on
bus 1 is opened into slot 0 by the one call made, and slot 1 is as before. -/
theorem hotplug_callback_attach_frame_witness :
    (hotplug_callback_attach sample_device true (empty_slots 7)).libusb_devs 0 =
      some ⟨0, sample_device⟩ ∧
    (hotplug_callback_attach sample_device true (empty_slots 7)).proxy_devs 0 = none ∧
    (hotplug_callback_attach sample_device true (empty_slots 7)).libusb_devs 1 = none ∧
    (hotplug_callback_attach sample_device true (empty_slots 7)).log =
      [SlotEvent.libusb_open sample_device (some 0)] := by
  have h := ((hotplug_callback_attach_frame sample_device true (empty_slots 7)).2
    (by decide)).1 0 (by decide) ⟨rfl, rfl⟩ (fun j hj => absurd hj (Nat.not_lt_zero j))
  exact ⟨h.1, h.2.1, h.2.2.1 1 (by decide), h.2.2.2.2⟩

/-! ## Theorems: the arguments of main -/

theorem open_loop_log (env : MainEnv) :
    ∀ (n i : Nat) (v : VdpDevs), ∃ ext, (open_loop env n i v).2.log = v.log ++ ext ∧
      ∀ e ∈ ext, ∃ j ok, e = MainEvent.vdp_usb_device_open j ok := by
  intro n
  induction n with
  | zero => intro i v; exact ⟨[], by simp [open_loop], by simp⟩
  | succ n ih =>
    intro i v
    simp only [open_loop]
    split_ifs with h
    · obtain ⟨ext, h1, h2⟩ := ih (i + 1)
        { opened := set_at v.opened i true
          vdp_busnum := env.vdp_usb_device_get_busnum i
          log := v.log ++ [MainEvent.vdp_usb_device_open i true] }
      refine ⟨MainEvent.vdp_usb_device_open i true :: ext, ?_, ?_⟩
      · rw [h1]; simp
      · intro e he
        rcases List.mem_cons.mp he with rfl | he
        · exact ⟨i, true, rfl⟩
        · exact h2 e he
    · exact ⟨[MainEvent.vdp_usb_device_open i false], rfl, by simp⟩

/-- C12, amended: `main` tests `argc < 3` only. With fewer than two positional arguments
it prints the usage line, makes no other call and returns 1. With two or more it prints
no usage line: it parses `argv[1]` and `argv[2]` with `strtol` in base 16 and then calls
`libusb_init`; the vendor id and the product id given to both hot-plug registrations are
the values of `argv[1]` and of `argv[2]`, converted to `int`. Further arguments are not
looked at. -/
theorem main_arguments (env : MainEnv) (argv : List String) :
    (argv.length < 3 → main env argv = (1, [MainEvent.signal, MainEvent.usage])) ∧
    (3 ≤ argv.length →
      (∃ rest, (main env argv).2 =
        [MainEvent.signal, MainEvent.strtol (argv.getD 1 "") 16,
          MainEvent.strtol (argv.getD 2 "") 16, MainEvent.libusb_init env.libusb_init] ++ rest ∧
        MainEvent.usage ∉ rest ∧
        (∀ arg base, MainEvent.strtol arg base ∉ rest) ∧
        (∀ arrived vendor_id product_id res,
          MainEvent.libusb_hotplug_register_callback arrived vendor_id product_id res ∈ rest →
            vendor_id = wrap_int (env.strtol (argv.getD 1 "") 16) ∧
            product_id = wrap_int (env.strtol (argv.getD 2 "") 16))) ∧
      main env argv = main env (argv.take 3)) := by
  constructor
  · intro h
    simp [main, h]
  · intro h
    have h3 : ¬ argv.length < 3 := by omega
    have ht3 : ¬ (argv.take 3).length < 3 := by
      rw [List.length_take]; omega
    have hg1 : (argv.take 3).getD 1 "" = argv.getD 1 "" := by
      rw [List.getD_eq_getElem?_getD, List.getD_eq_getElem?_getD, List.getElem?_take]
      simp
    have hg2 : (argv.take 3).getD 2 "" = argv.getD 2 "" := by
      rw [List.getD_eq_getElem?_getD, List.getD_eq_getElem?_getD, List.getElem?_take]
      simp
    constructor
    · obtain ⟨ext, hext, hopen⟩ := open_loop_log env NUM_SLOTS 0
        ⟨fun _ => false, -1,
          [MainEvent.signal, MainEvent.strtol (argv.getD 1 "") 16,
            MainEvent.strtol (argv.getD 2 "") 16, MainEvent.libusb_init env.libusb_init] ++
            [MainEvent.vdp_usb_init true]⟩
      have hmem : ∀ (pre : List MainEvent) (post : Nat → Bool),
          (∀ e ∈ pre, e ≠ MainEvent.usage ∧ (∀ a b, e ≠ MainEvent.strtol a b) ∧
            (∀ a b c d, MainEvent.libusb_hotplug_register_callback a b c d = e →
              b = wrap_int (env.strtol (argv.getD 1 "") 16) ∧
              c = wrap_int (env.strtol (argv.getD 2 "") 16))) →
          MainEvent.usage ∉ pre ++ out3 post ++ out2 ∧
          (∀ arg base, MainEvent.strtol arg base ∉ pre ++ out3 post ++ out2) ∧
          (∀ arrived vendor_id product_id res,
            MainEvent.libusb_hotplug_register_callback arrived vendor_id product_id res ∈
              pre ++ out3 post ++ out2 →
            vendor_id = wrap_int (env.strtol (argv.getD 1 "") 16) ∧
            product_id = wrap_int (env.strtol (argv.getD 2 "") 16)) := by
        intro pre post hpre
        refine ⟨?_, ?_, ?_⟩
        · intro hin
          simp only [out3, out2, List.mem_append, List.mem_map, List.mem_singleton] at hin
          rcases hin with (hin | hin) | hin
          · exact (hpre _ hin).1 rfl
          · rcases hin with ⟨_, _, hin⟩ | hin <;> cases hin
          · cases hin
        · intro arg base hin
          simp only [out3, out2, List.mem_append, List.mem_map, List.mem_singleton] at hin
          rcases hin with (hin | hin) | hin
          · exact (hpre _ hin).2.1 _ _ rfl
          · rcases hin with ⟨_, _, hin⟩ | hin <;> cases hin
          · cases hin
        · intro arrived vendor_id product_id res hin
          simp only [out3, out2, List.mem_append, List.mem_map, List.mem_singleton] at hin
          rcases hin with (hin | hin) | hin
          · exact (hpre _ hin).2.2 _ _ _ _ rfl
          · rcases hin with ⟨_, _, hin⟩ | hin <;> cases hin
          · cases hin
      simp only [main, if_neg h3]
      by_cases hinit : env.libusb_init ≠ 0
      · rw [if_pos hinit]
        exact ⟨[], by simp, by simp, by simp, by simp⟩
      rw [if_neg hinit]
      by_cases hvdp : (!env.vdp_usb_init_ok) = true
      · rw [if_pos hvdp]
        exact ⟨[MainEvent.vdp_usb_init false] ++ out2, by simp, by simp [out2],
          by simp [out2], by simp [out2]⟩
      rw [if_neg hvdp]
      generalize hol : open_loop env NUM_SLOTS 0 _ = r at hext
      obtain ⟨b, v⟩ := r
      simp only at hext
      cases b
      · simp only [hext]
        refine ⟨[MainEvent.vdp_usb_init true] ++ ext ++ out3 v.opened ++ out2,
          by simp only [List.append_assoc], ?_⟩
        apply hmem
        intro e he
        rcases List.mem_append.mp he with he | he
        · rw [List.mem_singleton.mp he]; simp
        · obtain ⟨j, ok, rfl⟩ := hopen e he
          simp
      · simp only [hext]
        split_ifs
        · refine ⟨[MainEvent.vdp_usb_init true] ++ ext ++
            [MainEvent.libusb_has_capability false] ++ out3 v.opened ++ out2,
            by simp only [List.append_assoc], ?_⟩
          apply hmem
          intro e he
          simp only [List.mem_append, List.mem_singleton] at he
          rcases he with (he | he) | he
          · rw [he]; simp
          · obtain ⟨j, ok, rfl⟩ := hopen e he
            simp
          · rw [he]; simp
        · refine ⟨[MainEvent.vdp_usb_init true] ++ ext ++
            [MainEvent.libusb_has_capability true,
              MainEvent.libusb_hotplug_register_callback true
                (wrap_int (env.strtol (argv.getD 1 "") 16))
                (wrap_int (env.strtol (argv.getD 2 "") 16)) env.register_arrived] ++
            out3 v.opened ++ out2,
            by simp only [List.append_assoc], ?_⟩
          apply hmem
          intro e he
          simp only [List.mem_append, List.mem_singleton, List.mem_cons, List.mem_nil_iff,
            or_false] at he
          rcases he with (he | he) | he | he
          · rw [he]; simp
          · obtain ⟨j, ok, rfl⟩ := hopen e he
            simp
          · rw [he]; simp
          · rw [he]; simp
            intros
            constructor <;> assumption
        · refine ⟨_, by simp only [List.append_assoc]; rfl, ?_⟩
          simp only [← List.append_assoc]
          apply hmem
          intro e he
          simp only [List.mem_append, List.mem_singleton, List.mem_cons, List.mem_nil_iff,
            or_false, List.mem_map] at he
          rcases he with (((he | he) | he) | ⟨_, _, he⟩) | he | he
          · rw [he]; simp
          · obtain ⟨j, ok, rfl⟩ := hopen e he
            simp
          · rw [he]; simp
          · rw [← he]; simp
          · rw [he]; simp
            intros
            constructor <;> assumption
          · rw [he]; simp
            intros
            constructor <;> assumption
        · refine ⟨_, by simp only [List.append_assoc]; rfl, ?_⟩
          simp only [← List.append_assoc]
          apply hmem
          intro e he
          simp only [List.mem_append, List.mem_singleton, List.mem_cons, List.mem_nil_iff,
            or_false, List.mem_map] at he
          rcases he with ((((he | he) | he) | ⟨_, _, he⟩) | he | he) | ⟨_, _, he⟩
          · rw [he]; simp
          · obtain ⟨j, ok, rfl⟩ := hopen e he
            simp
          · rw [he]; simp
          · rw [← he]; simp
          · rw [he]; simp
            intros
            constructor <;> assumption
          · rw [he]; simp
            intros
            constructor <;> assumption
          · rw [← he]; simp
    · simp only [main, if_neg h3, if_neg ht3, hg1, hg2]

/-- C12 as stated fails with three positional arguments: `main` prints no usage line,
initialises libusb and the virtual side, registers the callbacks for the ids of the
first two arguments and, once the event loop is left, returns 0. -/
theorem main_extra_argument_counterexample :
    main (sample_main_env [] []) ["vdpusb-proxy", "1d6b", "2", "extra"] =
      (0, [MainEvent.signal, MainEvent.strtol "1d6b" 16, MainEvent.strtol "2" 16,
        MainEvent.libusb_init 0, MainEvent.vdp_usb_init true,
        MainEvent.vdp_usb_device_open 0 true, MainEvent.vdp_usb_device_open 1 true,
        MainEvent.vdp_usb_device_open 2 true, MainEvent.vdp_usb_device_open 3 true,
        MainEvent.vdp_usb_device_open 4 true, MainEvent.libusb_has_capability true,
        MainEvent.libusb_hotplug_register_callback true 7531 2 0,
        MainEvent.libusb_hotplug_register_callback false 7531 2 0,
        MainEvent.vdp_usb_device_close 0, MainEvent.vdp_usb_device_close 1,
        MainEvent.vdp_usb_device_close 2, MainEvent.vdp_usb_device_close 3,
        MainEvent.vdp_usb_device_close 4, MainEvent.vdp_usb_cleanup, MainEvent.libusb_exit]) := by
  decide

/-! ## Theorems: the shutdown -/

theorem teardown_loop_effect :
    ∀ (n i : Nat) (s : SlotTable),
      (teardown_loop n i s).libusb_devs = s.libusb_devs ∧
      (teardown_loop n i s).proxy_devs = s.proxy_devs ∧
      (teardown_loop n i s).fresh = s.fresh ∧
      (teardown_loop n i s).log = s.log ++ (List.range' i n).flatMap (fun j =>
        match s.proxy_devs j with
        | some proxy => proxy_device_destroy proxy ++ [SlotEvent.vdp_usb_device_detach j]
        | none => []) := by
  intro n
  induction n with
  | zero => intro i s; simp [teardown_loop]
  | succ n ih =>
    intro i s
    rw [List.range'_succ, List.flatMap_cons]
    simp only [teardown_loop]
    cases hp : s.proxy_devs i with
    | none =>
      simp only [List.nil_append]
      exact ih (i + 1) s
    | some proxy =>
      simp only
      have h := ih (i + 1)
        { s with
          log := s.log ++ proxy_device_destroy proxy ++ [SlotEvent.vdp_usb_device_detach i] }
      refine ⟨h.1, h.2.1, h.2.2.1, ?_⟩
      rw [h.2.2.2]
      simp only [List.append_assoc]

/-- C13 fails in the state after one arrival whose device was opened into slot 0 and for
which no reconciliation pass has run: the slot holds the open handle 0 and no bridge. The
teardown looks at `proxy_devs` only, so it makes no call at all, and `main` returns 0
having closed the five virtual devices and shut the subsystems down without any
`libusb_close` of handle 0. -/
theorem shutdown_leaves_opened_handle :
    (lifecycle_run (empty_slots 7) [LifecycleStep.arrival sample_device true]).libusb_devs 0 =
      some ⟨0, sample_device⟩ ∧
    (lifecycle_run (empty_slots 7) [LifecycleStep.arrival sample_device true]).proxy_devs 0 =
      none ∧
    events_since (lifecycle_run (empty_slots 7) [LifecycleStep.arrival sample_device true])
      (shutdown_teardown
        (lifecycle_run (empty_slots 7) [LifecycleStep.arrival sample_device true])) = [] ∧
    main (sample_main_env [] [LifecycleStep.arrival sample_device true])
        ["vdpusb-proxy", "1d6b", "2"] =
      (0, [MainEvent.signal, MainEvent.strtol "1d6b" 16, MainEvent.strtol "2" 16,
        MainEvent.libusb_init 0, MainEvent.vdp_usb_init true,
        MainEvent.vdp_usb_device_open 0 true, MainEvent.vdp_usb_device_open 1 true,
        MainEvent.vdp_usb_device_open 2 true, MainEvent.vdp_usb_device_open 3 true,
        MainEvent.vdp_usb_device_open 4 true, MainEvent.libusb_has_capability true,
        MainEvent.libusb_hotplug_register_callback true 7531 2 0,
        MainEvent.libusb_hotplug_register_callback false 7531 2 0,
        MainEvent.slot (SlotEvent.libusb_open sample_device (some 0)),
        MainEvent.vdp_usb_device_close 0, MainEvent.vdp_usb_device_close 1,
        MainEvent.vdp_usb_device_close 2, MainEvent.vdp_usb_device_close 3,
        MainEvent.vdp_usb_device_close 4, MainEvent.vdp_usb_cleanup, MainEvent.libusb_exit]) := by
  refine ⟨by decide, by decide, by decide, by decide⟩

/-! ## Theorems: every handle is closed at most once -/

theorem closes_sound_step (s s1 : SlotTable) (i : Nat) (closes : List Nat)
    (hw : handles_well_formed s) (hc : closes_sound s) (hshrink : handles_shrink s s1)
    (hlog : closed_ids s1.log = closed_ids s.log ++ closes)
    (hin : ∀ x, x ∈ closes → x ∈ slot_handle_ids s i)
    (hnodup : closes.Nodup)
    (hgone : ∀ x, x ∈ closes → x ∉ slot_handle_ids s1 i) : closes_sound s1 := by
  refine ⟨?_, ?_, ?_⟩
  · rw [hlog]
    refine List.Nodup.append hc.1 hnodup ?_
    intro x hx1 hx2
    exact hc.2.2 i x (hin x hx2) hx1
  · intro x hx
    rw [hlog] at hx
    rcases List.mem_append.mp hx with hx | hx
    · exact lt_of_lt_of_le (hc.2.1 x hx) hshrink.2
    · exact lt_of_lt_of_le (hw.1 i x (hin x hx)) hshrink.2
  · intro j x hx hcl
    rw [hlog] at hcl
    have hx0 := hshrink.1 j x hx
    rcases List.mem_append.mp hcl with hcl | hcl
    · exact hc.2.2 j x hx0 hcl
    · have hji : j = i := hw.2 j i x hx0 (hin x hcl)
      subst hji
      exact hgone x hcl hx

theorem closes_of_slot_gone (env : ReconcileEnv) (i : Nat) (s : SlotTable) :
    (closes_of_slot env s i).Nodup ∧
    ∀ x, x ∈ closes_of_slot env s i → x ∉ slot_handle_ids (reconcile_slot env i s) i := by
  unfold reconcile_slot proxy_device_create slot_handle_ids closes_of_slot
  cases hl : s.libusb_devs i <;> cases hp : s.proxy_devs i <;>
    cases hc : env.create_ok i <;> cases ha : env.attach_ok i <;> simp [set_at, hl, hp]

theorem reconcile_slot_sound (env : ReconcileEnv) (i : Nat) (s : SlotTable)
    (hw : handles_well_formed s) (hc : closes_sound s) :
    closes_sound (reconcile_slot env i s) := by
  obtain ⟨ext, hlog, hcl, _⟩ := reconcile_slot_log env i s
  have hg := closes_of_slot_gone env i s
  refine closes_sound_step s _ i (closes_of_slot env s i) hw hc (reconcile_slot_shrink env i s)
    ?_ (closes_of_slot_subset env s i) hg.1 hg.2
  rw [hlog, closed_ids_append, hcl]

theorem reconcile_loop_sound (env : ReconcileEnv) :
    ∀ (n i0 : Nat) (s : SlotTable), handles_well_formed s → closes_sound s →
      closes_sound (reconcile_loop env n i0 s) := by
  intro n
  induction n with
  | zero => intro i0 s _ hc; exact hc
  | succ n ih =>
    intro i0 s hw hc
    exact ih (i0 + 1) _ (handles_well_formed_shrink s _ hw (reconcile_slot_shrink env i0 s))
      (reconcile_slot_sound env i0 s hw hc)

theorem detach_loop_effect (dev : Device) :
    ∀ (n i0 : Nat) (s : SlotTable),
      detach_loop dev n i0 s = s ∨
      ∃ i h, s.libusb_devs i = some h ∧ detach_loop dev n i0 s =
        { s with
          libusb_devs := set_at s.libusb_devs i none
          log := s.log ++
            (if (s.proxy_devs i).isNone then [SlotEvent.libusb_close h.id] else []) } := by
  intro n
  induction n with
  | zero => intro i0 s; exact Or.inl rfl
  | succ n ih =>
    intro i0 s
    simp only [detach_loop]
    cases hl : s.libusb_devs i0 with
    | none => exact ih (i0 + 1) s
    | some h =>
      simp only
      by_cases hm : dev.bus = h.dev.bus ∧ dev.port = h.dev.port
      · rw [if_pos hm]
        exact Or.inr ⟨i0, h, hl, rfl⟩
      · rw [if_neg hm]
        exact ih (i0 + 1) s

theorem detach_loop_sound (dev : Device) (n i0 : Nat) (s : SlotTable)
    (hw : handles_well_formed s) (hc : closes_sound s) :
    closes_sound (detach_loop dev n i0 s) := by
  have hshrink := detach_loop_shrink dev n i0 s
  rcases detach_loop_effect dev n i0 s with h | ⟨i, h, hl, heq⟩
  · rw [h]; exact hc
  · rw [heq] at hshrink ⊢
    refine closes_sound_step s _ i
      (if (s.proxy_devs i).isNone then [h.id] else []) hw hc hshrink ?_ ?_ ?_ ?_
    · simp only [closed_ids_append]
      congr 1
      split_ifs <;> simp [closed_ids]
    · intro x hx
      split_ifs at hx with hp
      · simp only [List.mem_singleton] at hx
        simp [slot_handle_ids, hl, hx]
      · simp at hx
    · split_ifs <;> simp
    · intro x hx
      split_ifs at hx with hp
      · simp [slot_handle_ids, set_at, Option.isNone_iff_eq_none.mp hp]
      · simp at hx

theorem attach_loop_sound (dev : Device) (open_ok : Bool) :
    ∀ (n i0 : Nat) (s : SlotTable), closes_sound s →
      closes_sound (attach_loop dev open_ok n i0 s) := by
  intro n
  induction n with
  | zero => intro i0 s h; exact h
  | succ n ih =>
    intro i0 s h
    simp only [attach_loop]
    by_cases hfree : (s.libusb_devs i0).isNone = true ∧ (s.proxy_devs i0).isNone = true
    · rw [if_pos hfree]
      have hl := Option.isNone_iff_eq_none.mp hfree.1
      have hp := Option.isNone_iff_eq_none.mp hfree.2
      have hids : ∀ (v : Option Handle) (f : Nat) (l : List SlotEvent) (j x : Nat),
          x ∈ slot_handle_ids
            { s with libusb_devs := set_at s.libusb_devs i0 v, fresh := f, log := l } j →
          (j = i0 ∧ ∃ hd, v = some hd ∧ x = hd.id) ∨ x ∈ slot_handle_ids s j := by
        intro v f l j x
        unfold slot_handle_ids
        by_cases hj : j = i0
        · subst hj
          cases v with
          | none => simp [set_at, hp]
          | some hd =>
            simp only [set_at, hp, if_true, Option.toList_some, List.map_cons, List.map_nil,
              Option.toList_none, List.append_nil, List.mem_singleton]
            intro hx
            exact Or.inl ⟨trivial, hd, rfl, hx⟩
        · simp only [set_at, hj, if_false]
          exact Or.inr
      cases open_ok with
      | false =>
        simp only [Bool.false_eq_true, if_false]
        refine ⟨?_, ?_, ?_⟩
        · simpa [closed_ids_append, closed_ids] using h.1
        · intro x hx
          exact h.2.1 x (by simpa [closed_ids_append, closed_ids] using hx)
        · intro j x hx hcl
          rcases hids none s.fresh _ j x hx with ⟨_, hd, hv, _⟩ | hx0
          · cases hv
          · exact h.2.2 j x hx0 (by simpa [closed_ids_append, closed_ids] using hcl)
      | true =>
        simp only [if_true]
        refine ⟨?_, ?_, ?_⟩
        · simpa [closed_ids_append, closed_ids] using h.1
        · intro x hx
          have := h.2.1 x (by simpa [closed_ids_append, closed_ids] using hx)
          show x < s.fresh + 1
          omega
        · intro j x hx hcl
          have hcl0 : x ∈ closed_ids s.log := by
            simpa [closed_ids_append, closed_ids] using hcl
          rcases hids (some ⟨s.fresh, dev⟩) (s.fresh + 1) _ j x hx with ⟨_, hd, hv, hxe⟩ | hx0
          · cases hv
            have := h.2.1 x hcl0
            simp only at hxe
            omega
          · exact h.2.2 j x hx0 hcl0
    · rw [if_neg hfree]
      exact ih (i0 + 1) s h

theorem lifecycle_step_sound (s : SlotTable) (step : LifecycleStep)
    (hw : handles_well_formed s) (hc : closes_sound s) :
    closes_sound (lifecycle_step s step) := by
  cases step with
  | arrival dev open_ok =>
    simp only [lifecycle_step, hotplug_callback_attach]
    split_ifs
    · exact hc
    · exact attach_loop_sound dev open_ok NUM_SLOTS 0 s hc
  | departure dev =>
    simp only [lifecycle_step, hotplug_callback_detach]
    split_ifs
    · exact hc
    · exact detach_loop_sound dev NUM_SLOTS 0 s hw hc
  | pass env =>
    exact reconcile_loop_sound env NUM_SLOTS 0 s hw hc

theorem lifecycle_run_sound (steps : List LifecycleStep) :
    ∀ s : SlotTable, handles_well_formed s → closes_sound s →
      closes_sound (lifecycle_run s steps) := by
  induction steps with
  | nil => intro s _ h; exact h
  | cons step rest ih =>
    intro s hw hc
    exact ih _ (lifecycle_step_well_formed s step hw) (lifecycle_step_sound s step hw hc)

theorem empty_slots_sound (vdp_busnum : Int) : closes_sound (empty_slots vdp_busnum) := by
  refine ⟨?_, ?_, ?_⟩ <;> simp [closed_ids, empty_slots]

theorem nodup_flatMap_slots (f : Nat → List Nat) (l : List Nat) (hl : l.Nodup)
    (h1 : ∀ j, (f j).Nodup) (h2 : ∀ j k x, x ∈ f j → x ∈ f k → j = k) :
    (l.flatMap f).Nodup := by
  induction l with
  | nil => simp
  | cons a rest ih =>
    rw [List.flatMap_cons]
    have hl2 := List.nodup_cons.mp hl
    refine List.Nodup.append (h1 a) (ih hl2.2) ?_
    intro x hx1 hx2
    obtain ⟨k, hk, hxk⟩ := List.mem_flatMap.mp hx2
    have := h2 a k x hx1 hxk
    subst this
    exact hl2.1 hk

theorem teardown_closed_ids (s : SlotTable) :
    closed_ids (shutdown_teardown s).log =
      closed_ids s.log ++ (List.range' 0 NUM_SLOTS).flatMap (fun j =>
        (s.proxy_devs j).toList.map (fun p => p.handle.id)) := by
  rw [shutdown_teardown, (teardown_loop_effect NUM_SLOTS 0 s).2.2.2, closed_ids_append]
  congr 1
  unfold closed_ids
  rw [List.filterMap_flatMap]
  apply List.flatMap_congr
  intro j _
  cases s.proxy_devs j <;> simp [proxy_device_destroy]

theorem teardown_sound (s : SlotTable) (hw : handles_well_formed s) (hc : closes_sound s) :
    (closed_ids (shutdown_teardown s).log).Nodup := by
  rw [teardown_closed_ids]
  refine List.Nodup.append hc.1 ?_ ?_
  · apply nodup_flatMap_slots _ _ (List.nodup_range' _ _)
    · intro j
      cases s.proxy_devs j <;> simp
    · intro j k x hj hk
      apply hw.2 j k x
      · unfold slot_handle_ids
        exact List.mem_append_right _ hj
      · unfold slot_handle_ids
        exact List.mem_append_right _ hk
  · intro x hx1 hx2
    obtain ⟨j, _, hxj⟩ := List.mem_flatMap.mp hx2
    refine hc.2.2 j x ?_ hx1
    unfold slot_handle_ids
    exact List.mem_append_right _ hxj

/-- C20, amended: over every sequence of arrivals, departures and reconciliation passes
from all slots Empty, no handle is closed twice and no slot entry, real handle or bridge,
refers to a handle that was closed; the teardown at shutdown, run in any such state,
closes no handle a second time. A departure closes a handle only of a slot that has no
bridge, clearing the slot; the handle of a bridged slot is left to the destruction of
the bridge. The teardown itself leaves the slot entries as they are. -/
theorem handles_closed_at_most_once (vdp_busnum : Int) (steps : List LifecycleStep) :
    (closed_ids (lifecycle_run (empty_slots vdp_busnum) steps).log).Nodup ∧
    (∀ j x, x ∈ slot_handle_ids (lifecycle_run (empty_slots vdp_busnum) steps) j →
      x ∉ closed_ids (lifecycle_run (empty_slots vdp_busnum) steps).log) ∧
    (closed_ids (shutdown_teardown (lifecycle_run (empty_slots vdp_busnum) steps)).log).Nodup ∧
    (∀ dev x,
      x ∈ closed_ids (events_since (lifecycle_run (empty_slots vdp_busnum) steps)
        (hotplug_callback_detach dev (lifecycle_run (empty_slots vdp_busnum) steps))) →
      ∃ i h, (lifecycle_run (empty_slots vdp_busnum) steps).libusb_devs i = some h ∧ h.id = x ∧
        (lifecycle_run (empty_slots vdp_busnum) steps).proxy_devs i = none ∧
        (hotplug_callback_detach dev
          (lifecycle_run (empty_slots vdp_busnum) steps)).libusb_devs i = none) ∧
    (shutdown_teardown (lifecycle_run (empty_slots vdp_busnum) steps)).libusb_devs =
      (lifecycle_run (empty_slots vdp_busnum) steps).libusb_devs ∧
    (shutdown_teardown (lifecycle_run (empty_slots vdp_busnum) steps)).proxy_devs =
      (lifecycle_run (empty_slots vdp_busnum) steps).proxy_devs := by
  have hw := lifecycle_run_well_formed steps _ (empty_slots_well_formed vdp_busnum)
  have hc := lifecycle_run_sound steps _ (empty_slots_well_formed vdp_busnum)
    (empty_slots_sound vdp_busnum)
  generalize lifecycle_run (empty_slots vdp_busnum) steps = s at hw hc ⊢
  refine ⟨hc.1, hc.2.2, teardown_sound s hw hc, ?_,
    (teardown_loop_effect NUM_SLOTS 0 s).1, (teardown_loop_effect NUM_SLOTS 0 s).2.1⟩
  intro dev x hx
  unfold hotplug_callback_detach events_since at *
  split_ifs at hx ⊢ with hbus
  · simp [closed_ids] at hx
  · rcases detach_loop_effect dev NUM_SLOTS 0 s with h | ⟨i, h, hl, heq⟩
    · rw [h] at hx
      simp [closed_ids] at hx
    · rw [heq] at hx ⊢
      simp only [List.drop_left] at hx
      split_ifs at hx with hp
      · simp only [closed_ids, List.filterMap_cons, List.filterMap_nil,
          List.mem_singleton] at hx
        exact ⟨i, h, hl, hx.symm, Option.isNone_iff_eq_none.mp hp, by simp [set_at]⟩
      · simp [closed_ids] at hx

/-- C20 as stated fails after the teardown: after an arrival and a pass in which all
succeeds, slot 0 is bridged; the teardown closes handle 0 through the bridge and writes
neither array, so both entries of slot 0 still refer to the closed handle. -/
theorem teardown_keeps_entries_counterexample :
    (0 : Nat) ∈ closed_ids (shutdown_teardown (lifecycle_run (empty_slots 7)
      [LifecycleStep.arrival sample_device true, LifecycleStep.pass all_ok_env])).log ∧
    slot_handle_ids (shutdown_teardown (lifecycle_run (empty_slots 7)
      [LifecycleStep.arrival sample_device true, LifecycleStep.pass all_ok_env])) 0 = [0, 0] := by
  decide

/-! ## Theorems: control transfers and completion fields -/

/-- C14: an enqueue on a control endpoint with both allocations and the submission
succeeding, for a request whose setup packet has its 8 bytes and, when it is not IN,
whose transfer buffer has the `transfer_length` bytes. Exactly one transfer is submitted
and nothing else is done; its buffer is the one bridge buffer, of length 8 +
`transfer_length`, whose first 8 bytes are the setup packet and whose other bytes are the
first `transfer_length` bytes of the transfer buffer of the request when the request is
not IN, and are as allocated (nothing is copied) when it is IN. The transfer has the
request as its `user_data`, and `request->priv` is the transfer. -/
theorem control_enqueue_buffer (env : BridgeEnv) (e : EnqueueEnv) (s : Bridge) (r : Nat)
    (hc : s.caps.type = EpType.control)
    (hm : e.malloc_ok = true) (ha : e.alloc_transfer_ok = true) (hs : e.submit_res = 0)
    (hsetup : 8 ≤ (s.requests r).raw_setup_packet.length)
    (hbuf : (s.requests r).is_in = false →
      (s.requests r).transfer_length ≤ (s.requests r).transfer_buffer.length) :
    ∃ tr bytes,
      (proxy_gadget_ep_enqueue env e s r).log = s.log ++ [BridgeEvent.submit s.num_transfers tr 0] ∧
      tr.buffer = TransferBuffer.bridge bytes ∧
      tr.type = TransferType.control ∧
      tr.user_data = some r ∧
      (proxy_gadget_ep_enqueue env e s r).transfers s.num_transfers = some tr ∧
      ((proxy_gadget_ep_enqueue env e s r).requests r).priv = some s.num_transfers ∧
      (proxy_gadget_ep_enqueue env e s r).in_flight = s.in_flight ++ [s.num_transfers] ∧
      bytes.length = 8 + (s.requests r).transfer_length ∧
      bytes.take 8 = (s.requests r).raw_setup_packet.take 8 ∧
      ((s.requests r).is_in = false →
        bytes.drop 8 = (s.requests r).transfer_buffer.take (s.requests r).transfer_length) ∧
      ((s.requests r).is_in = true →
        bytes.drop 8 = (List.range (s.requests r).transfer_length).map e.uninitialised) := by
  have hl8 : ((s.requests r).raw_setup_packet.take 8).length = 8 := by
    rw [List.length_take]; omega
  refine ⟨control_transfer env e s r, control_buffer e (s.requests r), ?_, rfl, rfl, rfl,
    ?_, ?_, ?_, ?_, ?_, ?_, ?_⟩
  · simp [proxy_gadget_ep_enqueue, hc, hm, ha, submit_transfer, hs]
  · simp [proxy_gadget_ep_enqueue, hc, hm, ha, submit_transfer, hs, set_at]
  · simp [proxy_gadget_ep_enqueue, hc, hm, ha, submit_transfer, hs, set_at]
  · simp [proxy_gadget_ep_enqueue, hc, hm, ha, submit_transfer, hs]
  · unfold control_buffer
    rw [List.length_append, hl8]
    cases hin : (s.requests r).is_in
    · have := hbuf hin
      simp only [Bool.false_eq_true, if_false, List.length_take]
      omega
    · simp
  · unfold control_buffer
    rw [List.take_append_of_le_length (by omega), List.take_take]
    simp
  · intro hin
    unfold control_buffer
    rw [List.drop_append_of_le_length (by omega), List.drop_of_length_le (by omega)]
    simp [hin]
  · intro hin
    unfold control_buffer
    rw [List.drop_append_of_le_length (by omega), List.drop_of_length_le (by omega)]
    simp [hin]

/-- C14 at the control OUT request of 2 bytes on a new control endpoint: the buffer
is the setup packet followed by the two bytes of the request. -/
theorem control_enqueue_buffer_witness :
    ∃ tr bytes,
      (proxy_gadget_ep_enqueue sample_bridge_env enqueue_ok
        { new_bridge control_caps with requests := fun _ => out_request } 0).log =
        [] ++ [BridgeEvent.submit 0 tr 0] ∧
      tr.buffer = TransferBuffer.bridge bytes ∧
      tr.type = TransferType.control ∧
      tr.user_data = some 0 ∧
      (proxy_gadget_ep_enqueue sample_bridge_env enqueue_ok
        { new_bridge control_caps with requests := fun _ => out_request } 0).transfers 0 =
        some tr ∧
      ((proxy_gadget_ep_enqueue sample_bridge_env enqueue_ok
        { new_bridge control_caps with requests := fun _ => out_request } 0).requests 0).priv =
        some 0 ∧
      (proxy_gadget_ep_enqueue sample_bridge_env enqueue_ok
        { new_bridge control_caps with requests := fun _ => out_request } 0).in_flight =
        [] ++ [0] ∧
      bytes.length = 8 + 2 ∧
      bytes.take 8 = [0x21, 9, 0, 2, 0, 0, 2, 0] ∧
      (false = false → bytes.drop 8 = [0xAA, 0xBB]) ∧
      (false = true → bytes.drop 8 = (List.range 2).map (fun _ => 0)) :=
  control_enqueue_buffer sample_bridge_env enqueue_ok
    { new_bridge control_caps with requests := fun _ => out_request } 0 rfl rfl rfl rfl
    (by decide) (by decide)

/-- C15: the completion callback on a control transfer that has its back-reference, with
a bridge buffer that holds the 8 bytes of the setup packet and the `actual_length` bytes
transferred, and `actual_length` within the transfer buffer of the request. The callback
returns; the request is completed with `actual_length` that of the transfer; when it is
IN the first `actual_length` bytes of its transfer buffer are bytes 8 onwards of the
bridge buffer and the bytes after them, and the length, are as before; when it is not IN
its transfer buffer is as before. The bridge buffer is released once, and on the memory
of the buffer the statements run to the end with the buffer released last: the same
statements on a buffer already released end the program. -/
theorem control_completion_copies (env : BridgeEnv) (s : Bridge) (t r : Nat) (tr : Transfer)
    (bytes : List Nat)
    (ht : s.transfers t = some tr) (htype : tr.type = TransferType.control)
    (hud : tr.user_data = some r) (hbuf : tr.buffer = TransferBuffer.bridge bytes)
    (hst : valid_status tr.status)
    (ha : tr.actual_length ≤ (s.requests r).transfer_length)
    (hlen : (s.requests r).transfer_length ≤ (s.requests r).transfer_buffer.length)
    (hbytes : 8 + tr.actual_length ≤ bytes.length) :
    ∃ s1 req,
      proxy_gadget_transfer_cb env s t = some s1 ∧
      s1.requests r = req ∧
      s1.log = s.log ++ [BridgeEvent.free_buffer t, BridgeEvent.complete r req,
        BridgeEvent.destroy r, BridgeEvent.free_transfer t] ∧
      s1.transfers t = none ∧
      req.actual_length = tr.actual_length ∧
      ((s.requests r).is_in = true →
        req.transfer_buffer.take tr.actual_length = (bytes.drop 8).take tr.actual_length ∧
        req.transfer_buffer.drop tr.actual_length =
          (s.requests r).transfer_buffer.drop tr.actual_length ∧
        req.transfer_buffer.length = (s.requests r).transfer_buffer.length) ∧
      ((s.requests r).is_in = false →
        req.transfer_buffer = (s.requests r).transfer_buffer) ∧
      control_case env.ndebug tr (s.requests r) (some bytes) =
        some ({ req with priv := (s.requests r).priv }, none) ∧
      control_case env.ndebug tr (s.requests r) none = none := by
  obtain ⟨u, hu⟩ := translate_transfer_status_some env.ndebug _ hst
  have hl : ((bytes.drop 8).take tr.actual_length).length = tr.actual_length := by
    rw [List.length_take, List.length_drop]; omega
  have key : ∃ req0, complete_request env.ndebug tr (s.requests r) = some req0 ∧
      req0.priv = (s.requests r).priv ∧
      req0.actual_length = tr.actual_length ∧
      ((s.requests r).is_in = true →
        req0.transfer_buffer.take tr.actual_length = (bytes.drop 8).take tr.actual_length ∧
        req0.transfer_buffer.drop tr.actual_length =
          (s.requests r).transfer_buffer.drop tr.actual_length ∧
        req0.transfer_buffer.length = (s.requests r).transfer_buffer.length) ∧
      ((s.requests r).is_in = false →
        req0.transfer_buffer = (s.requests r).transfer_buffer) ∧
      control_case env.ndebug tr (s.requests r) (some bytes) = some (req0, none) := by
    cases hin : (s.requests r).is_in
    · refine ⟨{ s.requests r with status := u, actual_length := tr.actual_length }, ?_, rfl,
        rfl, by simp, by simp, ?_⟩
      · simp [complete_request, htype, hu, hin]
      · simp [control_case, hu, hin]
    · refine ⟨{ s.requests r with
          status := u, actual_length := tr.actual_length,
          transfer_buffer := (bytes.drop 8).take tr.actual_length ++
            (s.requests r).transfer_buffer.drop tr.actual_length }, ?_, rfl, rfl, ?_,
        by simp, ?_⟩
      · simp [complete_request, htype, hu, hin, hbuf]
      · intro _
        refine ⟨?_, ?_, ?_⟩
        · show (((bytes.drop 8).take tr.actual_length ++
              (s.requests r).transfer_buffer.drop tr.actual_length).take tr.actual_length) = _
          rw [List.take_append_of_le_length (by omega), List.take_of_length_le (by omega)]
        · show (((bytes.drop 8).take tr.actual_length ++
              (s.requests r).transfer_buffer.drop tr.actual_length).drop tr.actual_length) = _
          rw [List.drop_append_of_le_length (by omega), List.drop_of_length_le (by omega)]
          simp
        · show (((bytes.drop 8).take tr.actual_length ++
              (s.requests r).transfer_buffer.drop tr.actual_length).length) = _
          rw [List.length_append, hl, List.length_drop]
          omega
      · simp [control_case, hu, hin]
  obtain ⟨req0, hreq, hpriv, hact, hcopy, hkeep, hmem⟩ := key
  refine ⟨_, { req0 with priv := none }, transfer_cb_owned env s t r tr req0 ht hud hreq,
    by simp [set_at], by simp [htype], by simp [set_at], hact, hcopy, hkeep, ?_, ?_⟩
  · rw [hmem, ← hpriv]
  · unfold control_case
    rw [hu]
    cases (s.requests r).is_in <;> simp

/-- C15 at the control endpoint with the IN request of 4 bytes in flight, whose
transfer the hardware completes with the 3 bytes `1 2 3`. -/
theorem control_completion_copies_witness :
    ∃ s1 req,
      proxy_gadget_transfer_cb sample_bridge_env
        (hardware_complete
          (proxy_gadget_ep_enqueue sample_bridge_env enqueue_ok
            { new_bridge control_caps with requests := fun _ => sample_request } 0) 0
          ⟨TransferStatus.completed, 3, [0x80, 6, 0, 1, 0, 0, 4, 0, 1, 2, 3, 0], []⟩) 0 =
        some s1 ∧
      s1.requests 0 = req ∧
      s1.log = [BridgeEvent.submit 0 (control_transfer sample_bridge_env enqueue_ok
          { new_bridge control_caps with requests := fun _ => sample_request } 0) 0] ++
        [BridgeEvent.free_buffer 0, BridgeEvent.complete 0 req,
          BridgeEvent.destroy 0, BridgeEvent.free_transfer 0] ∧
      s1.transfers 0 = none ∧
      req.actual_length = 3 ∧
      req.transfer_buffer = [1, 2, 3, 0] := by
  obtain ⟨s1, req, h1, h2, h3, h4, h5, h6, _, _, _⟩ :=
    control_completion_copies sample_bridge_env
      (hardware_complete
        (proxy_gadget_ep_enqueue sample_bridge_env enqueue_ok
          { new_bridge control_caps with requests := fun _ => sample_request } 0) 0
        ⟨TransferStatus.completed, 3, [0x80, 6, 0, 1, 0, 0, 4, 0, 1, 2, 3, 0], []⟩) 0 0
      _ [0x80, 6, 0, 1, 0, 0, 4, 0, 1, 2, 3, 0] rfl rfl rfl rfl
      (valid_status_code TransferStatus.completed) (by decide) (by decide) (by decide)
  refine ⟨s1, req, h1, h2, h3, h4, h5, ?_⟩
  have h7 := h6 rfl
  have h8 : req.transfer_buffer =
      req.transfer_buffer.take 3 ++ req.transfer_buffer.drop 3 :=
    (List.take_append_drop 3 req.transfer_buffer).symm
  rw [h8]
  have h71 := h7.1
  have h72 := h7.2.1
  simp only at h71 h72
  rw [show req.transfer_buffer.take 3 = [1, 2, 3] from h71,
    show req.transfer_buffer.drop 3 = [0] from h72]
  rfl

theorem copy_iso_packets_get (ndebug : Bool) (descs : List IsoPacketDesc) :
    ∀ (n i : Nat) (packets ps : List IsoPacket),
      copy_iso_packets ndebug descs n i packets = some ps →
      i + n ≤ packets.length → i + n ≤ descs.length →
      ps.length = packets.length ∧
      (∀ k, i ≤ k → k < i + n → ∃ p d, ps[k]? = some p ∧ descs[k]? = some d ∧
        translate_transfer_status ndebug d.status = some p.status ∧
        p.actual_length = d.actual_length) ∧
      (∀ k, k < i → ps[k]? = packets[k]?) := by
  intro n
  induction n with
  | zero =>
    intro i packets ps h _ _
    simp only [copy_iso_packets, Option.some.injEq] at h
    subst h
    exact ⟨rfl, fun k h1 h2 => by omega, fun k _ => rfl⟩
  | succ n ih =>
    intro i packets ps h hp hd
    simp only [copy_iso_packets] at h
    have hdi : descs[i]? = some (descs.getD i ⟨0, 0, 0⟩) := by
      rw [List.getD_eq_getElem?_getD, List.getElem?_eq_getElem (by omega)]
      rfl
    cases hu : translate_transfer_status ndebug (descs.getD i ⟨0, 0, 0⟩).status with
    | none => rw [hu] at h; cases h
    | some u =>
      rw [hu] at h
      simp only at h
      have key := ih (i + 1) _ ps h (by rw [List.length_set]; omega) (by omega)
      rw [List.length_set] at key
      refine ⟨key.1, ?_, ?_⟩
      · intro k hk1 hk2
        by_cases hki : k = i
        · subst hki
          have h3 := key.2.2 k (by omega)
          rw [List.getElem?_set_self (by omega)] at h3
          exact ⟨_, _, h3, hdi, hu, rfl⟩
        · exact key.2.1 k (by omega) (by omega)
      · intro k hk
        have h3 := key.2.2 k (by omega)
        rw [List.getElem?_set_ne (by omega)] at h3
        exact h3

/-- What the completion callback gives the request on an owned completion: the callback
returns, the completion callback of the request sees `priv` cleared; for a control, bulk
or interrupt transfer the status is the translation of that of the transfer and the
actual length is that of the transfer; for an isochronous transfer the status and actual
length of each packet below the packet count are those of the packet of the transfer,
and the status and actual length of the request itself are not written. -/
theorem owned_completion_fields (env : BridgeEnv) (s : Bridge) (t r : Nat) (tr : Transfer)
    (ht : s.transfers t = some tr) (hud : tr.user_data = some r)
    (hst : valid_status tr.status) (hd : ∀ d ∈ tr.iso_packet_desc, valid_status d.status)
    (hn1 : tr.num_iso_packets ≤ tr.iso_packet_desc.length)
    (hn2 : tr.num_iso_packets ≤ (s.requests r).iso_packets.length) :
    ∃ s1 snapshot,
      proxy_gadget_transfer_cb env s t = some s1 ∧
      s1.log = s.log ++
        (if tr.type = TransferType.control then [BridgeEvent.free_buffer t] else []) ++
        [BridgeEvent.complete r snapshot, BridgeEvent.destroy r] ++
        [BridgeEvent.free_transfer t] ∧
      snapshot.priv = none ∧
      (tr.type ≠ TransferType.isochronous →
        translate_transfer_status env.ndebug tr.status = some snapshot.status ∧
        snapshot.actual_length = tr.actual_length) ∧
      (tr.type = TransferType.isochronous →
        (∀ k, k < tr.num_iso_packets → ∃ p d, snapshot.iso_packets[k]? = some p ∧
          tr.iso_packet_desc[k]? = some d ∧
          translate_transfer_status env.ndebug d.status = some p.status ∧
          p.actual_length = d.actual_length) ∧
        snapshot.status = (s.requests r).status ∧
        snapshot.actual_length = (s.requests r).actual_length) := by
  obtain ⟨u, hu⟩ := translate_transfer_status_some env.ndebug _ hst
  obtain ⟨ps, hps⟩ := copy_iso_packets_some env.ndebug tr.iso_packet_desc hd
    tr.num_iso_packets 0 (s.requests r).iso_packets
  have hget := copy_iso_packets_get env.ndebug tr.iso_packet_desc tr.num_iso_packets 0
    (s.requests r).iso_packets ps hps (by omega) (by omega)
  have key : ∃ req, complete_request env.ndebug tr (s.requests r) = some req ∧
      (tr.type ≠ TransferType.isochronous →
        req.status = u ∧ req.actual_length = tr.actual_length) ∧
      (tr.type = TransferType.isochronous →
        req.iso_packets = ps ∧ req.status = (s.requests r).status ∧
        req.actual_length = (s.requests r).actual_length) := by
    unfold complete_request
    cases htype : tr.type <;> simp only [hu, hps]
    · cases (s.requests r).is_in
      · exact ⟨_, rfl, by simp, by simp⟩
      · cases tr.buffer <;> exact ⟨_, rfl, by simp, by simp⟩
    · exact ⟨_, rfl, by simp, by simp⟩
    · exact ⟨_, rfl, by simp, by simp⟩
    · exact ⟨_, rfl, by simp, by simp⟩
  obtain ⟨req, hreq, h1, h2⟩ := key
  refine ⟨_, { req with priv := none }, transfer_cb_owned env s t r tr req ht hud hreq, rfl,
    rfl, ?_, ?_⟩
  · intro hne
    rw [hu]
    exact ⟨by rw [← (h1 hne).1], (h1 hne).2⟩
  · intro he
    refine ⟨?_, (h2 he).2.1, (h2 he).2.2⟩
    intro k hk
    have := hget.2.1 k (Nat.zero_le _) (by omega)
    rw [← (h2 he).1] at this
    exact this

/-- C16 fails for an isochronous transfer. The request of two packets on an isochronous
endpoint is enqueued, and its transfer completes cancelled, the first packet completed
with 4 bytes and the second in error with 1 byte. The completion callback of the
request sees the two packets with their status and actual length and `priv` cleared, but
the status of the request is still the `completed` it had before and not `unlinked`,
the translation of the status of the transfer: the isochronous case of the `switch`
writes neither `request->status` nor `request->actual_length`. -/
theorem iso_completion_keeps_status :
    (bridge_run sample_bridge_env (new_bridge iso_caps)
      [BridgeInput.enqueue iso_request enqueue_ok,
        BridgeInput.completion 0
          ⟨TransferStatus.cancelled, 5, [],
            [(TransferStatus.completed, 4), (TransferStatus.error, 1)]⟩]).map
      (fun s => completion_snapshots s.log) =
      some [{ iso_request with
        iso_packets := [⟨4, 4, UrbStatus.completed⟩, ⟨4, 1, UrbStatus.error⟩]
        status := UrbStatus.completed
        actual_length := 0
        priv := none }] ∧
    translate_transfer_status sample_bridge_env.ndebug TransferStatus.cancelled.code =
      some UrbStatus.unlinked := by
  decide

/-! ## Theorems: unwinding of a failed construction -/

theorem created_eps_append (a b : List GadgetEvent) :
    created_eps (a ++ b) = created_eps a ++ created_eps b := by
  simp [created_eps, List.filterMap_append]

theorem destroyed_eps_append (a b : List GadgetEvent) :
    destroyed_eps (a ++ b) = destroyed_eps a ++ destroyed_eps b := by
  simp [destroyed_eps, List.filterMap_append]

theorem created_interfaces_append (a b : List GadgetEvent) :
    created_interfaces (a ++ b) = created_interfaces a ++ created_interfaces b := by
  simp [created_interfaces, List.filterMap_append]

theorem destroyed_interfaces_append (a b : List GadgetEvent) :
    destroyed_interfaces (a ++ b) = destroyed_interfaces a ++ destroyed_interfaces b := by
  simp [destroyed_interfaces, List.filterMap_append]

theorem creation_failed_append (a b : List GadgetEvent) :
    creation_failed (a ++ b) = (creation_failed a || creation_failed b) := by
  simp [creation_failed, List.any_append]

theorem create_proxy_gadget_ep_effect (env : TranslatorEnv) (d : EndpointDescriptor)
    (dir : Nat) (w : World) (r : Option Ep) (w1 : World)
    (h : create_proxy_gadget_ep env d dir w = some (r, w1)) :
    w1.allocs = w.allocs + 2 ∧ (∀ e, r = some e → e.id = w.allocs + 1) ∧
    ∃ caps, w1.log = w.log ++ [GadgetEvent.ep_create caps (r.map (fun e => e.id))] := by
  unfold create_proxy_gadget_ep at h
  cases hx : extra_to_descriptors (env.alloc_ok w.allocs) d.extra d.extra_length env.fuel with
  | none => rw [hx] at h; cases h
  | some descriptors =>
    rw [hx] at h
    simp only [vdp_usb_gadget_ep_create, Option.some.injEq] at h
    split_ifs at h
    · obtain ⟨rfl, rfl⟩ := Prod.mk.inj h
      exact ⟨rfl, fun e he => (by cases he; rfl), _, rfl⟩
    · obtain ⟨rfl, rfl⟩ := Prod.mk.inj h
      exact ⟨rfl, fun e he => (by cases he), _, rfl⟩

theorem create_proxy_gadget_ep_returns (env : TranslatorEnv) (d : EndpointDescriptor)
    (dir : Nat) (w : World)
    (h : (extra_to_descriptors true d.extra d.extra_length env.fuel).isSome = true) :
    ∃ r w1, create_proxy_gadget_ep env d dir w = some (r, w1) := by
  obtain ⟨descs, hd⟩ := extra_to_descriptors_returns d.extra d.extra_length env.fuel
    (env.alloc_ok w.allocs) h
  unfold create_proxy_gadget_ep
  rw [hd]
  exact ⟨_, _, rfl⟩

theorem build_endpoints_effect (env : TranslatorEnv) (todo : List EndpointDescriptor) :
    ∀ (built : List Ep) (w : World) (ok : Bool) (built1 : List Ep) (w1 : World),
      build_endpoints env todo built w = some (ok, built1, w1) →
      ∃ new evs, built1 = built ++ new ∧ w1.log = w.log ++ evs ∧ w.allocs ≤ w1.allocs ∧
        created_eps evs = new.map (fun e => e.id) ∧ destroyed_eps evs = [] ∧
        created_interfaces evs = [] ∧ destroyed_interfaces evs = [] ∧
        (∀ x, x ∈ created_eps evs → w.allocs ≤ x ∧ x < w1.allocs) ∧
        (created_eps evs).Pairwise (fun a b => a < b) ∧
        creation_failed evs = !ok := by
  induction todo with
  | nil =>
    intro built w ok built1 w1 h
    simp only [build_endpoints, Option.some.injEq, Prod.mk.injEq] at h
    obtain ⟨rfl, rfl, rfl⟩ := h
    exact ⟨[], [], by simp, by simp, le_refl _, rfl, rfl, rfl, rfl, by simp [created_eps],
      by simp [created_eps], rfl⟩
  | cons d later ih =>
    intro built w ok built1 w1 h
    simp only [build_endpoints] at h
    split_ifs at h with hfound
    · exact ih built w ok built1 w1 h
    · generalize hdir : merge_dir env.macros (env.macros.ENDPOINT_NUMBER d.bEndpointAddress)
        (address_dir env.macros d.bEndpointAddress) later = dir at h
      cases hep : create_proxy_gadget_ep env d dir w with
      | none => rw [hep] at h; cases h
      | some p =>
        obtain ⟨r, w2⟩ := p
        obtain ⟨hallocs, hid, caps, hlog⟩ := create_proxy_gadget_ep_effect env d dir w r w2 hep
        rw [hep] at h
        cases r with
        | none =>
          simp only [Option.some.injEq, Prod.mk.injEq] at h
          obtain ⟨rfl, rfl, rfl⟩ := h
          refine ⟨[], _, by simp, hlog, by omega, ?_, ?_, ?_, ?_, ?_, ?_, ?_⟩ <;>
            simp [created_eps, destroyed_eps, created_interfaces, destroyed_interfaces,
              creation_failed]
        | some ep =>
          simp only at h
          obtain ⟨new, evs, hb, hl, ha, hc, hd, hci, hdi, hbound, hpair, hfail⟩ :=
            ih (built ++ [ep]) w2 ok built1 w1 h
          have hce : created_eps [GadgetEvent.ep_create caps (some ep.id)] = [ep.id] := by
            simp [created_eps]
          have hepid := hid ep rfl
          refine ⟨ep :: new, GadgetEvent.ep_create caps (some ep.id) :: evs, ?_, ?_, by omega,
            ?_, ?_, ?_, ?_, ?_, ?_, ?_⟩
          · rw [hb]; simp
          · rw [hl, hlog]; simp
          · rw [← List.singleton_append, created_eps_append, hce, hc]; simp
          · rw [← List.singleton_append, destroyed_eps_append, hd]; simp [destroyed_eps]
          · rw [← List.singleton_append, created_interfaces_append, hci]
            simp [created_interfaces]
          · rw [← List.singleton_append, destroyed_interfaces_append, hdi]
            simp [destroyed_interfaces]
          · intro x hx
            rw [← List.singleton_append, created_eps_append, hce] at hx
            rcases List.mem_append.mp hx with hx | hx
            · rw [List.mem_singleton.mp hx]; omega
            · have := hbound x hx; omega
          · rw [← List.singleton_append, created_eps_append, hce, List.singleton_append,
              List.pairwise_cons]
            refine ⟨?_, hpair⟩
            intro x hx
            have := hbound x hx
            omega
          · rw [← List.singleton_append, creation_failed_append, hfail]
            simp [creation_failed]

theorem build_endpoints_returns (env : TranslatorEnv) (todo : List EndpointDescriptor) :
    ∀ (built : List Ep) (w : World),
      (∀ d ∈ todo, (extra_to_descriptors true d.extra d.extra_length env.fuel).isSome = true) →
      ∃ r, build_endpoints env todo built w = some r := by
  induction todo with
  | nil => intro built w _; exact ⟨_, rfl⟩
  | cons d later ih =>
    intro built w h
    have hlater : ∀ d ∈ later,
        (extra_to_descriptors true d.extra d.extra_length env.fuel).isSome = true :=
      fun x hx => h x (List.mem_cons_of_mem _ hx)
    simp only [build_endpoints]
    split_ifs
    · exact ih built w hlater
    · obtain ⟨r, w1, hr⟩ := create_proxy_gadget_ep_returns env d
        (merge_dir env.macros (env.macros.ENDPOINT_NUMBER d.bEndpointAddress)
          (address_dir env.macros d.bEndpointAddress) later) w (h d (List.mem_cons_self _ _))
      rw [hr]
      cases r with
      | none => exact ⟨_, rfl⟩
      | some ep => exact ih _ _ hlater

theorem destroy_endpoints_log (built : List Ep) :
    ∀ w : World, (destroy_endpoints built w).allocs = w.allocs ∧
      (destroy_endpoints built w).log =
        w.log ++ built.map (fun e => GadgetEvent.ep_destroy e.id) := by
  induction built with
  | nil => intro w; simp [destroy_endpoints]
  | cons e rest ih =>
    intro w
    have h := ih (vdp_usb_gadget_ep_destroy e w)
    simp only [destroy_endpoints, List.foldl_cons] at h ⊢
    rw [h.1, h.2]
    simp [vdp_usb_gadget_ep_destroy]

theorem ep_destroy_events (built : List Ep) :
    created_eps (built.map (fun e => GadgetEvent.ep_destroy e.id)) = [] ∧
    destroyed_eps (built.map (fun e => GadgetEvent.ep_destroy e.id)) =
      built.map (fun e => e.id) ∧
    created_interfaces (built.map (fun e => GadgetEvent.ep_destroy e.id)) = [] ∧
    destroyed_interfaces (built.map (fun e => GadgetEvent.ep_destroy e.id)) = [] ∧
    creation_failed (built.map (fun e => GadgetEvent.ep_destroy e.id)) = false := by
  induction built with
  | nil => simp [created_eps, destroyed_eps, created_interfaces, destroyed_interfaces,
      creation_failed]
  | cons e rest ih =>
    obtain ⟨h1, h2, h3, h4, h5⟩ := ih
    simp only [created_eps, destroyed_eps, created_interfaces, destroyed_interfaces,
      creation_failed] at h1 h2 h3 h4 h5 ⊢
    simp [h1, h2, h3, h4, h5]

theorem create_proxy_gadget_interface_effect (env : TranslatorEnv)
    (desc : InterfaceDescriptor) (w : World) (r : Option Interface) (w1 : World)
    (h : create_proxy_gadget_interface env desc w = some (r, w1)) :
    ∃ evs, w1.log = w.log ++ evs ∧ w.allocs ≤ w1.allocs ∧
      unwound (created_eps evs) (destroyed_eps evs) (creation_failed evs) r.isNone ∧
      created_interfaces evs = r.toList.map (fun i => i.id) ∧
      destroyed_interfaces evs = [] ∧
      (∀ i, r = some i → (w.allocs ≤ i.id ∧ i.id < w1.allocs) ∧
        i.caps.endpoints.map (fun e => e.id) = created_eps evs) := by
  unfold create_proxy_gadget_interface at h
  cases hx : extra_to_descriptors (env.alloc_ok w.allocs) desc.extra desc.extra_length
      env.fuel with
  | none => rw [hx] at h; cases h
  | some descriptors =>
    rw [hx] at h
    simp only at h
    split_ifs at h with halloc
    · simp only [Option.some.injEq, Prod.mk.injEq] at h
      obtain ⟨rfl, rfl⟩ := h
      refine ⟨[], by simp, by show w.allocs ≤ w.allocs + 1 + 1; omega,
        ⟨by simp [created_eps], fun _ => rfl, by simp⟩, rfl, rfl, by simp⟩
    · cases hb : build_endpoints env desc.endpoint []
          { allocs := w.allocs + 1 + 1, log := w.log } with
      | none => rw [hb] at h; cases h
      | some p =>
        obtain ⟨ok, built, w2⟩ := p
        rw [hb] at h
        obtain ⟨new, evs, hnew, hl, ha, hc, hd, hci, hdi, hbound, hpair, hfail⟩ :=
          build_endpoints_effect env desc.endpoint [] _ ok built w2 hb
        simp only [List.nil_append] at hnew
        subst hnew
        have hnodup : (created_eps evs).Nodup :=
          hpair.imp (fun hab => Nat.ne_of_lt hab)
        have hde := ep_destroy_events built
        have ha2 : w.allocs ≤ w2.allocs := by
          have : w.allocs + 1 + 1 ≤ w2.allocs := ha
          omega
        cases ok with
        | false =>
          simp only [Option.some.injEq, Prod.mk.injEq] at h
          obtain ⟨rfl, rfl⟩ := h
          have hw := destroy_endpoints_log built w2
          refine ⟨evs ++ built.map (fun e => GadgetEvent.ep_destroy e.id), ?_, ?_, ⟨?_, ?_, ?_⟩,
            ?_, ?_, ?_⟩
          · rw [hw.2, hl]; simp
          · rw [hw.1]; exact ha2
          · rw [created_eps_append, hde.1, List.append_nil]; exact hnodup
          · intro _
            rw [created_eps_append, destroyed_eps_append, hde.1, hde.2.1, hd, hc]
            simp
          · intro hne; simp at hne
          · rw [created_interfaces_append, hci, hde.2.2.1]; rfl
          · rw [destroyed_interfaces_append, hdi, hde.2.2.2.1]; rfl
          · intro i hi; cases hi
        | true =>
          simp only at h
          generalize hcaps : ({ number := desc.bInterfaceNumber
                                alt_setting := desc.bAlternateSetting
                                klass := desc.bInterfaceClass
                                subklass := desc.bInterfaceSubClass
                                protocol := desc.bInterfaceProtocol
                                description := desc.iInterface
                                descriptors := descriptors
                                endpoints := built } : InterfaceCaps) = caps at h
          have hends : caps.endpoints = built := by rw [← hcaps]
          simp only [vdp_usb_gadget_interface_create] at h
          split_ifs at h with halloc2
          · simp only [Option.some.injEq, Prod.mk.injEq] at h
            obtain ⟨rfl, rfl⟩ := h
            refine ⟨evs ++ [GadgetEvent.interface_create caps (some w2.allocs)], ?_, ?_,
              ⟨?_, ?_, ?_⟩, ?_, ?_, ?_⟩
            · rw [hl]; simp
            · show w.allocs ≤ w2.allocs + 1
              omega
            · rw [created_eps_append]
              simpa [created_eps] using hnodup
            · intro hne; simp at hne
            · intro _
              rw [destroyed_eps_append, creation_failed_append, hd, hfail]
              simp [destroyed_eps, creation_failed]
            · rw [created_interfaces_append, hci]
              simp [created_interfaces]
            · rw [destroyed_interfaces_append, hdi]
              simp [destroyed_interfaces]
            · intro i hi
              cases hi
              refine ⟨⟨ha2, Nat.lt_succ_self _⟩, ?_⟩
              rw [created_eps_append, hc]
              simp [created_eps, hends]
          · simp only [Option.some.injEq, Prod.mk.injEq] at h
            obtain ⟨rfl, rfl⟩ := h
            have hw := destroy_endpoints_log built
              { allocs := w2.allocs + 1,
                log := w2.log ++ [GadgetEvent.interface_create caps none] }
            refine ⟨evs ++ [GadgetEvent.interface_create caps none] ++
              built.map (fun e => GadgetEvent.ep_destroy e.id), ?_, ?_, ⟨?_, ?_, ?_⟩,
              ?_, ?_, ?_⟩
            · rw [hw.2, hl]; simp
            · rw [hw.1]
              show w.allocs ≤ w2.allocs + 1
              omega
            · rw [created_eps_append, created_eps_append, hde.1]
              simpa [created_eps] using hnodup
            · intro _
              rw [created_eps_append, created_eps_append, destroyed_eps_append,
                destroyed_eps_append, hde.1, hde.2.1, hd, hc]
              simp [created_eps, destroyed_eps]
            · intro hne; simp at hne
            · rw [created_interfaces_append, created_interfaces_append, hci, hde.2.2.1]
              simp [created_interfaces]
            · rw [destroyed_interfaces_append, destroyed_interfaces_append, hdi, hde.2.2.2.1]
              simp [destroyed_interfaces]
            · intro i hi; cases hi

theorem create_proxy_gadget_interface_returns (env : TranslatorEnv)
    (desc : InterfaceDescriptor) (w : World) (h : interface_parses env.fuel desc) :
    ∃ r, create_proxy_gadget_interface env desc w = some r := by
  obtain ⟨descs, hd⟩ := extra_to_descriptors_returns desc.extra desc.extra_length env.fuel
    (env.alloc_ok w.allocs) h.1
  unfold create_proxy_gadget_interface
  rw [hd]
  simp only
  split_ifs
  · exact ⟨_, rfl⟩
  · obtain ⟨p, hp⟩ := build_endpoints_returns env desc.endpoint []
      { allocs := w.allocs + 1 + 1, log := w.log } h.2
    obtain ⟨ok, built, w2⟩ := p
    rw [hp]
    cases ok
    · exact ⟨_, rfl⟩
    · simp only [vdp_usb_gadget_interface_create]
      split_ifs <;> exact ⟨_, rfl⟩

theorem build_interfaces_effect (env : TranslatorEnv) (todo : List InterfaceDescriptor) :
    ∀ (built : List Interface) (w : World) (ok : Bool) (built1 : List Interface) (w1 : World),
      build_interfaces env todo built w = some (ok, built1, w1) →
      ∃ new evs, built1 = built ++ new ∧ w1.log = w.log ++ evs ∧ w.allocs ≤ w1.allocs ∧
        created_interfaces evs = new.map (fun i => i.id) ∧ destroyed_interfaces evs = [] ∧
        (∀ x, x ∈ created_interfaces evs → w.allocs ≤ x ∧ x < w1.allocs) ∧
        (created_interfaces evs).Pairwise (fun a b => a < b) ∧
        (ok = true → creation_failed evs = false ∧ new.length = todo.length) := by
  induction todo with
  | nil =>
    intro built w ok built1 w1 h
    simp only [build_interfaces, Option.some.injEq, Prod.mk.injEq] at h
    obtain ⟨rfl, rfl, rfl⟩ := h
    exact ⟨[], [], by simp, by simp, le_refl _, rfl, rfl, by simp [created_interfaces],
      by simp [created_interfaces], fun _ => ⟨rfl, rfl⟩⟩
  | cons d later ih =>
    intro built w ok built1 w1 h
    simp only [build_interfaces] at h
    cases hi : create_proxy_gadget_interface env d w with
    | none => rw [hi] at h; cases h
    | some p =>
      obtain ⟨r, w2⟩ := p
      obtain ⟨evs1, hl1, ha1, hu1, hc1, hd1, hid1⟩ :=
        create_proxy_gadget_interface_effect env d w r w2 hi
      rw [hi] at h
      cases r with
      | none =>
        simp only [Option.some.injEq, Prod.mk.injEq] at h
        obtain ⟨rfl, rfl, rfl⟩ := h
        refine ⟨[], evs1, by simp, hl1, ha1, ?_, hd1, ?_, ?_, ?_⟩
        · rw [hc1]; rfl
        · intro x hx; rw [hc1] at hx; simp at hx
        · rw [hc1]; simp
        · intro hne; cases hne
      | some interface =>
        simp only at h
        obtain ⟨new, evs, hb, hl, ha, hc, hd, hbound, hpair, hfail⟩ :=
          ih (built ++ [interface]) w2 ok built1 w1 h
        have hidb := (hid1 interface rfl).1
        have hc1b : created_interfaces evs1 = [interface.id] := by rw [hc1]; rfl
        refine ⟨interface :: new, evs1 ++ evs, ?_, ?_, by omega, ?_, ?_, ?_, ?_, ?_⟩
        · rw [hb]; simp
        · rw [hl, hl1]; simp
        · rw [created_interfaces_append, hc1b, hc]; simp
        · rw [destroyed_interfaces_append, hd1, hd]; rfl
        · intro x hx
          rw [created_interfaces_append, hc1b] at hx
          rcases List.mem_append.mp hx with hx | hx
          · rw [List.mem_singleton.mp hx]; omega
          · have := hbound x hx; omega
        · rw [created_interfaces_append, hc1b, List.singleton_append, List.pairwise_cons]
          refine ⟨?_, hpair⟩
          intro x hx
          have := hbound x hx
          omega
        · intro hok
          refine ⟨?_, by rw [List.length_cons, List.length_cons, (hfail hok).2]⟩
          rw [creation_failed_append, (hfail hok).1, (hu1.2.2 rfl).2]
          rfl

theorem build_interfaces_returns (env : TranslatorEnv) (todo : List InterfaceDescriptor) :
    ∀ (built : List Interface) (w : World),
      (∀ d ∈ todo, interface_parses env.fuel d) →
      ∃ r, build_interfaces env todo built w = some r := by
  induction todo with
  | nil => intro built w _; exact ⟨_, rfl⟩
  | cons d later ih =>
    intro built w h
    obtain ⟨p, hp⟩ := create_proxy_gadget_interface_returns env d w
      (h d (List.mem_cons_self _ _))
    obtain ⟨r, w1⟩ := p
    simp only [build_interfaces]
    rw [hp]
    cases r with
    | none => exact ⟨_, rfl⟩
    | some i => exact ih _ _ (fun x hx => h x (List.mem_cons_of_mem _ hx))

theorem lower_events_append (a b : List TreeEvent) :
    lower_events (a ++ b) = lower_events a ++ lower_events b := by
  simp [lower_events, List.filterMap_append]

theorem created_configs_append (a b : List TreeEvent) :
    created_configs (a ++ b) = created_configs a ++ created_configs b := by
  simp [created_configs, List.filterMap_append]

theorem destroyed_configs_append (a b : List TreeEvent) :
    destroyed_configs (a ++ b) = destroyed_configs a ++ destroyed_configs b := by
  simp [destroyed_configs, List.filterMap_append]

theorem tree_creation_failed_append (a b : List TreeEvent) :
    tree_creation_failed (a ++ b) = (tree_creation_failed a || tree_creation_failed b) := by
  simp [tree_creation_failed, List.any_append]

theorem lowered_events (l : List GadgetEvent) :
    lower_events (l.map TreeEvent.lower) = l ∧
    created_configs (l.map TreeEvent.lower) = [] ∧
    destroyed_configs (l.map TreeEvent.lower) = [] ∧
    tree_creation_failed (l.map TreeEvent.lower) = creation_failed l := by
  refine ⟨?_, ?_, ?_, ?_⟩
  · induction l with
    | nil => rfl
    | cons e rest ih =>
      simp only [lower_events] at ih ⊢
      simp [ih]
  · induction l with
    | nil => rfl
    | cons e rest ih =>
      simp only [created_configs] at ih ⊢
      simp [ih]
  · induction l with
    | nil => rfl
    | cons e rest ih =>
      simp only [destroyed_configs] at ih ⊢
      simp [ih]
  · induction l with
    | nil => rfl
    | cons e rest ih =>
      rw [List.map_cons, ← List.singleton_append, tree_creation_failed_append, ih,
        ← List.singleton_append (l := rest), creation_failed_append]
      congr 1
      simp [tree_creation_failed]

theorem destroy_interfaces_log (built : List Interface) :
    ∀ w : TreeWorld, (destroy_interfaces built w).allocs = w.allocs ∧
      (destroy_interfaces built w).log = w.log ++
        (built.map (fun i => GadgetEvent.interface_destroy i.id)).map TreeEvent.lower := by
  induction built with
  | nil => intro w; simp [destroy_interfaces]
  | cons e rest ih =>
    intro w
    have h := ih (vdp_usb_gadget_interface_destroy e w)
    simp only [destroy_interfaces, List.foldl_cons] at h ⊢
    rw [h.1, h.2]
    simp [vdp_usb_gadget_interface_destroy]

theorem interface_destroy_events (built : List Interface) :
    created_interfaces (built.map (fun i => GadgetEvent.interface_destroy i.id)) = [] ∧
    destroyed_interfaces (built.map (fun i => GadgetEvent.interface_destroy i.id)) =
      built.map (fun i => i.id) ∧
    creation_failed (built.map (fun i => GadgetEvent.interface_destroy i.id)) = false := by
  induction built with
  | nil => simp [created_interfaces, destroyed_interfaces, creation_failed]
  | cons e rest ih =>
    obtain ⟨h1, h2, h3⟩ := ih
    simp only [created_interfaces, destroyed_interfaces, creation_failed] at h1 h2 h3 ⊢
    simp [h1, h2, h3]

theorem create_proxy_gadget_config_effect (env : TranslatorEnv) (desc : ConfigDescriptor)
    (w : TreeWorld) (r : Option Config) (w1 : TreeWorld)
    (h : create_proxy_gadget_config env desc w = some (r, w1)) :
    ∃ evs, w1.log = w.log ++ evs ∧ w.allocs ≤ w1.allocs ∧
      unwound (created_interfaces (lower_events evs)) (destroyed_interfaces (lower_events evs))
        (tree_creation_failed evs) r.isNone ∧
      created_configs evs = r.toList.map (fun c => c.id) ∧
      destroyed_configs evs = [] ∧
      (∀ c, r = some c → (w.allocs ≤ c.id ∧ c.id < w1.allocs) ∧
        c.caps.interfaces.map (fun i => i.id) = created_interfaces (lower_events evs) ∧
        c.caps.interfaces.length = desc.interface.flatten.length) := by
  unfold create_proxy_gadget_config at h
  cases hx : extra_to_descriptors (env.alloc_ok w.allocs) desc.extra desc.extra_length
      env.fuel with
  | none => rw [hx] at h; cases h
  | some descriptors =>
    rw [hx] at h
    simp only at h
    split_ifs at h with halloc
    · simp only [Option.some.injEq, Prod.mk.injEq] at h
      obtain ⟨rfl, rfl⟩ := h
      refine ⟨[], by simp, by show w.allocs ≤ w.allocs + 2; omega,
        ⟨by simp [created_interfaces, lower_events], fun _ => rfl, by simp⟩, rfl, rfl,
        by simp⟩
    · cases hb : build_interfaces env desc.interface.flatten []
          { allocs := w.allocs + 2, log := [] } with
      | none => rw [hb] at h; cases h
      | some p =>
        obtain ⟨ok, built, w2⟩ := p
        rw [hb] at h
        obtain ⟨new, evs, hnew, hl, ha, hc, hd, hbound, hpair, hfail⟩ :=
          build_interfaces_effect env desc.interface.flatten [] _ ok built w2 hb
        simp only [List.nil_append] at hnew hl
        subst hnew
        have hnodup : (created_interfaces evs).Nodup :=
          hpair.imp (fun hab => Nat.ne_of_lt hab)
        have hde := interface_destroy_events built
        have hlow := lowered_events evs
        have hlowd := lowered_events (built.map (fun i => GadgetEvent.interface_destroy i.id))
        have ha2 : w.allocs ≤ w2.allocs := by
          have : w.allocs + 2 ≤ w2.allocs := ha
          omega
        cases ok with
        | false =>
          simp only [Option.some.injEq, Prod.mk.injEq] at h
          obtain ⟨rfl, rfl⟩ := h
          have hw := destroy_interfaces_log built (after_lower w w2)
          refine ⟨evs.map TreeEvent.lower ++
            (built.map (fun i => GadgetEvent.interface_destroy i.id)).map TreeEvent.lower,
            ?_, ?_, ⟨?_, ?_, ?_⟩, ?_, ?_, ?_⟩
          · rw [hw.2, after_lower, hl]; simp
          · rw [hw.1]; exact ha2
          · rw [lower_events_append, hlow.1, hlowd.1, created_interfaces_append, hde.1,
              List.append_nil]
            exact hnodup
          · intro _
            rw [lower_events_append, hlow.1, hlowd.1, created_interfaces_append,
              destroyed_interfaces_append, hde.1, hde.2.1, hd, hc]
            simp
          · intro hne; simp at hne
          · rw [created_configs_append, hlow.2.1, hlowd.2.1]; rfl
          · rw [destroyed_configs_append, hlow.2.2.1, hlowd.2.2.1]; rfl
          · intro i hi; cases hi
        | true =>
          simp only at h
          generalize hcaps : ({ number := desc.bConfigurationValue
                                attributes := desc.bmAttributes
                                max_power := desc.MaxPower
                                description := desc.iConfiguration
                                descriptors := descriptors
                                interfaces := built } : ConfigCaps) = caps at h
          have hints : caps.interfaces = built := by rw [← hcaps]
          simp only [vdp_usb_gadget_config_create, after_lower] at h
          split_ifs at h with halloc2
          · simp only [Option.some.injEq, Prod.mk.injEq] at h
            obtain ⟨rfl, rfl⟩ := h
            refine ⟨evs.map TreeEvent.lower ++ [TreeEvent.config_create caps (some w2.allocs)],
              ?_, ?_, ⟨?_, ?_, ?_⟩, ?_, ?_, ?_⟩
            · rw [hl]; simp
            · show w.allocs ≤ w2.allocs + 1
              omega
            · rw [lower_events_append, hlow.1]
              simpa [lower_events] using hnodup
            · intro hne; simp at hne
            · intro _
              rw [lower_events_append, hlow.1, tree_creation_failed_append, hlow.2.2.2,
                (hfail rfl).1]
              simp [lower_events, tree_creation_failed, hd]
            · rw [created_configs_append, hlow.2.1]
              simp [created_configs]
            · rw [destroyed_configs_append, hlow.2.2.1]
              simp [destroyed_configs]
            · intro i hi
              cases hi
              refine ⟨⟨ha2, Nat.lt_succ_self _⟩, ?_, ?_⟩
              · rw [lower_events_append, hlow.1]
                simp [lower_events, hc, hints]
              · show caps.interfaces.length = _
                rw [hints]
                exact (hfail rfl).2
          · simp only [Option.some.injEq, Prod.mk.injEq] at h
            obtain ⟨rfl, rfl⟩ := h
            have hw := destroy_interfaces_log built
              { allocs := w2.allocs + 1,
                log := w.log ++ w2.log.map TreeEvent.lower ++
                  [TreeEvent.config_create caps none] }
            refine ⟨evs.map TreeEvent.lower ++ [TreeEvent.config_create caps none] ++
              (built.map (fun i => GadgetEvent.interface_destroy i.id)).map TreeEvent.lower,
              ?_, ?_, ⟨?_, ?_, ?_⟩, ?_, ?_, ?_⟩
            · rw [hw.2, hl]; simp
            · rw [hw.1]
              show w.allocs ≤ w2.allocs + 1
              omega
            · rw [lower_events_append, lower_events_append, hlow.1, hlowd.1,
                created_interfaces_append, created_interfaces_append, hde.1]
              simpa [lower_events, created_interfaces] using hnodup
            · intro _
              rw [lower_events_append, lower_events_append, hlow.1, hlowd.1,
                created_interfaces_append, created_interfaces_append,
                destroyed_interfaces_append, destroyed_interfaces_append, hde.1, hde.2.1,
                hd, hc]
              simp [lower_events, created_interfaces, destroyed_interfaces]
            · intro hne; simp at hne
            · rw [created_configs_append, created_configs_append, hlow.2.1, hlowd.2.1]
              simp [created_configs]
            · rw [destroyed_configs_append, destroyed_configs_append, hlow.2.2.1,
                hlowd.2.2.1]
              simp [destroyed_configs]
            · intro i hi; cases hi

theorem create_proxy_gadget_config_returns (env : TranslatorEnv) (desc : ConfigDescriptor)
    (w : TreeWorld) (h : config_parses env.fuel desc) :
    ∃ r, create_proxy_gadget_config env desc w = some r := by
  obtain ⟨descs, hd⟩ := extra_to_descriptors_returns desc.extra desc.extra_length env.fuel
    (env.alloc_ok w.allocs) h.1
  unfold create_proxy_gadget_config
  rw [hd]
  simp only
  split_ifs
  · exact ⟨_, rfl⟩
  · obtain ⟨p, hp⟩ := build_interfaces_returns env desc.interface.flatten []
      { allocs := w.allocs + 2, log := [] } h.2
    obtain ⟨ok, built, w2⟩ := p
    rw [hp]
    cases ok
    · exact ⟨_, rfl⟩
    · simp only [vdp_usb_gadget_config_create]
      split_ifs <;> exact ⟨_, rfl⟩

theorem build_configs_effect (env : TranslatorEnv) (todo : List ConfigDescriptor) :
    ∀ (built : List Config) (w : TreeWorld) (ok : Bool) (built1 : List Config)
      (w1 : TreeWorld),
      build_configs env todo built w = some (ok, built1, w1) →
      ∃ new evs, built1 = built ++ new ∧ w1.log = w.log ++ evs ∧ w.allocs ≤ w1.allocs ∧
        created_configs evs = new.map (fun c => c.id) ∧ destroyed_configs evs = [] ∧
        (∀ x, x ∈ created_configs evs → w.allocs ≤ x ∧ x < w1.allocs) ∧
        (created_configs evs).Pairwise (fun a b => a < b) ∧
        (ok = true → tree_creation_failed evs = false ∧ new.length = todo.length) := by
  induction todo with
  | nil =>
    intro built w ok built1 w1 h
    simp only [build_configs, Option.some.injEq, Prod.mk.injEq] at h
    obtain ⟨rfl, rfl, rfl⟩ := h
    exact ⟨[], [], by simp, by simp, le_refl _, rfl, rfl, by simp [created_configs],
      by simp [created_configs], fun _ => ⟨rfl, rfl⟩⟩
  | cons d later ih =>
    intro built w ok built1 w1 h
    simp only [build_configs] at h
    cases hi : create_proxy_gadget_config env d w with
    | none => rw [hi] at h; cases h
    | some p =>
      obtain ⟨r, w2⟩ := p
      obtain ⟨evs1, hl1, ha1, hu1, hc1, hd1, hid1⟩ :=
        create_proxy_gadget_config_effect env d w r w2 hi
      rw [hi] at h
      cases r with
      | none =>
        simp only [Option.some.injEq, Prod.mk.injEq] at h
        obtain ⟨rfl, rfl, rfl⟩ := h
        refine ⟨[], evs1, by simp, hl1, ha1, ?_, hd1, ?_, ?_, ?_⟩
        · rw [hc1]; rfl
        · intro x hx; rw [hc1] at hx; simp at hx
        · rw [hc1]; simp
        · intro hne; cases hne
      | some config =>
        simp only at h
        obtain ⟨new, evs, hb, hl, ha, hc, hd, hbound, hpair, hfail⟩ :=
          ih (built ++ [config]) w2 ok built1 w1 h
        have hidb := (hid1 config rfl).1
        have hc1b : created_configs evs1 = [config.id] := by rw [hc1]; rfl
        refine ⟨config :: new, evs1 ++ evs, ?_, ?_, by omega, ?_, ?_, ?_, ?_, ?_⟩
        · rw [hb]; simp
        · rw [hl, hl1]; simp
        · rw [created_configs_append, hc1b, hc]; simp
        · rw [destroyed_configs_append, hd1, hd]; rfl
        · intro x hx
          rw [created_configs_append, hc1b] at hx
          rcases List.mem_append.mp hx with hx | hx
          · rw [List.mem_singleton.mp hx]; omega
          · have := hbound x hx; omega
        · rw [created_configs_append, hc1b, List.singleton_append, List.pairwise_cons]
          refine ⟨?_, hpair⟩
          intro x hx
          have := hbound x hx
          omega
        · intro hok
          refine ⟨?_, by rw [List.length_cons, List.length_cons, (hfail hok).2]⟩
          rw [tree_creation_failed_append, (hfail hok).1, (hu1.2.2 rfl).2]
          rfl

theorem build_configs_returns (env : TranslatorEnv) (todo : List ConfigDescriptor) :
    ∀ (built : List Config) (w : TreeWorld),
      (∀ d ∈ todo, config_parses env.fuel d) →
      ∃ r, build_configs env todo built w = some r := by
  induction todo with
  | nil => intro built w _; exact ⟨_, rfl⟩
  | cons d later ih =>
    intro built w h
    obtain ⟨p, hp⟩ := create_proxy_gadget_config_returns env d w
      (h d (List.mem_cons_self _ _))
    obtain ⟨r, w1⟩ := p
    simp only [build_configs]
    rw [hp]
    cases r with
    | none => exact ⟨_, rfl⟩
    | some i => exact ih _ _ (fun x hx => h x (List.mem_cons_of_mem _ hx))

theorem destroy_configs_log (built : List Config) (endpoint0 : Ep) :
    ∀ w : TreeWorld, (destroy_configs built endpoint0 w).log = w.log ++
      built.map (fun c => TreeEvent.config_destroy c.id) ++
      [TreeEvent.lower (GadgetEvent.ep_destroy endpoint0.id)] := by
  have key : ∀ (l : List Config) (w : TreeWorld),
      (l.foldl (fun w c => vdp_usb_gadget_config_destroy c w) w).log =
        w.log ++ l.map (fun c => TreeEvent.config_destroy c.id) := by
    intro l
    induction l with
    | nil => intro w; simp
    | cons c rest ih =>
      intro w
      rw [List.foldl_cons, ih]
      simp [vdp_usb_gadget_config_destroy]
  intro w
  simp only [destroy_configs]
  rw [key]

theorem config_destroy_events (built : List Config) :
    created_configs (built.map (fun c => TreeEvent.config_destroy c.id)) = [] ∧
    destroyed_configs (built.map (fun c => TreeEvent.config_destroy c.id)) =
      built.map (fun c => c.id) ∧
    tree_creation_failed (built.map (fun c => TreeEvent.config_destroy c.id)) = false := by
  induction built with
  | nil => simp [created_configs, destroyed_configs, tree_creation_failed]
  | cons e rest ih =>
    obtain ⟨h1, h2, h3⟩ := ih
    simp only [created_configs, destroyed_configs, tree_creation_failed] at h1 h2 h3 ⊢
    simp [h1, h2, h3]

theorem create_proxy_gadget_effect (env : GadgetEnv) (dev_desc : DeviceDescriptor)
    (config_descs : List ConfigDescriptor) (w : TreeWorld) (r : Option Gadget)
    (w1 : TreeWorld)
    (h : create_proxy_gadget env dev_desc config_descs w = some (r, w1)) :
    ∃ evs, w1.log = w.log ++ evs ∧
      unwound (created_configs evs) (destroyed_configs evs) (tree_creation_failed evs)
        r.isNone ∧
      (∀ g, r = some g → g.caps.configs.map (fun c => c.id) = created_configs evs ∧
        g.caps.configs.length = config_descs.length) ∧
      (r = none → ∀ caps id, evs.head? = some (TreeEvent.lower (GadgetEvent.ep_create caps
          (some id))) →
        evs.getLast? = some (TreeEvent.lower (GadgetEvent.ep_destroy id))) := by
  unfold create_proxy_gadget at h
  simp only at h
  split_ifs at h with halloc
  · simp only [Option.some.injEq, Prod.mk.injEq] at h
    obtain ⟨rfl, rfl⟩ := h
    exact ⟨[], by simp, ⟨by simp [created_configs], fun _ => rfl, by simp⟩, by simp,
      by simp⟩
  · generalize hd0 : ({ bEndpointAddress := 0
                        bmAttributes := env.ENDPOINT_XFER_CONTROL
                        wMaxPacketSize := dev_desc.bMaxPacketSize0
                        bInterval := 0
                        extra := fun _ => 0
                        extra_length := 0 } : EndpointDescriptor) = ep0_desc at h
    cases hep : create_proxy_gadget_ep env.translator ep0_desc vdp_usb_gadget_ep_inout
        { allocs := w.allocs + 1, log := [] } with
    | none => rw [hep] at h; cases h
    | some p =>
      obtain ⟨r0, w0⟩ := p
      obtain ⟨ha0, hid0, caps0, hl0⟩ := create_proxy_gadget_ep_effect _ _ _ _ r0 w0 hep
      simp only [List.nil_append] at hl0
      rw [hep] at h
      cases r0 with
      | none =>
        simp only [Option.some.injEq, Prod.mk.injEq] at h
        obtain ⟨rfl, rfl⟩ := h
        refine ⟨[TreeEvent.lower (GadgetEvent.ep_create caps0 none)], ?_, ⟨?_, ?_, ?_⟩, ?_, ?_⟩
        · simp [after_lower, hl0]
        · simp [created_configs]
        · intro _; rfl
        · intro hne; simp at hne
        · intro g hg; cases hg
        · intro _ caps id hhead
          simp at hhead
      | some endpoint0 =>
        simp only at h
        simp only [Option.map_some'] at hl0
        cases hb : build_configs env.translator config_descs [] (after_lower w w0) with
        | none => rw [hb] at h; cases h
        | some p =>
          obtain ⟨ok, built, w2⟩ := p
          rw [hb] at h
          obtain ⟨new, evs, hnew, hl, ha, hc, hd, hbound, hpair, hfail⟩ :=
            build_configs_effect env.translator config_descs [] _ ok built w2 hb
          simp only [List.nil_append] at hnew
          subst hnew
          simp only [after_lower, hl0, List.map_cons, List.map_nil] at hl
          have hnodup : (created_configs evs).Nodup :=
            hpair.imp (fun hab => Nat.ne_of_lt hab)
          have hde := config_destroy_events built
          have hce0 : created_configs
              [TreeEvent.lower (GadgetEvent.ep_create caps0 (some endpoint0.id))] = [] := rfl
          have hde0 : destroyed_configs
              [TreeEvent.lower (GadgetEvent.ep_create caps0 (some endpoint0.id))] = [] := rfl
          have hcl : created_configs
              [TreeEvent.lower (GadgetEvent.ep_destroy endpoint0.id)] = [] := rfl
          have hdl : destroyed_configs
              [TreeEvent.lower (GadgetEvent.ep_destroy endpoint0.id)] = [] := rfl
          cases ok with
          | false =>
            simp only [Option.some.injEq, Prod.mk.injEq] at h
            obtain ⟨rfl, rfl⟩ := h
            refine ⟨[TreeEvent.lower (GadgetEvent.ep_create caps0 (some endpoint0.id))] ++ evs ++
              built.map (fun c => TreeEvent.config_destroy c.id) ++
              [TreeEvent.lower (GadgetEvent.ep_destroy endpoint0.id)], ?_, ⟨?_, ?_, ?_⟩, ?_, ?_⟩
            · rw [destroy_configs_log, hl]; simp
            · simp only [created_configs_append, hce0, hde.1, hcl, List.nil_append,
                List.append_nil]
              exact hnodup
            · intro _
              simp only [created_configs_append, destroyed_configs_append, hce0, hde0, hde.1,
                hde.2.1, hcl, hdl, hd, hc, List.nil_append, List.append_nil]
            · intro hne; simp at hne
            · intro g hg; cases hg
            · intro _ caps id hhead
              have hid : endpoint0.id = id := by
                simp only [List.append_assoc, List.singleton_append, List.cons_append,
                  List.head?, Option.some.injEq, TreeEvent.lower.injEq,
                  GadgetEvent.ep_create.injEq] at hhead
                exact hhead.2
              rw [← hid]
              exact List.getLast?_concat _
          | true =>
            simp only at h
            generalize hcaps : ({ bcd_usb := dev_desc.bcdUSB
                                  bcd_device := dev_desc.bcdDevice
                                  klass := dev_desc.bDeviceClass
                                  subklass := dev_desc.bDeviceSubClass
                                  protocol := dev_desc.bDeviceProtocol
                                  vendor_id := dev_desc.idVendor
                                  product_id := dev_desc.idProduct
                                  manufacturer := dev_desc.iManufacturer
                                  product := dev_desc.iProduct
                                  serial_number := dev_desc.iSerialNumber
                                  string_tables := create_string_tables env.strings
                                  configs := built
                                  endpoint0 := endpoint0 } : GadgetCaps) = caps at h
            have hconfigs : caps.configs = built := by rw [← hcaps]
            simp only [vdp_usb_gadget_create] at h
            split_ifs at h with halloc2
            · simp only [Option.some.injEq, Prod.mk.injEq] at h
              obtain ⟨rfl, rfl⟩ := h
              refine ⟨[TreeEvent.lower (GadgetEvent.ep_create caps0 (some endpoint0.id))] ++
                evs ++ [TreeEvent.gadget_create caps (some w2.allocs)], ?_, ⟨?_, ?_, ?_⟩,
                ?_, ?_⟩
              · rw [hl]; simp
              · simp only [created_configs_append, hce0, List.nil_append]
                simpa [created_configs] using hnodup
              · intro hne; simp at hne
              · intro _
                simp only [destroyed_configs_append, tree_creation_failed_append, hde0, hd,
                  (hfail rfl).1]
                simp [destroyed_configs, tree_creation_failed, creation_failed]
              · intro g hg
                cases hg
                refine ⟨?_, ?_⟩
                · simp only [created_configs_append, hce0, hc, List.nil_append]
                  simp [created_configs, hconfigs]
                · show caps.configs.length = _
                  rw [hconfigs]
                  exact (hfail rfl).2
              · intro hne; cases hne
            · simp only [Option.some.injEq, Prod.mk.injEq] at h
              obtain ⟨rfl, rfl⟩ := h
              refine ⟨[TreeEvent.lower (GadgetEvent.ep_create caps0 (some endpoint0.id))] ++
                evs ++ [TreeEvent.gadget_create caps none] ++
                built.map (fun c => TreeEvent.config_destroy c.id) ++
                [TreeEvent.lower (GadgetEvent.ep_destroy endpoint0.id)], ?_, ⟨?_, ?_, ?_⟩,
                ?_, ?_⟩
              · rw [destroy_configs_log, hl]; simp
              · simp only [created_configs_append, hce0, hde.1, hcl, List.nil_append,
                  List.append_nil]
                simpa [created_configs] using hnodup
              · intro _
                simp only [created_configs_append, destroyed_configs_append, hce0, hde0, hde.1,
                  hde.2.1, hcl, hdl, hd, hc, List.nil_append, List.append_nil]
                simp [created_configs, destroyed_configs]
              · intro hne; simp at hne
              · intro g hg; cases hg
              · intro _ caps1 id hhead
                have hid : endpoint0.id = id := by
                  simp only [List.append_assoc, List.singleton_append, List.cons_append,
                    List.head?, Option.some.injEq, TreeEvent.lower.injEq,
                    GadgetEvent.ep_create.injEq] at hhead
                  exact hhead.2
                rw [← hid]
                exact List.getLast?_concat _

theorem create_proxy_gadget_returns (env : GadgetEnv) (dev_desc : DeviceDescriptor)
    (config_descs : List ConfigDescriptor) (w : TreeWorld)
    (hfuel : 0 < env.translator.fuel)
    (h : ∀ d ∈ config_descs, config_parses env.translator.fuel d) :
    ∃ r, create_proxy_gadget env dev_desc config_descs w = some r := by
  obtain ⟨n, hn⟩ : ∃ n, env.translator.fuel = n + 1 := ⟨env.translator.fuel - 1, by omega⟩
  unfold create_proxy_gadget
  simp only
  split_ifs
  · exact ⟨_, rfl⟩
  · obtain ⟨r0, w0, h0⟩ := create_proxy_gadget_ep_returns env.translator
      { bEndpointAddress := 0
        bmAttributes := env.ENDPOINT_XFER_CONTROL
        wMaxPacketSize := dev_desc.bMaxPacketSize0
        bInterval := 0
        extra := fun _ => 0
        extra_length := 0 } vdp_usb_gadget_ep_inout { allocs := w.allocs + 1, log := [] }
      (by simp only [hn]; rw [extra_to_descriptors_empty]; rfl)
    rw [h0]
    cases r0 with
    | none => exact ⟨_, rfl⟩
    | some endpoint0 =>
      simp only
      obtain ⟨p, hp⟩ := build_configs_returns env.translator config_descs []
        (after_lower w w0) h
      obtain ⟨ok, built, w2⟩ := p
      rw [hp]
      cases ok
      · exact ⟨_, rfl⟩
      · simp only [vdp_usb_gadget_create]
        split_ifs <;> exact ⟨_, rfl⟩

/-- C17, amended: the three constructors of the translator, for every descriptor and
every outcome of the allocations. Each returns when the parses of extra bytes return.
Whenever one returns, the children its calls built are different objects; when the
result is absent, the children destroyed by its calls are exactly the children built, each
once and in the order of construction (child 0 first), and when the result is present no
child was destroyed, no constructor call failed and the object holds exactly the children
built, one for every interface or config descriptor, so a failed child or parent
constructor always gives the absent result and no partial tree. The children are the
endpoints of `create_proxy_gadget_interface`, the interfaces of
`create_proxy_gadget_config` and the configs of `create_proxy_gadget`, which destroys
endpoint 0 after the configs, as its last call. -/
theorem failed_construction_unwinds :
    (∀ (env : TranslatorEnv) (desc : InterfaceDescriptor) (w : World),
      (interface_parses env.fuel desc →
        ∃ r, create_proxy_gadget_interface env desc w = some r) ∧
      ∀ r w1, create_proxy_gadget_interface env desc w = some (r, w1) →
        ∃ evs, w1.log = w.log ++ evs ∧
          unwound (created_eps evs) (destroyed_eps evs) (creation_failed evs) r.isNone ∧
          (∀ i, r = some i → i.caps.endpoints.map (fun e => e.id) = created_eps evs)) ∧
    (∀ (env : TranslatorEnv) (desc : ConfigDescriptor) (w : TreeWorld),
      (config_parses env.fuel desc →
        ∃ r, create_proxy_gadget_config env desc w = some r) ∧
      ∀ r w1, create_proxy_gadget_config env desc w = some (r, w1) →
        ∃ evs, w1.log = w.log ++ evs ∧
          unwound (created_interfaces (lower_events evs))
            (destroyed_interfaces (lower_events evs)) (tree_creation_failed evs) r.isNone ∧
          (∀ c, r = some c →
            c.caps.interfaces.map (fun i => i.id) = created_interfaces (lower_events evs) ∧
            c.caps.interfaces.length = desc.interface.flatten.length)) ∧
    (∀ (env : GadgetEnv) (dev_desc : DeviceDescriptor) (config_descs : List ConfigDescriptor)
      (w : TreeWorld),
      (0 < env.translator.fuel →
        (∀ d ∈ config_descs, config_parses env.translator.fuel d) →
        ∃ r, create_proxy_gadget env dev_desc config_descs w = some r) ∧
      ∀ r w1, create_proxy_gadget env dev_desc config_descs w = some (r, w1) →
        ∃ evs, w1.log = w.log ++ evs ∧
          unwound (created_configs evs) (destroyed_configs evs) (tree_creation_failed evs)
            r.isNone ∧
          (∀ g, r = some g → g.caps.configs.map (fun c => c.id) = created_configs evs ∧
            g.caps.configs.length = config_descs.length) ∧
          (r = none → ∀ caps id,
            evs.head? = some (TreeEvent.lower (GadgetEvent.ep_create caps (some id))) →
            evs.getLast? = some (TreeEvent.lower (GadgetEvent.ep_destroy id)))) := by
  refine ⟨?_, ?_, ?_⟩
  · intro env desc w
    refine ⟨create_proxy_gadget_interface_returns env desc w, ?_⟩
    intro r w1 h
    obtain ⟨evs, hl, _, hu, _, _, hi⟩ := create_proxy_gadget_interface_effect env desc w r w1 h
    exact ⟨evs, hl, hu, fun i hri => (hi i hri).2⟩
  · intro env desc w
    refine ⟨create_proxy_gadget_config_returns env desc w, ?_⟩
    intro r w1 h
    obtain ⟨evs, hl, _, hu, _, _, hc⟩ := create_proxy_gadget_config_effect env desc w r w1 h
    exact ⟨evs, hl, hu, fun c hrc => (hc c hrc).2⟩
  · intro env dev_desc config_descs w
    refine ⟨create_proxy_gadget_returns env dev_desc config_descs w, ?_⟩
    intro r w1 h
    obtain ⟨evs, hl, hu, hg, hlast⟩ := create_proxy_gadget_effect env dev_desc config_descs w
      r w1 h
    exact ⟨evs, hl, hu, hg, hlast⟩

/-- C17 as stated fails on the order. For an interface with the endpoints 0x81 and 0x02
whose interface constructor fails (the allocation attempt number 6), and for one with a
third endpoint 0x03 whose construction fails (attempt number 7), the endpoints 3 and 5
were built in this order and are destroyed in this order, not 5 first. -/
theorem unwinding_order_counterexample :
    (create_proxy_gadget_interface (failing_env 6)
      (plain_interface [plain_endpoint 0x81, plain_endpoint 0x02]) ⟨0, []⟩).map
      (fun p => (p.1, created_eps p.2.log, destroyed_eps p.2.log)) =
      some (none, [3, 5], [3, 5]) ∧
    (create_proxy_gadget_interface (failing_env 7)
      (plain_interface [plain_endpoint 0x81, plain_endpoint 0x02, plain_endpoint 0x03])
      ⟨0, []⟩).map
      (fun p => (p.1, created_eps p.2.log, destroyed_eps p.2.log)) =
      some (none, [3, 5], [3, 5]) := by
  decide

theorem create_proxy_gadget_unwinds_sample :
    (create_proxy_gadget (failing_gadget_env 9) plain_device
      [plain_config [], plain_config []] ⟨0, []⟩).map
      (fun p => (p.1, created_configs p.2.log, destroyed_configs p.2.log,
        p.2.log.getLast?)) =
      some (none, [5, 8], [5, 8], some (TreeEvent.lower (GadgetEvent.ep_destroy 2))) ∧
    (create_proxy_gadget_config (failing_env 10)
      (plain_config [[plain_interface [plain_endpoint 0x81]], [plain_interface []]])
      ⟨0, []⟩).map
      (fun p => (p.1, created_interfaces (lower_events p.2.log),
        destroyed_interfaces (lower_events p.2.log))) =
      some (none, [6, 9], [6, 9]) := by
  decide

/-! ## Theorems: the bounds of the string tables -/

theorem language_id_little_endian (buf1 : Nat → Nat) (i : Nat) :
    language_id_at buf1 i =
      buf1 (2 * (i + 1)) % 256 + 256 * (buf1 (2 * (i + 1) + 1) % 256) := by
  have h : buf1 ((i + 1) * 2) % 256 < 2 ^ 8 := Nat.mod_lt _ (by decide)
  unfold language_id_at
  rw [Nat.shiftLeft_eq, Nat.or_comm, Nat.mul_comm,
    ← Nat.mul_add_lt_is_or h (buf1 (1 + (i + 1) * 2) % 256)]
  have e1 : (i + 1) * 2 = 2 * (i + 1) := by omega
  have e2 : 1 + 2 * (i + 1) = 2 * (i + 1) + 1 := by omega
  rw [e1, e2]
  omega

theorem array_of_append (acc : List VdpUsbString) (x : VdpUsbString) :
    set_at (array_of acc) acc.length (some x) = array_of (acc ++ [x]) := by
  funext k
  unfold set_at array_of
  by_cases hk : k = acc.length
  · subst hk
    simp
  · rw [if_neg hk]
    by_cases hlt : k < acc.length
    · rw [List.getElem?_append_left hlt]
    · rw [List.getElem?_eq_none (by omega), List.getElem?_eq_none (by simp; omega)]

theorem scan_array_refines (env : StringEnv) (i : Nat) :
    ∀ (n j : Nat) (acc : List VdpUsbString), acc.length + n < STRINGS_LENGTH →
      scan_array env i n j (array_of acc) acc.length =
        match scan_strings env i n j acc with
        | none => ScanOutcome.fail
        | some strings => ScanOutcome.done (array_of strings) strings.length := by
  intro n
  induction n with
  | zero => intro j acc _; rfl
  | succ n ih =>
    intro j acc hlen
    simp only [scan_array, scan_strings]
    have hidx : ¬ STRINGS_LENGTH ≤ acc.length := by omega
    split_ifs
    · rfl
    · exact ih (j + 1) acc (by omega)
    · exact ih (j + 1) acc (by omega)
    · exact ih (j + 1) acc (by omega)
    · rfl
    · rw [array_of_append]
      have h := ih (j + 1)
        (acc ++ [⟨j, env.utf16le_to_utf8
          (string_payload (env.get_string i j).2 (((env.get_string i j).1 - 2) / 2))⟩])
        (by rw [List.length_append]; simp; omega)
      rw [List.length_append] at h
      exact h

theorem scan_array_in_bounds (env : StringEnv) (i : Nat) :
    ∀ (n j : Nat) (slots : Nat → Option VdpUsbString) (idx : Nat),
      idx + n ≤ STRINGS_LENGTH →
      scan_array env i n j slots idx ≠ ScanOutcome.out_of_bounds := by
  intro n
  induction n with
  | zero => intro j slots idx _; simp [scan_array]
  | succ n ih =>
    intro j slots idx hlen
    simp only [scan_array]
    have hidx : ¬ STRINGS_LENGTH ≤ idx := by omega
    split_ifs
    · simp
    · exact ih (j + 1) slots idx (by omega)
    · exact ih (j + 1) slots idx (by omega)
    · exact ih (j + 1) slots idx (by omega)
    · simp
    · exact ih (j + 1) _ (idx + 1) (by omega)

theorem reference_indices_bounds (env : StringEnv) (i : Nat) :
    (reference_indices env i).length ≤ 255 ∧
    (reference_indices env i).Pairwise (fun a b => a < b) ∧
    ∀ x, x ∈ reference_indices env i → 1 ≤ x ∧ x ≤ 255 := by
  have hsub : (reference_indices env i).Sublist (List.range' 1 255) :=
    (List.filter_sublist _).trans (List.takeWhile_sublist _)
  refine ⟨?_, (List.pairwise_lt_range' 1 255).sublist hsub, ?_⟩
  · have := hsub.length_le
    simpa using this
  · intro x hx
    have := List.mem_range'_1.mp (hsub.subset hx)
    omega

theorem fill_tables_scans (env : StringEnv) (buf1 : Nat → Nat) :
    ∀ (n i0 : Nat) (tables : List StringTable), fill_tables env buf1 n i0 = some tables →
      tables.length = n ∧
      ∀ k, k < n → ∃ strings,
        tables[k]? = some ⟨language_id_at buf1 (i0 + k), some strings⟩ ∧
        scan_strings env (i0 + k) 255 1 [] = some strings := by
  intro n
  induction n with
  | zero =>
    intro i0 tables h
    simp only [fill_tables, Option.some.injEq] at h
    subst h
    exact ⟨rfl, fun k hk => absurd hk (Nat.not_lt_zero k)⟩
  | succ n ih =>
    intro i0 tables h
    simp only [fill_tables] at h
    split_ifs at h
    cases hscan : scan_strings env i0 255 1 [] with
    | none => rw [hscan] at h; cases h
    | some strings =>
      rw [hscan] at h
      cases hrest : fill_tables env buf1 n (i0 + 1) with
      | none => rw [hrest] at h; cases h
      | some rest =>
        rw [hrest] at h
        simp only [Option.some.injEq] at h
        subst h
        obtain ⟨hlen, hspec⟩ := ih (i0 + 1) rest hrest
        refine ⟨by simp [hlen], ?_⟩
        intro k hk
        cases k with
        | zero => exact ⟨strings, by simp, hscan⟩
        | succ k =>
          obtain ⟨strs, hget, hs⟩ := hspec k (by omega)
          have e : i0 + (k + 1) = i0 + 1 + k := by omega
          refine ⟨strs, ?_, ?_⟩
          · rw [List.getElem?_cons_succ, hget, e]
          · rw [e]; exact hs

/-- C21: for every answer to the language-list query, of length r, and all answers to
the string queries. `create_string_tables` gives `NULL` when r is negative, below 4 or
odd. For an even r of at least 4 and with the allocations succeeding it gives (r - 2) / 2
tables followed by the zero terminator; the language id of table i is the little-endian
16-bit value of the bytes 2(i+1) and 2(i+1)+1 of the answer, both below r; the entries
stored in a table are at most 255, their indices are strictly increasing and lie in
1..255, and the scan on the array of 256 slots ends with these entries at its start and
the write position on a slot of the array that is still zero. Whatever the allocations
do, no entry is written beyond the array. -/
theorem create_string_tables_bounds (env : StringEnv) :
    ((env.langs.1 < 0 ∨ env.langs.1 < 4 ∨ env.langs.1 % 2 ≠ 0) →
      create_string_tables env = none) ∧
    (4 ≤ env.langs.1 → env.langs.1 % 2 = 0 → env.tables_alloc_ok = true →
      (∀ i, env.strings_alloc_ok i = true) → (∀ i j, env.str_alloc_ok i j = true) →
      ∃ tables, create_string_tables env = some (tables ++ [⟨0, none⟩]) ∧
        ((tables.length : Nat) : Int) = (env.langs.1 - 2) / 2 ∧
        ∀ i, i < tables.length → ∃ strings,
          tables[i]? = some
            ⟨env.langs.2 (2 * (i + 1)) % 256 + 256 * (env.langs.2 (2 * (i + 1) + 1) % 256),
              some strings⟩ ∧
          ((2 * (i + 1) + 1 : Nat) : Int) < env.langs.1 ∧
          strings.length ≤ 255 ∧
          (strings.map (fun e => e.index)).Pairwise (fun a b => a < b) ∧
          (∀ e, e ∈ strings → 1 ≤ e.index ∧ e.index ≤ 255) ∧
          scan_array env i 255 1 (fun _ => none) 0 =
            ScanOutcome.done (array_of strings) strings.length ∧
          strings.length < STRINGS_LENGTH ∧
          array_of strings strings.length = none) ∧
    (∀ i, scan_array env i 255 1 (fun _ => none) 0 ≠ ScanOutcome.out_of_bounds) := by
  refine ⟨?_, ?_, ?_⟩
  · intro h
    unfold create_string_tables
    simp only
    split_ifs with h1 h2 h3
    · rfl
    · rfl
    · rfl
    · exfalso; omega
    · exfalso; omega
  · intro hres heven h1 h2 h3
    obtain ⟨tables, hfill, hlen, hspec⟩ :=
      fill_tables_spec env env.langs.2 h2 h3 ((env.langs.1 - 2) / 2).toNat 0
    obtain ⟨_, hscans⟩ := fill_tables_scans env env.langs.2 _ 0 tables hfill
    refine ⟨tables, ?_, ?_, ?_⟩
    · have hn : ¬ env.langs.1 < 0 := by omega
      have hs : ¬ env.langs.1 < 4 := by omega
      have he : ¬ ((env.langs.1 - 2) % 2 ≠ 0) := by omega
      simp only [create_string_tables, hn, hs, he, h1, if_false, Bool.not_true,
        Bool.false_eq_true, hfill]
    · rw [hlen]
      omega
    · intro i hi
      rw [hlen] at hi
      obtain ⟨strings, hget, hidx⟩ := hspec i hi
      obtain ⟨strings1, hget1, hscan⟩ := hscans i hi
      rw [hget] at hget1
      simp only [Option.some.injEq, StringTable.mk.injEq, true_and] at hget1
      subst hget1
      rw [Nat.zero_add] at hget hidx hscan
      have hb := reference_indices_bounds env i
      have hl : strings.length ≤ 255 := by
        have := hb.1
        rw [← hidx, List.length_map] at this
        exact this
      have href := scan_array_refines env i 255 1 [] (by decide)
      rw [hscan] at href
      refine ⟨strings, ?_, by omega, hl, ?_, ?_, href, ?_, ?_⟩
      · rw [hget, language_id_little_endian]
      · rw [hidx]; exact hb.2.1
      · intro e he
        exact hb.2.2 e.index (by rw [← hidx]; exact List.mem_map_of_mem _ he)
      · unfold STRINGS_LENGTH; omega
      · simp [array_of]
  · intro i
    exact scan_array_in_bounds env i 255 1 _ 0 (by decide)

/-- C21 at the sample device, whose language list has 6 bytes: two tables with the
language ids 0x0409 and 0x0407 and the entries of the indices 1 and 5, then the
terminator; the scan of table 0 leaves the write position 2 on a zero slot. -/
theorem create_string_tables_bounds_witness :
    create_string_tables sample_string_env =
      some [⟨1033, some [⟨1, [65]⟩, ⟨5, []⟩]⟩, ⟨1031, some [⟨1, [65]⟩, ⟨5, []⟩]⟩, ⟨0, none⟩] ∧
    scan_array sample_string_env 0 255 1 (fun _ => none) 0 =
      ScanOutcome.done (array_of [⟨1, [65]⟩, ⟨5, []⟩]) 2 ∧
    (∀ i, scan_array sample_string_env i 255 1 (fun _ => none) 0 ≠
      ScanOutcome.out_of_bounds) := by
  have hval : create_string_tables sample_string_env =
      some [⟨1033, some [⟨1, [65]⟩, ⟨5, []⟩]⟩, ⟨1031, some [⟨1, [65]⟩, ⟨5, []⟩]⟩,
        ⟨0, none⟩] := by
    decide
  obtain ⟨tables, hrun, _, hspec⟩ := (create_string_tables_bounds sample_string_env).2.1
    (by decide) (by decide) rfl (fun _ => rfl) (fun _ _ => rfl)
  rw [hval] at hrun
  have ht : tables = [⟨1033, some [⟨1, [65]⟩, ⟨5, []⟩]⟩, ⟨1031, some [⟨1, [65]⟩, ⟨5, []⟩]⟩] := by
    have := Option.some.inj hrun
    exact (List.append_inj_left' this rfl).symm
  subst ht
  obtain ⟨strings, hget, _, _, _, _, hscan, _, _⟩ := hspec 0 (by decide)
  have hs : strings = [⟨1, [65]⟩, ⟨5, []⟩] := by
    simp only [List.getElem?_cons_zero, Option.some.injEq, StringTable.mk.injEq] at hget
    exact hget.2.symm
  subst hs
  exact ⟨hval, hscan, (create_string_tables_bounds sample_string_env).2.2⟩

/-! ## Theorems: the endpoint list handed to the interface constructor -/

/-- C3: for every interface descriptor whose parses of extra bytes return, and every
outcome of the allocations, `create_proxy_gadget_interface` returns. Whenever it calls
the interface constructor, the endpoint list in the capabilities it hands over is the
reference of the specification: one endpoint per distinct endpoint number of the
descriptor list, in the order of first occurrence, whose direction set holds IN when an
entry with that number has the direction bit set and OUT when an entry with that number
has it clear; no two endpoints of the list have the same address, and a returned
interface holds these capabilities. When the array of endpoints is allocated and no
endpoint construction fails, the interface constructor is called. -/
theorem create_proxy_gadget_interface_dedup (env : TranslatorEnv) (desc : InterfaceDescriptor)
    (w : World) (hparse : interface_parses env.fuel desc) :
    ∃ r w1 evs, create_proxy_gadget_interface env desc w = some (r, w1) ∧
      w1.log = w.log ++ evs ∧
      (∀ caps result, GadgetEvent.interface_create caps result ∈ evs →
        caps.endpoints.map Ep.key = spec_endpoints env.macros desc.endpoint ∧
        (caps.endpoints.map (fun e => e.caps.address)).Nodup ∧
        (∀ n, n ∈ caps.endpoints.map (fun e => e.caps.address) ↔
          n ∈ desc.endpoint.map (fun d => env.macros.ENDPOINT_NUMBER d.bEndpointAddress)) ∧
        (∀ i, r = some i → i.caps = caps)) ∧
      (env.alloc_ok (w.allocs + 1) = true →
        (∀ caps, GadgetEvent.ep_create caps none ∉ evs) →
        ∃ caps result, GadgetEvent.interface_create caps result ∈ evs) ∧
      (∀ i, r = some i → GadgetEvent.interface_create i.caps (some i.id) ∈ evs) := by
  obtain ⟨descs, hdescs⟩ := extra_to_descriptors_returns desc.extra desc.extra_length env.fuel
    (env.alloc_ok w.allocs) hparse.1
  unfold create_proxy_gadget_interface
  rw [hdescs]
  simp only
  by_cases halloc : (!env.alloc_ok (w.allocs + 1)) = true
  · rw [if_pos halloc]
    refine ⟨none, _, [], rfl, by simp, ?_, ?_, ?_⟩
    · intro caps result h; simp at h
    · intro h; rw [h] at halloc; simp at halloc
    · intro i h; cases h
  · rw [if_neg halloc]
    obtain ⟨p, hp⟩ := build_endpoints_returns env desc.endpoint []
      { allocs := w.allocs + 1 + 1, log := w.log } hparse.2
    obtain ⟨ok, built, w2⟩ := p
    obtain ⟨evs, hl, hev, hfail, hkey⟩ :=
      build_endpoints_run env desc.endpoint [] _ ok built w2 hp
    rw [hp]
    have hnocreate : ∀ caps result, GadgetEvent.interface_create caps result ∉ evs := by
      intro caps result h
      obtain ⟨c, r, hc⟩ := hev _ h
      cases hc
    cases ok with
    | false =>
      have hw := destroy_endpoints_log built w2
      refine ⟨none, _, evs ++ built.map (fun e => GadgetEvent.ep_destroy e.id), rfl, ?_, ?_,
        ?_, ?_⟩
      · rw [hw.2, hl]; simp
      · intro caps result h
        rcases List.mem_append.mp h with h | h
        · exact absurd h (hnocreate caps result)
        · exact absurd h (destroy_events_no_create built caps result)
      · intro _ hnone
        obtain ⟨c, hc⟩ := hfail rfl
        exact absurd (List.mem_append_left _ hc) (hnone c)
      · intro i h; cases h
    | true =>
      have hkey1 := hkey rfl
      simp only [List.map_nil, List.not_mem_nil, not_false_eq_true, decide_True,
        List.filter_true, List.nil_append] at hkey1
      rw [reference_endpoints_eq_spec] at hkey1
      have haddr : built.map (fun e => e.caps.address) =
          first_occurrences
            (desc.endpoint.map (fun d => env.macros.ENDPOINT_NUMBER d.bEndpointAddress)) := by
        have h := congrArg (List.map Prod.fst) hkey1
        simpa [spec_endpoints, Ep.key, Function.comp_def] using h
      have hprops : ∀ caps : InterfaceCaps, caps.endpoints = built →
          caps.endpoints.map Ep.key = spec_endpoints env.macros desc.endpoint ∧
          (caps.endpoints.map (fun e => e.caps.address)).Nodup ∧
          (∀ n, n ∈ caps.endpoints.map (fun e => e.caps.address) ↔
            n ∈ desc.endpoint.map
              (fun d => env.macros.ENDPOINT_NUMBER d.bEndpointAddress)) := by
        intro caps hc
        rw [hc]
        refine ⟨hkey1, ?_, ?_⟩
        · rw [haddr]; exact first_occurrences_nodup _
        · intro n; rw [haddr]; exact mem_first_occurrences _ n
      simp only
      generalize hcaps : ({ number := desc.bInterfaceNumber
                            alt_setting := desc.bAlternateSetting
                            klass := desc.bInterfaceClass
                            subklass := desc.bInterfaceSubClass
                            protocol := desc.bInterfaceProtocol
                            description := desc.iInterface
                            descriptors := descs
                            endpoints := built } : InterfaceCaps) = caps0
      have hends : caps0.endpoints = built := by rw [← hcaps]
      simp only [vdp_usb_gadget_interface_create]
      by_cases hc2 : env.alloc_ok w2.allocs = true
      · rw [if_pos hc2]
        refine ⟨some ⟨w2.allocs, caps0⟩, _,
          evs ++ [GadgetEvent.interface_create caps0 (some w2.allocs)], rfl, ?_, ?_, ?_, ?_⟩
        · rw [hl]; simp
        · intro caps result h
          rcases List.mem_append.mp h with h | h
          · exact absurd h (hnocreate caps result)
          · simp only [List.mem_singleton, GadgetEvent.interface_create.injEq] at h
            obtain ⟨rfl, _⟩ := h
            obtain ⟨h1, h2, h3⟩ := hprops caps hends
            exact ⟨h1, h2, h3, fun i hi => by cases hi; rfl⟩
        · intro _ _
          exact ⟨caps0, some w2.allocs, List.mem_append_right _ (List.mem_singleton.mpr rfl)⟩
        · intro i hi
          cases hi
          exact List.mem_append_right _ (List.mem_singleton.mpr rfl)
      · rw [if_neg hc2]
        have hw := destroy_endpoints_log built
          { allocs := w2.allocs + 1,
            log := w2.log ++ [GadgetEvent.interface_create caps0 none] }
        refine ⟨none, _, evs ++ [GadgetEvent.interface_create caps0 none] ++
          built.map (fun e => GadgetEvent.ep_destroy e.id), rfl, ?_, ?_, ?_, ?_⟩
        · rw [hw.2, hl]; simp
        · intro caps result h
          rcases List.mem_append.mp h with h | h
          · rcases List.mem_append.mp h with h | h
            · exact absurd h (hnocreate caps result)
            · simp only [List.mem_singleton, GadgetEvent.interface_create.injEq] at h
              obtain ⟨rfl, _⟩ := h
              obtain ⟨h1, h2, h3⟩ := hprops caps hends
              exact ⟨h1, h2, h3, fun i hi => by cases hi⟩
          · exact absurd h (destroy_events_no_create built caps result)
        · intro _ _
          exact ⟨caps0, none, List.mem_append_left _
            (List.mem_append_right _ (List.mem_singleton.mpr rfl))⟩
        · intro i hi; cases hi

/-- C3, at the descriptor list with the addresses 0x81 and 0x01 and all allocations
succeeding: the interface constructor is called, and with a single endpoint of address 1
and direction IN|OUT. The reference itself gives IN for the address 0x81 alone and OUT
for the address 0x02 alone. -/
theorem create_proxy_gadget_interface_dedup_witness :
    (∃ r w1 evs,
      create_proxy_gadget_interface plain_env
        (plain_interface [plain_endpoint 0x81, plain_endpoint 0x01]) ⟨0, []⟩ = some (r, w1) ∧
      w1.log = evs ∧
      (∀ caps result, GadgetEvent.interface_create caps result ∈ evs →
        caps.endpoints.map Ep.key = [(1, vdp_usb_gadget_ep_inout)]) ∧
      (∃ caps, GadgetEvent.interface_create caps (some 4) ∈ evs)) ∧
    spec_endpoints spec_macros [plain_endpoint 0x81] = [(1, vdp_usb_gadget_ep_in)] ∧
    spec_endpoints spec_macros [plain_endpoint 0x02] = [(2, vdp_usb_gadget_ep_out)] := by
  refine ⟨?_, by decide, by decide⟩
  obtain ⟨r, w1, evs, hrun, hlog, hcaps, _, hret⟩ := create_proxy_gadget_interface_dedup
    plain_env (plain_interface [plain_endpoint 0x81, plain_endpoint 0x01]) ⟨0, []⟩
    ⟨by rfl, by
      intro d hd
      simp only [plain_interface, List.mem_cons, List.mem_singleton, List.not_mem_nil,
        or_false] at hd
      rcases hd with rfl | rfl <;> rfl⟩
  have hspec : spec_endpoints plain_env.macros
      (plain_interface [plain_endpoint 0x81, plain_endpoint 0x01]).endpoint =
      [(1, vdp_usb_gadget_ep_inout)] := by decide
  have hsome : (create_proxy_gadget_interface plain_env
      (plain_interface [plain_endpoint 0x81, plain_endpoint 0x01]) ⟨0, []⟩).map
      (fun p => p.1.map (fun i => i.id)) = some (some 4) := by decide
  rw [hrun] at hsome
  simp only [Option.map_some', Option.some.injEq] at hsome
  cases r with
  | none => simp at hsome
  | some i =>
    simp only [Option.map_some', Option.some.injEq] at hsome
    refine ⟨some i, w1, evs, hrun, by simpa using hlog, ?_, ?_⟩
    · intro caps result h
      rw [(hcaps caps result h).1, hspec]
    · exact ⟨i.caps, by rw [← hsome]; exact hret i rfl⟩

end Vdp
